import Mathlib

/-
Verification development for the collider-rs continuous 2D collision
detection engine.

The development shallowly embeds the Rust sources:
  * `src/core/events.rs`        (event queue, `EventManager`)
  * `src/util.rs`               (`quad_root_ascending`, `TightSet`)
  * `src/core/dur_hitbox/*.rs`  (continuous-time solvers)
  * `src/core/collider.rs`      (orchestrator)
  * `src/core/grid.rs`          (sparse broad-phase grid)

Modelling conventions:
  * `f64` values that are compared and added, but never passed through
    irrational functions (event times, durations, the orchestrator's
    clock), are modelled as rationals extended with a positive infinity
    (`WithTop ℚ`), written `Time` below.  This captures every total-order
    and saturating-addition fact the code relies on; NaN never occurs on
    the modelled paths (`N64`/`n64` assert against it).
  * `f64` values flowing through the geometric solvers are modelled as
    ideal reals (`ℝ`), with solver results in `EReal` so that the
    `f64::INFINITY` sentinel and IEEE division by zero are represented
    faithfully.
  * A Rust `panic!` / failed `assert!` is modelled by returning `none`
    from an `Option`-valued function: a run that completes is a run in
    which no assertion fired.
-/

/-! ### Time values -/

/-- Simulation times and durations: finite rationals plus `+∞`. -/
abbrev Time := WithTop ℚ

/-- The `HIGH_TIME` sentinel from `src/core/mod.rs`: `1e50`. -/
def HIGH_TIME : Time := ((10 : ℚ) ^ 50 : ℚ)

/-- Extract the finite part of a `Time` (junk value `0` at `⊤`; only used
underneath guards that ensure finiteness, mirroring the
`assert!(time < HIGH_TIME)` guards in the source). -/
def Time.toQ : Time → ℚ
  | (q : ℚ) => q
  | ⊤ => 0

/-! ### Hitbox identifiers and internal events (`src/core/events.rs`) -/

/-- Hitbox id (`pub type HbId = u64`); modelled as `ℕ`. -/
abbrev HbId := ℕ

/-- The constant `PAIR_BASE: u64 = 0x8000_0000_0000_0000`. -/
def PAIR_BASE : ℕ := 2 ^ 63

/-- The struct `EventKey { time: f64, index: u64 }`. -/
structure EventKey where
  time : Time
  index : ℕ
  deriving DecidableEq

/-- The `Ord` impl for `EventKey`: compare `index` when the times are
equal, otherwise compare the (non-NaN) times. -/
def EventKey.keyLt (a b : EventKey) : Prop :=
  if a.time = b.time then a.index < b.index else a.time < b.time

instance (a b : EventKey) : Decidable (EventKey.keyLt a b) := by
  unfold EventKey.keyLt; infer_instance

/-- Non-strict version of the `EventKey` ordering. -/
def EventKey.keyLe (a b : EventKey) : Prop :=
  EventKey.keyLt a b ∨ a = b

instance (a b : EventKey) : Decidable (EventKey.keyLe a b) := by
  unfold EventKey.keyLe; infer_instance

/-- The enum `InternalEvent`.  The two `Panic` variants exist only under
`cfg(debug_assertions)`; they are carried along so that both compilation
profiles of the queue are covered. -/
inductive InternalEvent where
  | panicSmallHitbox (id : HbId)
  | panicDurationPassed (id : HbId)
  | reiterate (id : HbId)
  | collide (a b : HbId)
  | separate (a b : HbId)
  deriving DecidableEq

/-- The method `InternalEvent::involved_hitbox_ids`, returned as the
one- or two-element list produced by `OneOrTwo::iter` (`src/util.rs`). -/
def InternalEvent.involvedHitboxIds : InternalEvent → List HbId
  | .panicSmallHitbox id => [id]
  | .panicDurationPassed id => [id]
  | .reiterate id => [id]
  | .collide a b => [a, b]
  | .separate a b => [a, b]

/-- The struct `EventManager { events: BTreeMap<EventKey, InternalEvent>,
next_event_index: u64 }`.  The `BTreeMap` is modelled as a list of
key-value pairs maintained in strictly ascending key order. -/
structure EventManager where
  events : List (EventKey × InternalEvent)
  next_event_index : ℕ
  deriving DecidableEq

/-- The constructor `EventManager::new`. -/
def EventManager.new : EventManager := ⟨[], 0⟩

/-- Ordered insertion into the `BTreeMap` model.  The inserted key is
always fresh (its index comes from the monotone counter), so the
equal-key case never occurs; it is resolved by replacement, as a map
insert would. -/
def insertEvent (key : EventKey) (ev : InternalEvent) :
    List (EventKey × InternalEvent) → List (EventKey × InternalEvent)
  | [] => [(key, ev)]
  | kv :: rest =>
    if EventKey.keyLt key kv.1 then (key, ev) :: kv :: rest
    else if key = kv.1 then (key, ev) :: rest
    else kv :: insertEvent key ev rest

/-- The method `EventManager::new_event_key`.  The outer `Option` is the
panic monad (the `assert!(index < PAIR_BASE)`), the inner `Option` is the
Rust return value: `none` when `time >= HIGH_TIME`. -/
def EventManager.newEventKey (m : EventManager) (time : Time) (forPair : Bool) :
    Option (Option EventKey × EventManager) :=
  if HIGH_TIME ≤ time then some (none, m)
  else if m.next_event_index < PAIR_BASE then
    let index := m.next_event_index + (if forPair then PAIR_BASE else 0)
    some (some ⟨time, index⟩,
      { m with next_event_index := m.next_event_index + 1 })
  else none

/-- Lookup in the `BTreeMap` model (used to state the `is_none` assert of
the map insert). -/
def findEvent (key : EventKey) : List (EventKey × InternalEvent) → Option InternalEvent
  | [] => none
  | (k, e) :: rest => if k = key then some e else findEvent key rest

/-- The method `EventManager::add_solitaire_event`. -/
def EventManager.addSolitaireEvent (m : EventManager) (time : Time)
    (event : InternalEvent) (keySet : Finset EventKey) :
    Option (EventManager × Finset EventKey) := do
  let (key?, m') ← m.newEventKey time false
  match key? with
  | none => some (m', keySet)
  | some key =>
    if findEvent key m'.events = none then
      if key ∈ keySet then none
      else some ({ m' with events := insertEvent key event m'.events },
        insert key keySet)
    else none

/-- The method `EventManager::add_pair_event`. -/
def EventManager.addPairEvent (m : EventManager) (time : Time)
    (event : InternalEvent) (firstKeySet secondKeySet : Finset EventKey) :
    Option (EventManager × Finset EventKey × Finset EventKey) := do
  let (key?, m') ← m.newEventKey time true
  match key? with
  | none => some (m', firstKeySet, secondKeySet)
  | some key =>
    if findEvent key m'.events = none then
      if key ∈ firstKeySet then none
      else if key ∈ secondKeySet then none
      else some ({ m' with events := insertEvent key event m'.events },
        insert key firstKeySet, insert key secondKeySet)
    else none

/-- The method `EventManager::peek_time`. -/
def EventManager.peekTime (m : EventManager) : Time :=
  match m.events with
  | [] => ⊤
  | (k, _) :: _ => k.time

/-- Removal of `key` from the `event_keys` sets of every hitbox involved
in `event`, asserting success, as done in `EventManager::next`. -/
def removeKeyFromSets (key : EventKey) (ids : List HbId)
    (ks : HbId → Finset EventKey) : Option (HbId → Finset EventKey) :=
  match ids with
  | [] => some ks
  | id :: rest =>
    if key ∈ ks id then
      removeKeyFromSets key rest
        (fun i => if i = id then (ks id).erase key else ks i)
    else none

/-- The method `EventManager::next`: when the first key's time equals
`time`, remove it (and remove the key from each involved hitbox's key
set) and return the event. -/
def EventManager.next (m : EventManager) (time : Time)
    (ks : HbId → Finset EventKey) :
    Option (Option InternalEvent × EventManager × (HbId → Finset EventKey)) :=
  match m.events with
  | [] => some (none, m, ks)
  | (key, event) :: rest =>
    if key.time = time then do
      let ks' ← removeKeyFromSets key event.involvedHitboxIds ks
      some (some event, { m with events := rest }, ks')
    else some (none, m, ks)

/-! ### `TightSet` (`src/util.rs`)

The underlying `HashSet` is modelled as a `Finset`.  The capacity
bookkeeping (`shrink_to_fit`, `MIN_TIGHT_SET_CAPACITY`) has no effect on
the set of elements and is not represented. -/

/-- The body of `TightSet::remove` as written in `src/util.rs`: its first
statement is `let success = self.remove(value);`, which re-enters
`TightSet::remove` itself with unchanged arguments (rather than
delegating to `self.set.remove(value)`).  The recursion is modelled with
explicit fuel; `none` means the computation has not produced a result
within the given recursion depth. -/
def TightSet.removeFuel {α : Type} [DecidableEq α] :
    ℕ → Finset α → α → Option (Bool × Finset α)
  | 0, _, _ => none
  | fuel + 1, s, v =>
    match TightSet.removeFuel fuel s v with
    | none => none
    | some (success, s') =>
      -- the capacity-shrinking epilogue does not change the element set
      some (success, s')

/-- The behaviour `TightSet::remove` is specified to have (and which the
rest of the code base relies on): remove `v`, report whether it was
present. -/
def TightSet.removeSpec {α : Type} [DecidableEq α] (s : Finset α) (v : α) :
    Bool × Finset α :=
  (v ∈ s, s.erase v)

/-- Key order on queue entries. -/
def entryLt (a b : EventKey × InternalEvent) : Prop := a.1.keyLt b.1

instance (a b : EventKey × InternalEvent) : Decidable (entryLt a b) := by
  unfold entryLt; infer_instance

instance : IsTrans (EventKey × InternalEvent) entryLt :=
  ⟨by
    intro a b c h1 h2
    have key : ∀ x y : EventKey, x.keyLt y ↔
        (x.time < y.time ∨ (x.time = y.time ∧ x.index < y.index)) := by
      intro x y
      unfold EventKey.keyLt
      by_cases h : x.time = y.time <;> simp [h]
    unfold entryLt at h1 h2 ⊢
    rw [key] at h1 h2 ⊢
    rcases h1 with h1 | ⟨e1, i1⟩
    · rcases h2 with h2 | ⟨e2, i2⟩
      · exact Or.inl (lt_trans h1 h2)
      · exact Or.inl (e2 ▸ h1)
    · rcases h2 with h2 | ⟨e2, i2⟩
      · exact Or.inl (e1 ▸ h2)
      · exact Or.inr ⟨e1.trans e2, lt_trans i1 i2⟩⟩

/-- Well-formedness of the `BTreeMap` model: entries in strictly
ascending key order. -/
abbrev EventsSorted (l : List (EventKey × InternalEvent)) : Prop :=
  l.Pairwise entryLt

/-! ### Claim C7: `HIGH_TIME` filtering in the event queue -/

/-- Raw allocation index of a key: the stored index with the pair bit
(`PAIR_BASE`) removed. -/
def EventKey.rawIndex (k : EventKey) : ℕ :=
  if k.index < PAIR_BASE then k.index else k.index - PAIR_BASE

/-- Freshness invariant tying a key set (and the queue) to the monotone
allocation counter: every existing key was allocated with an earlier
counter value. -/
def FreshFor (m : EventManager) (ks : Finset EventKey) : Prop :=
  (∀ e ∈ m.events, EventKey.rawIndex e.1 < m.next_event_index) ∧
    ∀ k ∈ ks, EventKey.rawIndex k < m.next_event_index

/-- Queue sanity property asserted by the claim: every queued event's
time is strictly below the `HIGH_TIME` sentinel. -/
def TimesBounded (m : EventManager) : Prop :=
  ∀ e ∈ m.events, e.1.time < HIGH_TIME

/-- Concrete key-set map after queueing the pair event `Collide(1,2)` at
time 5 (allocated first, counter 0, stored index `PAIR_BASE`) and the
solitaire event `Reiterate(3)` at time 5 (allocated second, counter 1,
stored index 1). -/
def c4KeySets : HbId → Finset EventKey := fun i =>
  if i = 1 ∨ i = 2 then {⟨(5 : ℚ), PAIR_BASE⟩}
  else if i = 3 then {⟨(5 : ℚ), 1⟩} else ∅

/-- Key-set map once the solitaire event has been delivered. -/
def c4KeySets2 : HbId → Finset EventKey := fun i =>
  if i = 1 ∨ i = 2 then {⟨(5 : ℚ), PAIR_BASE⟩} else ∅

namespace CQ

/-! ### Orchestrator model (`src/core/collider.rs`, `src/core/grid.rs`)

The orchestrator is embedded over exact rationals (`namespace CQ`).  Its
numeric inputs are only ordered, added, and divided on the modelled
paths, so `ℚ`/`WithTop ℚ` is a faithful idealization of the `f64`
arithmetic.  The two continuous-time solvers (`collide_time`,
`separate_time`) and the instantaneous overlap test — the only
operations whose results need square roots — enter the orchestrator
solely through the `Oracle` parameter; every theorem about the
orchestrator below is proved for an arbitrary oracle, hence in
particular for the real solvers.  The release (`not(debug_assertions)`)
compilation profile is modelled. -/


/-- Group id (`pub type HbGroup = u32`). -/
abbrev HbGroup := ℕ

/-- The struct `Vec2` over exact rationals. -/
structure Vec2 where
  x : ℚ
  y : ℚ
  deriving DecidableEq

def Vec2.add (a b : Vec2) : Vec2 := ⟨a.x + b.x, a.y + b.y⟩

def Vec2.smul (a : Vec2) (t : ℚ) : Vec2 := ⟨a.x * t, a.y * t⟩

def Vec2.zero : Vec2 := ⟨0, 0⟩

/-- The enum `ShapeKind`. -/
inductive ShapeKind where
  | circle
  | rect
  deriving DecidableEq

/-- The struct `Shape { kind, dims }`. -/
structure Shape where
  kind : ShapeKind
  dims : Vec2
  deriving DecidableEq

/-- The struct `PlacedShape { pos, shape }`. -/
structure PlacedShape where
  pos : Vec2
  shape : Shape
  deriving DecidableEq

def PlacedShape.dims (s : PlacedShape) : Vec2 := s.shape.dims

def PlacedShape.minX (s : PlacedShape) : ℚ := s.pos.x - s.shape.dims.x * (1/2)

def PlacedShape.maxX (s : PlacedShape) : ℚ := s.pos.x + s.shape.dims.x * (1/2)

def PlacedShape.minY (s : PlacedShape) : ℚ := s.pos.y - s.shape.dims.y * (1/2)

def PlacedShape.maxY (s : PlacedShape) : ℚ := s.pos.y + s.shape.dims.y * (1/2)

/-- Modelled from the spec: the linear-advance helper
`PlacedShape::advance(vel_pos, vel_dims, time)` used by the new-iteration
hitbox types is not present under `src/`; §4.2 of the spec fixes it:
"at time t, `value = value₀ + vel.value·t`, `shape.dims = dims₀ +
vel.resize·t`". -/
def PlacedShape.advance (s : PlacedShape) (velPos velDims : Vec2) (t : ℚ) :
    PlacedShape :=
  { pos := s.pos.add (velPos.smul t),
    shape := { kind := s.shape.kind, dims := s.shape.dims.add (velDims.smul t) } }

/-- The method `PlacedShape::as_rect`. -/
def PlacedShape.asRect (s : PlacedShape) : PlacedShape :=
  { pos := s.pos, shape := { kind := .rect, dims := s.shape.dims } }

/-- The method `PlacedShape::bounding_box` (hull of two shapes'
bounding rectangles), as in `src/geom/shape/mod.rs`. -/
def PlacedShape.boundingBox (s other : PlacedShape) : PlacedShape :=
  let right := max s.maxX other.maxX
  let top := max s.maxY other.maxY
  let left := min s.minX other.minX
  let bottom := min s.minY other.minY
  { pos := ⟨left + (right - left) * (1/2), bottom + (top - bottom) * (1/2)⟩,
    shape := { kind := .rect, dims := ⟨right - left, top - bottom⟩ } }

/-- Modelled from the spec (and from the middle-iteration `max_edge` in
`src/geom/shape/mod.rs`): the largest absolute edge coordinate of a
bounds object; applied to a velocity it is the maximal signed edge speed
used by `Grid::cell_period` (§4.4). -/
def maxEdgeOf (center dims : Vec2) : ℚ :=
  max (max |center.y - dims.y * (1/2)| |center.x - dims.x * (1/2)|)
    (max |center.y + dims.y * (1/2)| |center.x + dims.x * (1/2)|)

/-- Modelled from the spec (§3): the struct `HbVel { value, resize,
end_time }` of the new iteration is not present under `src/`. -/
structure HbVel where
  value : Vec2
  resize : Vec2
  end_time : Time
  deriving DecidableEq

/-- Modelled from the spec (§3): the user-visible struct `Hitbox
{ value: PlacedShape, vel: HbVel }` of the new iteration. -/
structure Hitbox where
  value : PlacedShape
  vel : HbVel
  deriving DecidableEq

/-- The struct `DurHbVel` (`src/core/dur_hitbox/mod.rs`), over `ℚ`. -/
structure DurHbVel where
  value : Vec2
  resize : Vec2
  duration : Time
  deriving DecidableEq

/-- The struct `DurHitbox` (`src/core/dur_hitbox/mod.rs`), over `ℚ`. -/
structure DurHitbox where
  value : PlacedShape
  vel : DurHbVel

/-- Subtraction of a finite rational from a `Time` (`end_time − time`
with `∞ − t = ∞`). -/
def timeSub (a : Time) (q : ℚ) : Time :=
  match a with
  | (x : ℚ) => ((x - q : ℚ) : Time)
  | ⊤ => ⊤

/-- Modelled from the spec (§3/§4.6): `Hitbox::to_dur_hitbox(time)`
forms the internal snapshot whose `duration` is `end_time − time`. -/
def Hitbox.toDurHitbox (hb : Hitbox) (time : ℚ) : DurHitbox :=
  { value := hb.value,
    vel := { value := hb.vel.value, resize := hb.vel.resize,
             duration := timeSub hb.vel.end_time time } }

/-- Modelled from the spec (§4.6): `Hitbox::advanced_shape(time)` with
its `assert!(time < HIGH_TIME)` guard (panic modelled as `none`). -/
def Hitbox.advancedShape (hb : Hitbox) (t : ℚ) : Option PlacedShape :=
  if (t : Time) < HIGH_TIME then
    some (hb.value.advance hb.vel.value hb.vel.resize t)
  else none

/-- Modelled from the spec (§3/§4.8): `Hitbox::validate(min_size,
present_time)` asserts that the hitbox is not already expired, that its
dimensions are at least the padding, and that a circle's resize velocity
is isotropic. -/
def Hitbox.validate (hb : Hitbox) (minSize : ℚ) (presentTime : ℚ) :
    Option Unit :=
  if (presentTime : Time) ≤ hb.vel.end_time then
    if minSize ≤ hb.value.shape.dims.x ∧ minSize ≤ hb.value.shape.dims.y then
      if hb.value.shape.kind = .circle → hb.vel.resize.x = hb.vel.resize.y then
        some ()
      else none
    else none
  else none

/-- The method `Hitbox::time_until_too_small` (present in the older
iteration `src/core/mod.rs` over `self.vel.dims()`, i.e. the resize
velocity, which §9 of the spec confirms is the correct formula):
the first time either dimension would fall below `0.9·min_size`. -/
def Hitbox.timeUntilTooSmall (hb : Hitbox) (minSize : ℚ) : Option Time :=
  let ms := minSize * (9/10)
  if ms < hb.value.shape.dims.x ∧ ms < hb.value.shape.dims.y then
    let t0 : Time := ⊤
    let t1 := if hb.vel.resize.x < 0 then
        min t0 (((ms - hb.value.shape.dims.x) / hb.vel.resize.x : ℚ) : Time)
      else t0
    let t2 := if hb.vel.resize.y < 0 then
        min t1 (((ms - hb.value.shape.dims.y) / hb.vel.resize.y : ℚ) : Time)
      else t1
    some t2
  else none

/-- The method `DurHbVel::is_still`. -/
def DurHbVel.isStill (v : DurHbVel) : Bool :=
  v.value = Vec2.zero ∧ v.resize = Vec2.zero

/-- The method `DurHitbox::advanced_shape` with its
`assert!(time < HIGH_TIME)` (panic modelled as `none`). -/
def DurHitbox.advancedShape (h : DurHitbox) (time : Time) : Option PlacedShape :=
  if time < HIGH_TIME then
    some (h.value.advance h.vel.value h.vel.resize time.toQ)
  else none

/-- The method `DurHitbox::bounding_box_for`. -/
def DurHitbox.boundingBoxFor (h : DurHitbox) (duration : Time) :
    Option PlacedShape :=
  if h.vel.isStill then some h.value.asRect
  else (h.advancedShape duration).map (fun endValue => h.value.boundingBox endValue)

/-- The method `DurHitbox::bounding_box`. -/
def DurHitbox.boundingBox (h : DurHitbox) : Option PlacedShape :=
  h.boundingBoxFor h.vel.duration

/-- The struct `IndexRect` (`src/index_rect.rs`): a half-open integer
rectangle.  The `start < end` assertion of `IndexRect::new` holds by
construction at the single call site (`Grid::index_bounds`). -/
structure IndexRect where
  start : ℤ × ℤ
  stop : ℤ × ℤ
  deriving DecidableEq

/-- The method `IndexRect::contains`. -/
def IndexRect.containsCoord (r : IndexRect) (v : ℤ × ℤ) : Prop :=
  r.start.1 ≤ v.1 ∧ v.1 < r.stop.1 ∧ r.start.2 ≤ v.2 ∧ v.2 < r.stop.2

instance (r : IndexRect) (v : ℤ × ℤ) : Decidable (r.containsCoord v) := by
  unfold IndexRect.containsCoord; infer_instance

/-- Integer range `[a, b)` as a list. -/
def rangeInt (a b : ℤ) : List ℤ :=
  (List.range (b - a).toNat).map (fun n => a + n)

/-- The iterator of `IndexRect`: x outer, y inner. -/
def IndexRect.coords (r : IndexRect) : List (ℤ × ℤ) :=
  (rangeInt r.start.1 r.stop.1).flatMap
    (fun x => (rangeInt r.start.2 r.stop.2).map (fun y => (x, y)))

/-- The struct `GridKey { coord, group }` (`src/core/grid.rs`). -/
structure GridKey where
  coord : ℤ × ℤ
  group : HbGroup
  deriving DecidableEq

/-- The struct `GridArea { rect, group }`. -/
structure GridArea where
  rect : IndexRect
  group : HbGroup
  deriving DecidableEq

/-- The method `GridArea::contains`. -/
def GridArea.containsKey (a : GridArea) (key : GridKey) : Prop :=
  a.group = key.group ∧ a.rect.containsCoord key.coord

instance (a : GridArea) (key : GridKey) : Decidable (a.containsKey key) := by
  unfold GridArea.containsKey; infer_instance

/-- The struct `Grid`.  The sparse `FnvHashMap<GridKey, TightSet<HbId>>`
is modelled as a total function into finite sets (an absent entry and an
entry holding the empty set are observationally identical: the code
removes entries exactly when they become empty). -/
structure Grid where
  map : GridKey → Finset HbId
  cell_width : ℚ

/-- The constructor `Grid::new`. -/
def Grid.new (cellWidth : ℚ) : Grid := ⟨fun _ => ∅, cellWidth⟩

/-- The method `Grid::cell_period`. -/
def Grid.cellPeriod (g : Grid) (hitbox : Hitbox) (hasGroup : Bool) : Time :=
  if hasGroup then
    let speed := maxEdgeOf hitbox.vel.value hitbox.vel.resize
    if speed ≤ 0 then ⊤ else ((g.cell_width / speed : ℚ) : Time)
  else ⊤

/-- The method `Grid::index_bounds`. -/
def Grid.indexBounds (g : Grid) (bounds : PlacedShape) : IndexRect :=
  let startX := ⌊bounds.minX / g.cell_width⌋
  let startY := ⌊bounds.minY / g.cell_width⌋
  let endX := max ⌈bounds.maxX / g.cell_width⌉ (startX + 1)
  let endY := max ⌈bounds.maxY / g.cell_width⌉ (startY + 1)
  ⟨(startX, startY), (endX, endY)⟩

/-- The method `Grid::grid_area` (the bounding box may hit the
`advanced_shape` assertion, hence the `Option`). -/
def Grid.gridArea (g : Grid) (hitbox : DurHitbox) (group : HbGroup) :
    Option GridArea :=
  (hitbox.boundingBox).map (fun bb => ⟨g.indexBounds bb, group⟩)

/-- The method `Grid::overlapping_ids`. -/
def Grid.overlappingIds (g : Grid) (hitboxId : Option HbId) (rect : IndexRect)
    (groups : List HbGroup) : Finset HbId :=
  groups.foldl
    (fun acc group =>
      rect.coords.foldl
        (fun acc coord =>
          acc ∪ ((g.map ⟨coord, group⟩).filter (fun i => some i ≠ hitboxId)))
        acc)
    ∅

/-- One removal step of `Grid::update_area` (the `Occupied`/`remove`
asserts are the membership test). -/
def gridRemoveStep (g : Grid) (hitboxId : HbId) (newArea : Option GridArea)
    (group : HbGroup) (coord : ℤ × ℤ) : Option Grid :=
  let key : GridKey := ⟨coord, group⟩
  if newArea.all (fun a => !(decide (a.containsKey key))) then
    if hitboxId ∈ g.map key then
      some ⟨fun k => if k = key then (g.map key).erase hitboxId else g.map k,
            g.cell_width⟩
    else none
  else some g

/-- One insertion step of `Grid::update_area` (the `insert` assert is
the non-membership test). -/
def gridInsertStep (g : Grid) (hitboxId : HbId) (oldArea : Option GridArea)
    (group : HbGroup) (coord : ℤ × ℤ) : Option Grid :=
  let key : GridKey := ⟨coord, group⟩
  if oldArea.all (fun a => !(decide (a.containsKey key))) then
    if hitboxId ∈ g.map key then none
    else some ⟨fun k => if k = key then insert hitboxId (g.map key) else g.map k,
          g.cell_width⟩
  else some g

/-- Fold of an `Option`-valued step over a list. -/
def foldOption {σ α : Type} (f : σ → α → Option σ) : σ → List α → Option σ
  | s, [] => some s
  | s, a :: rest => do foldOption f (← f s a) rest

/-- The method `Grid::update_area`. -/
def Grid.updateArea (g : Grid) (hitboxId : HbId)
    (oldArea newArea : Option GridArea) : Option Grid := do
  let g ← match oldArea with
    | none => some g
    | some area =>
      foldOption (fun g coord => gridRemoveStep g hitboxId newArea area.group coord)
        g area.rect.coords
  match newArea with
  | none => some g
  | some area =>
    foldOption (fun g coord => gridInsertStep g hitboxId oldArea area.group coord)
      g area.rect.coords

/-- The method `Grid::update_hitbox`. -/
def Grid.updateHitbox (g : Grid) (hitboxId : HbId) (group : HbGroup)
    (oldHitbox newHitbox : Option DurHitbox) (groups : List HbGroup) :
    Option (Grid × Option (Finset HbId)) := do
  if newHitbox.isSome ∨ groups = [] then
    let oldArea ← match oldHitbox with
      | none => some none
      | some h => (g.gridArea h group).map some
    let newArea ← match newHitbox with
      | none => some none
      | some h => (g.gridArea h group).map some
    let g' ← g.updateArea hitboxId oldArea newArea
    match newArea with
    | none => some (g', none)
    | some area => some (g', some (g'.overlappingIds (some hitboxId) area.rect groups))
  else none

/-- The method `Grid::shape_cellmates`. -/
def Grid.shapeCellmates (g : Grid) (shape : PlacedShape) (groups : List HbGroup) :
    Finset HbId :=
  g.overlappingIds none (g.indexBounds shape) groups

/-- The trait `HbProfile` (`src/core/mod.rs`, new iteration): an opaque
profile type together with the four operations the engine uses. -/
structure ProfileOps (P : Type) where
  id : P → HbId
  group : P → Option HbGroup
  interactGroups : P → List HbGroup
  canInteract : P → P → Bool

/-- The two continuous-time solvers and the instantaneous overlap test,
abstracted: the orchestrator theorems below hold for every oracle, in
particular for the real solvers of `src/core/dur_hitbox/solvers.rs`
(embedded over `ℝ` elsewhere in this file). -/
structure Oracle where
  collideTime : DurHitbox → DurHitbox → Time
  separateTime : DurHitbox → DurHitbox → ℚ → Time
  overlapsTest : PlacedShape → PlacedShape → Bool

/-- The struct `HitboxInfo<P>` (`src/core/collider.rs`). -/
structure HitboxInfo (P : Type) where
  profile : P
  hitbox : Hitbox
  start_time : ℚ
  pub_end_time : Time
  event_keys : Finset EventKey
  overlaps : Finset HbId

/-- The constructor `HitboxInfo::new`. -/
def HitboxInfo.new {P : Type} (hitbox : Hitbox) (profile : P)
    (startTime : ℚ) : HitboxInfo P :=
  { profile := profile, pub_end_time := hitbox.vel.end_time,
    hitbox := hitbox, start_time := startTime,
    event_keys := ∅, overlaps := ∅ }

/-- The method `HitboxInfo::hitbox_at_time` with its `"invalid time"`
assertion. -/
def HitboxInfo.hitboxAtTime {P : Type} (info : HitboxInfo P) (time : ℚ) :
    Option DurHitbox :=
  if info.start_time ≤ time ∧ (time : Time) ≤ info.hitbox.vel.end_time then do
    let shape ← info.hitbox.advancedShape (time - info.start_time)
    some (Hitbox.toDurHitbox { info.hitbox with value := shape } time)
  else none

/-- The method `HitboxInfo::pub_hitbox_at_time` with its
`"invalid time"` assertion: the returned hitbox's `end_time` is the
preserved `pub_end_time`. -/
def HitboxInfo.pubHitboxAtTime {P : Type} (info : HitboxInfo P) (time : ℚ) :
    Option Hitbox :=
  if info.start_time ≤ time ∧ (time : Time) ≤ info.pub_end_time then do
    let result : Hitbox :=
      { info.hitbox with vel := { info.hitbox.vel with end_time := info.pub_end_time } }
    let shape ← result.advancedShape (time - info.start_time)
    some { result with value := shape }
  else none

/-- The struct `Collider<P>` (`src/core/collider.rs`).  The
`FnvHashMap<HbId, HitboxInfo<P>>` is modelled as a total function into
`Option`. -/
structure Collider (P : Type) where
  hitboxes : HbId → Option (HitboxInfo P)
  time : ℚ
  grid : Grid
  padding : ℚ
  events : EventManager

/-- Pointwise update of the hitbox map. -/
def updateMap {P : Type} (m : HbId → Option (HitboxInfo P)) (id : HbId)
    (v : Option (HitboxInfo P)) : HbId → Option (HitboxInfo P) :=
  fun i => if i = id then v else m i

/-- The constructor `Collider::new` with its two assertions. -/
def Collider.new (P : Type) (cellWidth padding : ℚ) : Option (Collider P) :=
  if padding < cellWidth ∧ 0 < padding then
    some { hitboxes := fun _ => none, time := 0, grid := Grid.new cellWidth,
           padding := padding, events := EventManager.new }
  else none

/-- Removal of an entry from the `BTreeMap` model
(`self.events.remove(key)`), returning the removed value. -/
def removeEvent (key : EventKey) : List (EventKey × InternalEvent) →
    Option (InternalEvent × List (EventKey × InternalEvent))
  | [] => none
  | kv :: rest =>
    if kv.1 = key then some (kv.2, rest)
    else (removeEvent key rest).map (fun x => (x.1, kv :: x.2))

/-- The method `InternalEvent::other_id` built on `OneOrTwo::other_id`
(`src/util.rs`); the outer `Option` is the `panic!("illegal state")`
arm. -/
def otherIdChecked (ev : InternalEvent) (id : HbId) : Option (Option HbId) :=
  match ev with
  | .panicSmallHitbox a => if a = id then some none else none
  | .panicDurationPassed a => if a = id then some none else none
  | .reiterate a => if a = id then some none else none
  | .collide a b => if a = id then some (some b)
      else if b = id then some (some a) else none
  | .separate a b => if a = id then some (some b)
      else if b = id then some (some a) else none

/-- Linearity facts for `keyLe`, used to iterate key sets in a
well-defined order (Rust's hash-set iteration order is unspecified; the
orchestrator theorems hold for any order). -/
instance : IsTrans EventKey EventKey.keyLe where
  trans a b c h1 h2 := by
    have key : ∀ x y : EventKey, x.keyLt y ↔
        (x.time < y.time ∨ (x.time = y.time ∧ x.index < y.index)) := by
      intro x y
      unfold EventKey.keyLt
      by_cases h : x.time = y.time <;> simp [h]
    rcases h1 with h1 | rfl
    · rcases h2 with h2 | rfl
      · refine Or.inl ?_
        rw [key] at h1 h2 ⊢
        rcases h1 with h1 | ⟨e1, i1⟩
        · rcases h2 with h2 | ⟨e2, i2⟩
          · exact Or.inl (lt_trans h1 h2)
          · exact Or.inl (e2 ▸ h1)
        · rcases h2 with h2 | ⟨e2, i2⟩
          · exact Or.inl (e1 ▸ h2)
          · exact Or.inr ⟨e1.trans e2, lt_trans i1 i2⟩
      · exact Or.inl h1
    · exact h2

instance : IsAntisymm EventKey EventKey.keyLe where
  antisymm a b h1 h2 := by
    have key : ∀ x y : EventKey, x.keyLt y ↔
        (x.time < y.time ∨ (x.time = y.time ∧ x.index < y.index)) := by
      intro x y
      unfold EventKey.keyLt
      by_cases h : x.time = y.time <;> simp [h]
    rcases h1 with h1 | rfl
    · rcases h2 with h2 | rfl
      · rw [key] at h1 h2
        rcases h1 with h1 | ⟨e1, i1⟩
        · rcases h2 with h2 | ⟨e2, i2⟩
          · exact absurd h2 (not_lt.mpr (le_of_lt h1))
          · exact absurd e2.symm (ne_of_lt h1)
        · rcases h2 with h2 | ⟨e2, i2⟩
          · exact absurd e1.symm (ne_of_lt h2)
          · omega
      · rfl
    · rfl

instance : IsTotal EventKey EventKey.keyLe where
  total a b := by
    have key : ∀ x y : EventKey, x.keyLt y ↔
        (x.time < y.time ∨ (x.time = y.time ∧ x.index < y.index)) := by
      intro x y
      unfold EventKey.keyLt
      by_cases h : x.time = y.time <;> simp [h]
    by_cases e : a.time = b.time
    · by_cases ei : a.index = b.index
      · exact Or.inl (Or.inr (by cases a; cases b; simp_all))
      · rcases lt_or_gt_of_ne ei with h | h
        · exact Or.inl (Or.inl (by rw [key]; exact Or.inr ⟨e, h⟩))
        · exact Or.inr (Or.inl (by rw [key]; exact Or.inr ⟨e.symm, h⟩))
    · rcases lt_or_gt_of_ne e with h | h
      · exact Or.inl (Or.inl (by rw [key]; exact Or.inl h))
      · exact Or.inr (Or.inl (by rw [key]; exact Or.inl h))

/-- The loop body of `EventManager::clear_related_events`, with the
`EventKeysMap` instance for the hitbox map (`event_keys_mut` unwraps). -/
def clearRelatedLoop {P : Type} (id : HbId) :
    List EventKey → EventManager → (HbId → Option (HitboxInfo P)) →
    Option (EventManager × (HbId → Option (HitboxInfo P)))
  | [], m, hbs => some (m, hbs)
  | key :: rest, m, hbs => do
    let (event, events') ← removeEvent key m.events
    let m' : EventManager := { m with events := events' }
    let other? ← otherIdChecked event id
    match other? with
    | none => clearRelatedLoop id rest m' hbs
    | some other => do
      let otherInfo ← hbs other
      if key ∈ otherInfo.event_keys then
        clearRelatedLoop id rest m'
          (updateMap hbs other
            (some { otherInfo with event_keys := otherInfo.event_keys.erase key }))
      else none

/-- The method `EventManager::next` instantiated at the hitbox map (the
`EventKeysMap` impl for `FnvHashMap<HbId, HitboxInfo<P>>` unwraps the
id lookup). -/
def removeKeyFromInfos {P : Type} (key : EventKey) :
    List HbId → (HbId → Option (HitboxInfo P)) →
    Option (HbId → Option (HitboxInfo P))
  | [], hbs => some hbs
  | id :: rest, hbs => do
    let info ← hbs id
    if key ∈ info.event_keys then
      removeKeyFromInfos key rest
        (updateMap hbs id (some { info with event_keys := info.event_keys.erase key }))
    else none

/-- The method `EventManager::next` at the hitbox map. -/
def nextEventPop {P : Type} (m : EventManager) (time : ℚ)
    (hbs : HbId → Option (HitboxInfo P)) :
    Option (Option InternalEvent × EventManager × (HbId → Option (HitboxInfo P))) :=
  match m.events with
  | [] => some (none, m, hbs)
  | (key, event) :: rest =>
    if key.time = (time : Time) then do
      let hbs' ← removeKeyFromInfos key event.involvedHitboxIds hbs
      some (some event, { m with events := rest }, hbs')
    else some (none, m, hbs)

/-- The release-profile `Collider::solitaire_event_check`: records
`pub_end_time`, computes the earliest of cell period, `end_time` and
too-small time, clamps the stored `vel.end_time` to it, and schedules a
`Reiterate` only when the cell period is the earliest. -/
def solitaireEventCheck {P : Type} (c : Collider P) (id : HbId)
    (info : HitboxInfo P) (hasGroup : Bool) :
    Option (Collider P × HitboxInfo P) := do
  let info1 : HitboxInfo P := { info with pub_end_time := info.hitbox.vel.end_time }
  let r0 : Time × Bool := ((c.time : Time) + c.grid.cellPeriod info1.hitbox hasGroup, true)
  let endTime := info1.hitbox.vel.end_time
  let r1 := if endTime < r0.1 then (endTime, false) else r0
  let tooSmall ← info1.hitbox.timeUntilTooSmall c.padding
  let endTime2 := (c.time : Time) + tooSmall
  let r2 := if endTime2 < r1.1 then (endTime2, false) else r1
  let info2 : HitboxInfo P :=
    { info1 with hitbox := { info1.hitbox with
        vel := { info1.hitbox.vel with end_time := r2.1 } } }
  if r2.2 then do
    let (events', keys') ←
      c.events.addSolitaireEvent r2.1 (.reiterate id) info2.event_keys
    some ({ c with events := events' }, { info2 with event_keys := keys' })
  else some (c, info2)

/-- The static method `Collider::process_collision`: record overlap on
both sides (with insert asserts), then enqueue the matching `Separate`
pair event. -/
def processCollision {P : Type} (g : Oracle) (padding : ℚ) (time : ℚ)
    (events : EventManager) (id1 : HbId) (hb1 : HitboxInfo P) (id2 : HbId)
    (hb2 : HitboxInfo P) :
    Option (EventManager × HitboxInfo P × HitboxInfo P) := do
  if id2 ∈ hb1.overlaps then none
  else if id1 ∈ hb2.overlaps then none
  else
    let hb1 : HitboxInfo P := { hb1 with overlaps := insert id2 hb1.overlaps }
    let hb2 : HitboxInfo P := { hb2 with overlaps := insert id1 hb2.overlaps }
    let d1 ← hb1.hitboxAtTime time
    let d2 ← hb2.hitboxAtTime time
    let delay := g.separateTime d1 d2 padding
    let (events', k1, k2) ← events.addPairEvent ((time : Time) + delay)
      (.separate id1 id2) hb1.event_keys hb2.event_keys
    some (events', { hb1 with event_keys := k1 }, { hb2 with event_keys := k2 })

/-- The first loop of `Collider::update_hitbox_tracking`: enqueue a
`Separate` event for every currently tracked overlap. -/
def sepLoop {P : Type} (g : Oracle) (id : HbId) (newHitbox : DurHitbox) :
    List HbId → Collider P → HitboxInfo P → Option (Collider P × HitboxInfo P)
  | [], c, info => some (c, info)
  | otherId :: rest, c, info => do
    let otherInfo ← c.hitboxes otherId
    let otherDur ← otherInfo.hitboxAtTime c.time
    let delay := g.separateTime newHitbox otherDur c.padding
    let (events', k1, k2) ← c.events.addPairEvent ((c.time : Time) + delay)
      (.separate id otherId) info.event_keys otherInfo.event_keys
    sepLoop g id newHitbox rest
      { c with
        events := events',
        hitboxes := updateMap c.hitboxes otherId
          (some { otherInfo with event_keys := k2 }) }
      { info with event_keys := k1 }

/-- The candidate loop of `Collider::update_hitbox_tracking`: for every
grid candidate not already overlapped (or every candidate during an
add), either record an immediate overlap (add with zero delay) or
enqueue a `Collide` event. -/
def candLoop {P : Type} (ops : ProfileOps P) (g : Oracle) (id : HbId)
    (newHitbox : DurHitbox) (oldIsNone : Bool) :
    List HbId → Collider P → HitboxInfo P → List P →
    Option (Collider P × HitboxInfo P × List P)
  | [], c, info, result => some (c, info, result)
  | otherId :: rest, c, info, result =>
    if oldIsNone ∨ otherId ∉ info.overlaps then do
      let otherInfo ← c.hitboxes otherId
      if ops.canInteract info.profile otherInfo.profile then do
        let otherDur ← otherInfo.hitboxAtTime c.time
        let delay := g.collideTime newHitbox otherDur
        if oldIsNone ∧ delay = 0 then do
          let (events', info', otherInfo') ← processCollision g c.padding c.time
            c.events id info otherId otherInfo
          candLoop ops g id newHitbox oldIsNone rest
            { c with
              events := events',
              hitboxes := updateMap c.hitboxes otherId (some otherInfo') }
            info' (result ++ [otherInfo.profile])
        else do
          let (events', k1, k2) ← c.events.addPairEvent ((c.time : Time) + delay)
            (.collide id otherId) info.event_keys otherInfo.event_keys
          candLoop ops g id newHitbox oldIsNone rest
            { c with
              events := events',
              hitboxes := updateMap c.hitboxes otherId
                (some { otherInfo with event_keys := k2 }) }
            { info with event_keys := k1 } result
      else candLoop ops g id newHitbox oldIsNone rest c info result
    else candLoop ops g id newHitbox oldIsNone rest c info result

/-- The method `Collider::update_hitbox_tracking`. -/
def updateHitboxTracking {P : Type} (ops : ProfileOps P) (g : Oracle)
    (c : Collider P) (id : HbId) (info : HitboxInfo P)
    (oldHitbox : Option DurHitbox) (newHitbox : DurHitbox) :
    Option (Collider P × List P) := do
  match ops.group info.profile with
  | some group => do
    let (c1, info1) ← sepLoop g id newHitbox (info.overlaps.sort (· ≤ ·)) c info
    let (grid', testIds?) ← c1.grid.updateHitbox id group oldHitbox
      (some newHitbox) (ops.interactGroups info1.profile)
    let testIds ← testIds?
    let c2 : Collider P := { c1 with grid := grid' }
    let (c3, info3, result) ← candLoop ops g id newHitbox oldHitbox.isNone
      (testIds.sort (· ≤ ·)) c2 info1 []
    if (c3.hitboxes id).isSome then none
    else some ({ c3 with hitboxes := updateMap c3.hitboxes id (some info3) }, result)
  | none =>
    if (c.hitboxes id).isSome then none
    else some ({ c with hitboxes := updateMap c.hitboxes id (some info) }, [])

/-- The method `Collider::internal_update_hitbox`. -/
def internalUpdateHitbox {P : Type} (ops : ProfileOps P) (g : Oracle)
    (c : Collider P) (id : HbId) (vel : Option HbVel) :
    Option (Collider P) := do
  let info ← c.hitboxes id
  let c1 : Collider P := { c with hitboxes := updateMap c.hitboxes id none }
  let oldHitbox := info.hitbox.toDurHitbox info.start_time
  let pubHb ← info.pubHitboxAtTime c1.time
  let info1 : HitboxInfo P := { info with hitbox := pubHb }
  let info2 ← match vel with
    | none => some info1
    | some v => do
        let infoV : HitboxInfo P := { info1 with hitbox := { info1.hitbox with vel := v } }
        let _ ← infoV.hitbox.validate c1.padding c1.time
        some infoV
  let info3 : HitboxInfo P := { info2 with start_time := c1.time }
  let hasGroup := (ops.group info3.profile).isSome
  let (events', hbs') ← clearRelatedLoop id (info3.event_keys.sort EventKey.keyLe) c1.events c1.hitboxes
  let info4 : HitboxInfo P := { info3 with event_keys := ∅ }
  let c2 : Collider P := { c1 with events := events', hitboxes := hbs' }
  let (c3, info5) ← solitaireEventCheck c2 id info4 hasGroup
  let newHitbox := info5.hitbox.toDurHitbox c3.time
  let (c4, result) ← updateHitboxTracking ops g c3 id info5 (some oldHitbox) newHitbox
  if result.isEmpty then some c4 else none

/-- The method `Collider::add_hitbox`. -/
def addHitbox {P : Type} (ops : ProfileOps P) (g : Oracle) (c : Collider P)
    (profile : P) (hitbox : Hitbox) : Option (Collider P × List P) := do
  let _ ← hitbox.validate c.padding c.time
  let id := ops.id profile
  let hasGroup := (ops.group profile).isSome
  let info := HitboxInfo.new hitbox profile c.time
  let (c1, info1) ← solitaireEventCheck c id info hasGroup
  let durHitbox := info1.hitbox.toDurHitbox c1.time
  updateHitboxTracking ops g c1 id info1 none durHitbox

/-- The method `Collider::set_hitbox_vel`. -/
def setHitboxVel {P : Type} (ops : ProfileOps P) (g : Oracle) (c : Collider P)
    (id : HbId) (vel : HbVel) : Option (Collider P) := do
  let info ← c.hitboxes id
  if info.hitbox.vel ≠ vel then internalUpdateHitbox ops g c id (some vel)
  else some c

/-- The drain loop of `Collider::clear_overlaps`. -/
def clearOverlapsLoop {P : Type} (id : HbId) :
    List HbId → Collider P → List P → Option (Collider P × List P)
  | [], c, acc => some (c, acc)
  | otherId :: rest, c, acc => do
    let otherInfo ← c.hitboxes otherId
    if id ∈ otherInfo.overlaps then
      clearOverlapsLoop id rest
        { c with
          hitboxes := updateMap c.hitboxes otherId
            (some { otherInfo with overlaps := otherInfo.overlaps.erase id }) }
        (acc ++ [otherInfo.profile])
    else none

/-- The method `Collider::clear_overlaps`. -/
def clearOverlaps {P : Type} (c : Collider P) (id : HbId)
    (info : HitboxInfo P) : Option (Collider P × List P) :=
  clearOverlapsLoop id (info.overlaps.sort (· ≤ ·)) c []

/-- The method `Collider::remove_hitbox`. -/
def removeHitbox {P : Type} (ops : ProfileOps P) (c : Collider P) (id : HbId) :
    Option (Collider P × List P) := do
  let info ← c.hitboxes id
  let c1 : Collider P := { c with hitboxes := updateMap c.hitboxes id none }
  let (events', hbs') ← clearRelatedLoop id (info.event_keys.sort EventKey.keyLe) c1.events c1.hitboxes
  let info1 : HitboxInfo P := { info with event_keys := ∅ }
  let c2 : Collider P := { c1 with events := events', hitboxes := hbs' }
  let c3 ← match ops.group info1.profile with
    | some group => do
        let (grid', _) ← c2.grid.updateHitbox id group
          (some (info1.hitbox.toDurHitbox info1.start_time)) none []
        some { c2 with grid := grid' }
    | none => some c2
  clearOverlaps c3 id info1

/-- The public event kind enum `HbEvent`. -/
inductive HbEvent where
  | collide
  | separate
  deriving DecidableEq

/-- The helper `new_event`: ids sorted ascending, with the
`ids must be different` assertion. -/
def newPubEvent (ev : HbEvent) (id1 id2 : HbId) :
    Option (HbEvent × HbId × HbId) :=
  if id1 = id2 then none
  else if id2 < id1 then some (ev, id2, id1)
  else some (ev, id1, id2)

/-- The method `Collider::process_event` (release profile: the debug
`Panic*` variants are never queued; processing one is modelled as a
panic). -/
def processEvent {P : Type} (ops : ProfileOps P) (g : Oracle)
    (c : Collider P) (event : InternalEvent) :
    Option (Collider P × Option (HbEvent × HbId × HbId)) :=
  match event with
  | .collide id1 id2 => do
      let info1 ← c.hitboxes id1
      let c1 : Collider P := { c with hitboxes := updateMap c.hitboxes id1 none }
      let info2 ← c1.hitboxes id2
      let (events', info1', info2') ← processCollision g c1.padding c1.time
        c1.events id1 info1 id2 info2
      let c2 : Collider P :=
        { c1 with
          events := events',
          hitboxes := updateMap c1.hitboxes id2 (some info2') }
      if (c2.hitboxes id1).isSome then none
      else do
        let pub ← newPubEvent .collide id1 id2
        some ({ c2 with hitboxes := updateMap c2.hitboxes id1 (some info1') },
          some pub)
  | .separate id1 id2 => do
      let info1 ← c.hitboxes id1
      let c1 : Collider P := { c with hitboxes := updateMap c.hitboxes id1 none }
      let info2 ← c1.hitboxes id2
      if id2 ∈ info1.overlaps then
        if id1 ∈ info2.overlaps then do
          let info1a : HitboxInfo P := { info1 with overlaps := info1.overlaps.erase id2 }
          let info2a : HitboxInfo P := { info2 with overlaps := info2.overlaps.erase id1 }
          let d1 ← info1a.hitboxAtTime c1.time
          let d2 ← info2a.hitboxAtTime c1.time
          let delay := g.collideTime d1 d2
          let (events', k1, k2) ← c1.events.addPairEvent ((c1.time : Time) + delay)
            (.collide id1 id2) info1a.event_keys info2a.event_keys
          let c2 : Collider P :=
            { c1 with
              events := events',
              hitboxes := updateMap c1.hitboxes id2
                (some { info2a with event_keys := k2 }) }
          if (c2.hitboxes id1).isSome then none
          else do
            let pub ← newPubEvent .separate id1 id2
            some ({ c2 with
                hitboxes := updateMap c2.hitboxes id1
                  (some { info1a with event_keys := k1 }) }, some pub)
        else none
      else none
  | .reiterate id => do
      let c' ← internalUpdateHitbox ops g c id none
      some (c', none)
  | .panicSmallHitbox _ => none
  | .panicDurationPassed _ => none

/-- The method `Collider::next`.  The `while let` loop is modelled with
explicit fuel; the theorems below hold for every fuel value. -/
def colliderNext {P : Type} (ops : ProfileOps P) (g : Oracle) :
    ℕ → Collider P → Option (Collider P × Option (HbEvent × P × P))
  | 0, _ => none
  | fuel + 1, c => do
    let (ev?, events', hbs') ← nextEventPop c.events c.time c.hitboxes
    let c1 : Collider P := { c with events := events', hitboxes := hbs' }
    match ev? with
    | none => some (c1, none)
    | some event => do
      let (c2, pub?) ← processEvent ops g c1 event
      match pub? with
      | some (ev, id1, id2) => do
          let i1 ← c2.hitboxes id1
          let i2 ← c2.hitboxes id2
          some (c2, some (ev, i1.profile, i2.profile))
      | none => colliderNext ops g fuel c2

/-- The method `Collider::set_time` with its three assertions. -/
def setTime {P : Type} (c : Collider P) (time : ℚ) : Option (Collider P) :=
  if c.time ≤ time ∧ (time : Time) ≤ c.events.peekTime ∧ (time : Time) < HIGH_TIME
  then some { c with time := time }
  else none

/-- The method `Collider::get_hitbox` (index panics on a missing id). -/
def getHitbox {P : Type} (c : Collider P) (id : HbId) : Option Hitbox := do
  let info ← c.hitboxes id
  info.pubHitboxAtTime c.time

/-- The method `Collider::get_overlaps` (explicit
`panic!("hitbox id not found")` on a missing id; the profile lookups for
the members index-panic). -/
def getOverlaps {P : Type} (c : Collider P) (id : HbId) : Option (List P) := do
  let info ← c.hitboxes id
  foldOption
    (fun acc otherId => (c.hitboxes otherId).map (fun i => acc ++ [i.profile]))
    [] (info.overlaps.sort (· ≤ ·))

/-- The method `Collider::is_overlapping`: a total function — a missing
`id_1` yields `false` via `unwrap_or(false)` rather than a panic. -/
def isOverlapping {P : Type} (c : Collider P) (id1 id2 : HbId) : Bool :=
  match c.hitboxes id1 with
  | some info => id2 ∈ info.overlaps
  | none => false

/-- The method `Collider::query_overlaps`. -/
def queryOverlaps {P : Type} (ops : ProfileOps P) (g : Oracle)
    (c : Collider P) (shape : PlacedShape) (profile : P) : Option (List P) :=
  foldOption
    (fun acc i => do
      let info ← c.hitboxes i
      if ops.canInteract info.profile profile then do
        let hb ← info.pubHitboxAtTime c.time
        if g.overlapsTest hb.value shape then some (acc ++ [info.profile])
        else some acc
      else some acc)
    [] ((c.grid.shapeCellmates shape (ops.interactGroups profile)).sort (· ≤ ·))

/-- The public operations of `Collider` (§6 of the spec), as one
inductive so that a single statement can quantify over them. -/
inductive PublicOp (P : Type) where
  | addHitbox (profile : P) (hitbox : Hitbox)
  | setHitboxVel (id : HbId) (vel : HbVel)
  | removeHitbox (id : HbId)
  | setTime (time : ℚ)
  | next (fuel : ℕ)
  | getHitbox (id : HbId)
  | getOverlaps (id : HbId)
  | isOverlapping (id1 id2 : HbId)
  | queryOverlaps (shape : PlacedShape) (profile : P)

/-- Executing a public operation (read-only queries leave the state
unchanged; their observable panics are still modelled, so a panicking
query produces no post-state). -/
def applyOp {P : Type} (ops : ProfileOps P) (g : Oracle) (c : Collider P) :
    PublicOp P → Option (Collider P)
  | .addHitbox profile hitbox => (addHitbox ops g c profile hitbox).map (·.1)
  | .setHitboxVel id vel => setHitboxVel ops g c id vel
  | .removeHitbox id => (removeHitbox ops c id).map (·.1)
  | .setTime time => setTime c time
  | .next fuel => (colliderNext ops g fuel c).map (·.1)
  | .getHitbox id => (getHitbox c id).map (fun _ => c)
  | .getOverlaps id => (getOverlaps c id).map (fun _ => c)
  | .isOverlapping _ _ => some c
  | .queryOverlaps shape profile => (queryOverlaps ops g c shape profile).map (fun _ => c)

end CQ

/-! ### Claim C9: missing-id behaviour of the public operations -/

/-- Concrete profile operations for witnesses: the profile is its own
id, group 0, interacting with group 0, always interactable. -/
def natProfileOps : CQ.ProfileOps ℕ :=
  { id := fun p => p, group := fun _ => some 0,
    interactGroups := fun _ => [0], canInteract := fun _ _ => true }

/-- Trivial oracle for witnesses. -/
def trivialOracle : CQ.Oracle :=
  { collideTime := fun _ _ => ⊤, separateTime := fun _ _ _ => ⊤,
    overlapsTest := fun _ _ => false }

/-- The empty collider produced by `Collider::new(2.0, 1.0)`. -/
def c9empty : CQ.Collider ℕ :=
  { hitboxes := fun _ => none, time := 0, grid := CQ.Grid.new 2,
    padding := 1, events := EventManager.new }

/-- Concrete hitbox for the C8 witness: a 2×2 square at the origin
moving right with user `end_time = 10`. -/
def c8hitbox : CQ.Hitbox :=
  { value := { pos := ⟨0, 0⟩, shape := { kind := .rect, dims := ⟨2, 2⟩ } },
    vel := { value := ⟨1, 0⟩, resize := ⟨0, 0⟩, end_time := ((10 : ℚ) : Time) } }

/-- Fresh record for the C8 witness. -/
def c8info : CQ.HitboxInfo ℕ := CQ.HitboxInfo.new c8hitbox 7 0

/-- The record produced by the solitaire event check on `c8info`: the
cell period of the motion is `2/1 = 2`, so the internal `end_time` is
clamped from 10 down to 2 while `pub_end_time` keeps the value 10. -/
def c8infoAfter : CQ.HitboxInfo ℕ :=
  { profile := 7,
    pub_end_time := ((10 : ℚ) : Time),
    hitbox := { value := { pos := ⟨0, 0⟩, shape := { kind := .rect, dims := ⟨2, 2⟩ } },
                vel := { value := ⟨1, 0⟩, resize := ⟨0, 0⟩, end_time := ((2 : ℚ) : Time) } },
    start_time := 0,
    event_keys := {⟨((2 : ℚ) : Time), 0⟩},
    overlaps := ∅ }

/-- The collider state produced alongside `c8infoAfter` (the
`Reiterate` self-event is queued at the clamped time 2). -/
def c8colliderAfter : CQ.Collider ℕ :=
  { c9empty with
    events := { events := [(⟨((2 : ℚ) : Time), 0⟩, .reiterate 7)],
                next_event_index := 1 } }

namespace CQ

/-! ### Claim C6: symmetry of the overlap sets -/


/-- The overlap set recorded for an id (`∅` for an untracked id). -/
def overlapsOf {P : Type} (hbs : HbId → Option (HitboxInfo P)) (a : HbId) :
    Finset HbId :=
  match hbs a with
  | some info => info.overlaps
  | none => ∅

/-- Symmetry of a family of overlap sets. -/
def SymF (v : HbId → Finset HbId) : Prop := ∀ a b, a ∈ v b ↔ b ∈ v a

/-- Invariant I4 of the spec: `b ∈ overlaps(a) ⇔ a ∈ overlaps(b)`. -/
def SymmetricO {P : Type} (hbs : HbId → Option (HitboxInfo P)) : Prop :=
  SymF (overlapsOf hbs)

/-- The overlap family seen while the record of `id` is detached from
the map and carried separately (the `remove self, borrow peers, reinsert
self` pattern of the orchestrator). -/
def viewO {P : Type} (hbs : HbId → Option (HitboxInfo P)) (id : HbId)
    (info : HitboxInfo P) : HbId → Finset HbId :=
  fun a => if a = id then info.overlaps else overlapsOf hbs a

/-- A state change that affects neither the overlap family nor which
ids are tracked. -/
def SameOv {P : Type} (hbs hbs' : HbId → Option (HitboxInfo P)) : Prop :=
  ∀ a, overlapsOf hbs' a = overlapsOf hbs a ∧
    ((hbs' a).isNone ↔ (hbs a).isNone)

end CQ

namespace SR

/-! ### The solver layer (`src/core/dur_hitbox/solvers.rs`, `src/util.rs`,
`src/geom/`), over exact real arithmetic.  `f64` values are modelled as
real numbers, `f64::INFINITY` results as `⊤ : EReal`; the `assert!` in
`DurHitbox::advanced_shape` is modelled by an `Option`.  The definitions
are `noncomputable` only because real-number arithmetic in Lean is;
witnesses evaluate them with `simp`/`norm_num`. -/


/-- `geom::vec::Vec2` (`src/geom/vec.rs`). -/
structure Vec2 where
  x : ℝ
  y : ℝ

instance : Add Vec2 := ⟨fun a b => ⟨a.x + b.x, a.y + b.y⟩⟩

instance : Sub Vec2 := ⟨fun a b => ⟨a.x - b.x, a.y - b.y⟩⟩

instance : Neg Vec2 := ⟨fun a => ⟨-a.x, -a.y⟩⟩

/-- `impl Mul<f64> for Vec2`. -/
instance : HMul Vec2 ℝ Vec2 := ⟨fun v r => ⟨v.x * r, v.y * r⟩⟩

/-- `impl Mul<Vec2> for Vec2` (the dot product). -/
instance : HMul Vec2 Vec2 ℝ := ⟨fun a b => a.x * b.x + a.y * b.y⟩

/-- `Vec2::len_sq`. -/
def Vec2.lenSq (v : Vec2) : ℝ := v.x * v.x + v.y * v.y

/-- `Vec2::len`. -/
noncomputable def Vec2.len (v : Vec2) : ℝ := Real.sqrt v.lenSq

/-- `geom::Card` (`src/geom/card.rs`). -/
inductive Card where
  | minusX
  | minusY
  | plusX
  | plusY
  deriving DecidableEq

/-- `Card::flip`. -/
def Card.flip : Card → Card
  | .minusX => .plusX
  | .plusX => .minusX
  | .minusY => .plusY
  | .plusY => .minusY

/-- `Card::values`. -/
def Card.values : List Card := [.minusX, .minusY, .plusX, .plusY]

/-- `geom::ShapeKind`. -/
inductive ShapeKind where
  | circle
  | rect
  deriving DecidableEq

/-- `geom::Shape`: a kind with width/height dimensions.  (`Shape::new`
asserts that a circle has equal width and height; the theorems below
state this as a well-formedness hypothesis where it matters.) -/
structure Shape where
  kind : ShapeKind
  dims : Vec2

/-- `geom::PlacedShape`. -/
structure PlacedShape where
  pos : Vec2
  shape : Shape

/-- `PlacedShape::bottom`. -/
noncomputable def PlacedShape.bottom (s : PlacedShape) : ℝ :=
  s.pos.y - s.shape.dims.y * 0.5

/-- `PlacedShape::left`. -/
noncomputable def PlacedShape.left (s : PlacedShape) : ℝ :=
  s.pos.x - s.shape.dims.x * 0.5

/-- `PlacedShape::top`. -/
noncomputable def PlacedShape.top (s : PlacedShape) : ℝ :=
  s.pos.y + s.shape.dims.y * 0.5

/-- `PlacedShape::right`. -/
noncomputable def PlacedShape.right (s : PlacedShape) : ℝ :=
  s.pos.x + s.shape.dims.x * 0.5

/-- The free function `edge` of `src/geom/shape/mod.rs`, generalised to
any center/dims pair as by the `PlacedBounds` trait used in
`solvers.rs` (whose definition is absent from `src/`): `Card::MinusX`
is the old `Card::Left`, `MinusY` is `Bottom`, `PlusX` is `Right` and
`PlusY` is `Top`. -/
noncomputable def edgeOf (pos dims : Vec2) : Card → ℝ
  | .minusX => -(pos.x - dims.x * 0.5)
  | .minusY => -(pos.y - dims.y * 0.5)
  | .plusX => pos.x + dims.x * 0.5
  | .plusY => pos.y + dims.y * 0.5

/-- `PlacedShape::card_overlap`: `edge(src, card) + edge(self, card.flip())`. -/
noncomputable def cardOverlap (dst src : PlacedShape) (card : Card) : ℝ :=
  edgeOf src.pos src.shape.dims card + edgeOf dst.pos dst.shape.dims card.flip

/-- `normals::rect_rect_normal`, length only: the minimum of the four
cardinal overlaps.  (`PlacedShape::overlaps` consumes only the `len`
field of the returned `DirVec2`, and the minimum does not depend on the
iteration order or the tie-break of `min_by_key`.) -/
noncomputable def rectRectNormalLen (dst src : PlacedShape) : ℝ :=
  min (min (cardOverlap dst src .minusX) (cardOverlap dst src .minusY))
    (min (cardOverlap dst src .plusX) (cardOverlap dst src .plusY))

/-- `normals::circle_circle_normal`, length only:
`(src.dims().x + dst.dims().x) * 0.5 - dist`. -/
noncomputable def circleCircleNormalLen (dst src : PlacedShape) : ℝ :=
  (src.shape.dims.x + dst.shape.dims.x) * 0.5 - (dst.pos - src.pos).len

/-- `interval_sector` of `src/geom/shape/mod.rs`. -/
noncomputable def intervalSector (left right val : ℝ) : Ordering :=
  if val < left then .lt
  else if right < val then .gt
  else .eq

/-- `Sector` of `src/geom/shape/mod.rs` (a pair of `Ordering`s). -/
abbrev Sector := Ordering × Ordering

/-- `PlacedShape::sector`. -/
noncomputable def sectorAt (s : PlacedShape) (point : Vec2) : Sector :=
  (intervalSector s.left s.right point.x,
   intervalSector s.bottom s.top point.y)

/-- `Sector::is_corner`. -/
def isCorner (s : Sector) : Prop := s.1 ≠ .eq ∧ s.2 ≠ .eq

instance (s : Sector) : Decidable (isCorner s) :=
  inferInstanceAs (Decidable (_ ∧ _))

/-- The `corner` method of `src/geom/shape/mod.rs` generalised to a
center/dims pair (as by the `PlacedBounds` trait): `none` is the
`panic!("expected corner sector")` arm. -/
noncomputable def cornerOf (pos dims : Vec2) (s : Sector) : Option Vec2 :=
  match s.1, s.2 with
  | .lt, .lt => some ⟨pos.x - dims.x * 0.5, pos.y - dims.y * 0.5⟩
  | .lt, .gt => some ⟨pos.x - dims.x * 0.5, pos.y + dims.y * 0.5⟩
  | .gt, .lt => some ⟨pos.x + dims.x * 0.5, pos.y - dims.y * 0.5⟩
  | .gt, .gt => some ⟨pos.x + dims.x * 0.5, pos.y + dims.y * 0.5⟩
  | _, _ => none

/-- `normals::rect_circle_normal`, length only (flipping a `DirVec2`
does not change its length, so the `Circle`/`Rect` case of
`normal_from` has the same length). -/
noncomputable def rectCircleNormalLen (dst src : PlacedShape) : ℝ :=
  if h : isCorner (sectorAt dst src.pos) then
    match cornerOf dst.pos dst.shape.dims (sectorAt dst src.pos) with
    | some pt =>
        circleCircleNormalLen ⟨pt, ⟨.circle, ⟨0, 0⟩⟩⟩ src
    | none => 0
  else rectRectNormalLen dst src

/-- The length of `PlacedShape::normal_from`. -/
noncomputable def normalLen (dst src : PlacedShape) : ℝ :=
  match dst.shape.kind, src.shape.kind with
  | .rect, .rect => rectRectNormalLen dst src
  | .rect, .circle => rectCircleNormalLen dst src
  | .circle, .rect => rectCircleNormalLen src dst
  | .circle, .circle => circleCircleNormalLen dst src

/-- `PlacedShape::overlaps`: `self.normal_from(other).len() >= 0.0`. -/
def overlaps (dst src : PlacedShape) : Prop := 0 ≤ normalLen dst src

/-- `core::HIGH_TIME = 1e50` as a real number. -/
noncomputable def HIGH_TIME_R : ℝ := 10 ^ 50

/-- Modelled from the spec: `PlacedShape::advance` (absent from
`src/`), linear motion of the position by `vel` and of the dimensions
by `resize`. -/
noncomputable def PlacedShape.advance (s : PlacedShape) (vel resize : Vec2)
    (t : ℝ) : PlacedShape :=
  ⟨s.pos + vel * t, ⟨s.shape.kind, s.shape.dims + resize * t⟩⟩

/-- `PlacedShape::as_rect`. -/
def PlacedShape.asRect (s : PlacedShape) : PlacedShape :=
  ⟨s.pos, ⟨.rect, s.shape.dims⟩⟩

/-- `PlacedShape::bounding_box`. -/
noncomputable def PlacedShape.boundingBox (s other : PlacedShape) :
    PlacedShape :=
  let right := max s.right other.right
  let top := max s.top other.top
  let left := min s.left other.left
  let bottom := min s.bottom other.bottom
  ⟨⟨left + (right - left) * 0.5, bottom + (top - bottom) * 0.5⟩,
   ⟨.rect, ⟨right - left, top - bottom⟩⟩⟩

/-- `core::dur_hitbox::DurHbVel`.  The `duration` is modelled as a real
number (in the collider all durations are finite, `< HIGH_TIME`). -/
structure DurHbVel where
  value : Vec2
  resize : Vec2
  duration : ℝ

/-- `DurHbVel::is_still`. -/
def DurHbVel.isStill (v : DurHbVel) : Prop :=
  v.value = ⟨0, 0⟩ ∧ v.resize = ⟨0, 0⟩

/-- `DurHbVel::negate`. -/
def DurHbVel.negate (v : DurHbVel) : DurHbVel :=
  ⟨-v.value, -v.resize, v.duration⟩

/-- `core::dur_hitbox::DurHitbox`. -/
structure DurHitbox where
  value : PlacedShape
  vel : DurHbVel

/-- `DurHitbox::advanced_shape`; `none` is the
`assert!(time < core::HIGH_TIME)` panic. -/
noncomputable def DurHitbox.advancedShape (h : DurHitbox) (time : ℝ) :
    Option PlacedShape :=
  if time < HIGH_TIME_R then
    some (h.value.advance h.vel.value h.vel.resize time)
  else none

open Classical in
/-- `DurHitbox::bounding_box_for`. -/
noncomputable def DurHitbox.boundingBoxFor (h : DurHitbox) (duration : ℝ) :
    Option PlacedShape :=
  if h.vel.isStill then some h.value.asRect
  else (h.advancedShape duration).map (fun e => h.value.boundingBox e)

/-- `util::quad_root_ascending`: IEEE division by a zero denominator
with nonzero numerator yields a signed infinity.  (A `0.0/0.0` NaN is
unreachable: in the `b ≥ 0` branch the denominator `-b - √disc` is
strictly negative, and in the other branch the numerator
`-b + √disc` is strictly positive.) -/
noncomputable def ieeeDiv (x y : ℝ) : EReal :=
  if y = 0 then (if 0 < x then ⊤ else if x < 0 then ⊥ else 0)
  else ((x / y : ℝ) : EReal)

/-- `util::quad_root_ascending`. -/
noncomputable def quad_root_ascending (a b c : ℝ) : Option EReal :=
  let determinant := b * b - 4 * a * c
  if determinant ≤ 0 then none
  else if 0 ≤ b then some (ieeeDiv (2 * c) (-b - Real.sqrt determinant))
  else some (ieeeDiv (-b + Real.sqrt determinant) (2 * a))

/-- `solvers::circle_circle_time`. -/
noncomputable def circle_circle_time (a b : DurHitbox) (forCollide : Bool) :
    EReal :=
  let sign : ℝ := if forCollide then 1 else -1
  let netRad := (a.value.shape.dims.x + b.value.shape.dims.x) * 0.5
  let dist := a.value.pos - b.value.pos
  let coeffC := sign * (netRad * netRad - dist.lenSq)
  if 0 < coeffC then 0
  else
    let netRadVel := (a.vel.resize.x + b.vel.resize.x) * 0.5
    let distVel := a.vel.value - b.vel.value
    let coeffA := sign * (netRadVel * netRadVel - distVel.lenSq)
    let coeffB := sign * 2 * (netRad * netRadVel - dist * distVel)
    match quad_root_ascending coeffA coeffB coeffC with
    | some r => if 0 ≤ r then r else ⊤
    | none => ⊤

/-- `a.value.card_overlap(&b.value, card)` of the solver loop. -/
noncomputable def oA (a b : DurHitbox) (card : Card) : ℝ :=
  cardOverlap a.value b.value card

/-- `a.vel.card_overlap(&b.vel, card)` of the solver loop: the
`card_overlap` of the `PlacedBounds` views of the velocities
(`bounds_center = value`, `bounds_dims = resize`, per the
`impl PlacedBounds for DurHbVel` in `src/core/dur_hitbox/mod.rs`). -/
noncomputable def ovA (a b : DurHitbox) (card : Card) : ℝ :=
  edgeOf b.vel.value b.vel.resize card +
    edgeOf a.vel.value a.vel.resize card.flip

/-- The loop of `solvers::rect_rect_time`, over an explicit card list:
`overlap_start` stays a real number, `overlap_end` starts at
`f64::INFINITY`. -/
noncomputable def rectRectLoop (a b : DurHitbox) (forCollide : Bool) :
    List Card → ℝ → EReal → EReal
  | [], s, e => if forCollide then (s : EReal) else e
  | card :: rest, s, e =>
    let o := oA a b card
    let ov := ovA a b card
    if o < 0 then
      if ¬ forCollide then 0
      else if ov ≤ 0 then ⊤
      else
        let s2 := max s (-o / ov)
        if e ≤ (s2 : EReal) then (if forCollide then ⊤ else 0)
        else rectRectLoop a b forCollide rest s2 e
    else if ov < 0 then
      let e2 := min e ((-o / ov : ℝ) : EReal)
      if e2 ≤ (s : EReal) then (if forCollide then ⊤ else 0)
      else rectRectLoop a b forCollide rest s e2
    else
      if e ≤ (s : EReal) then (if forCollide then ⊤ else 0)
      else rectRectLoop a b forCollide rest s e

/-- `solvers::rect_rect_time`. -/
noncomputable def rect_rect_time (a b : DurHitbox) (forCollide : Bool) :
    EReal :=
  rectRectLoop a b forCollide Card.values 0 ⊤

/-- `solvers::rebased_rect_circle_collide_time`; `none` is the panic of
`corner` on a non-corner sector (unreachable after the `is_corner`
test).  The temporary corner hitbox carries `DurHbVel::still()` except
for the corner velocity; its `duration` (which `circle_circle_time`
never reads; `f64::INFINITY` in the code) is modelled as `0`. -/
noncomputable def rebased_rect_circle_collide_time (rect circle : DurHitbox) :
    Option EReal :=
  let sector := sectorAt rect.value circle.value.pos
  if isCorner sector then do
    let pt ← cornerOf rect.value.pos rect.value.shape.dims sector
    let cv ← cornerOf rect.vel.value rect.vel.resize sector
    some (circle_circle_time
      ⟨⟨pt, ⟨.circle, ⟨0, 0⟩⟩⟩, ⟨cv, ⟨0, 0⟩, 0⟩⟩ circle true)
  else some 0

/-- `solvers::rect_circle_collide_time`. -/
noncomputable def rect_circle_collide_time (rect circle : DurHitbox)
    (duration : ℝ) : Option EReal := do
  let baseTime := rect_rect_time rect circle true
  if (duration : EReal) ≤ baseTime then some ⊤
  else do
    let bt := baseTime.toReal
    let rv ← rect.advancedShape bt
    let cv ← circle.advancedShape bt
    let r ← rebased_rect_circle_collide_time { rect with value := rv }
      { circle with value := cv }
    some ((bt : EReal) + r)

/-- `solvers::rect_circle_separate_time`. -/
noncomputable def rect_circle_separate_time (rect circle : DurHitbox) :
    Option EReal := do
  let baseTime := rect_rect_time rect circle false
  if baseTime = 0 then some 0
  else if (HIGH_TIME_R : EReal) ≤ baseTime then some ⊤
  else do
    let bt := baseTime.toReal
    let rv ← rect.advancedShape bt
    let cv ← circle.advancedShape bt
    let r ← rebased_rect_circle_collide_time
      ⟨rv, rect.vel.negate⟩ ⟨cv, circle.vel.negate⟩
    some (max ((bt : EReal) - r) 0)

/-- `solvers::rect_circle_time`. -/
noncomputable def rect_circle_time (rect circle : DurHitbox)
    (forCollide : Bool) (duration : ℝ) : Option EReal :=
  if forCollide then rect_circle_collide_time rect circle duration
  else rect_circle_separate_time rect circle

/-- `solvers::time_unpadded`. -/
noncomputable def time_unpadded (a b : DurHitbox) (forCollide : Bool)
    (duration : ℝ) : Option EReal := do
  let result ← match a.value.shape.kind, b.value.shape.kind with
    | .rect, .rect => some (rect_rect_time a b forCollide)
    | .circle, .circle => some (circle_circle_time a b forCollide)
    | .rect, .circle => rect_circle_time a b forCollide duration
    | .circle, .rect => rect_circle_time b a forCollide duration
  if (duration : EReal) ≤ result then some ⊤ else some result

open Classical in
/-- `solvers::collide_time`. -/
noncomputable def collide_time (a b : DurHitbox) : Option EReal := do
  let duration := min a.vel.duration b.vel.duration
  let ba ← a.boundingBoxFor duration
  let bb ← b.boundingBoxFor duration
  if overlaps ba bb then time_unpadded a b true duration else some ⊤

/-- `solvers::separate_time`. -/
noncomputable def separate_time (a b : DurHitbox) (padding : ℝ) :
    Option EReal :=
  let pair : DurHitbox × DurHitbox :=
    match a.value.shape.kind, b.value.shape.kind with
    | .rect, .circle => (b, a)
    | _, _ => (a, b)
  let a2 : DurHitbox :=
    { pair.1 with value :=
        { pair.1.value with shape :=
            ⟨pair.1.value.shape.kind,
             pair.1.value.shape.dims + (⟨padding, padding⟩ : Vec2) * (2 : ℝ)⟩ } }
  time_unpadded a2 pair.2 false (min a2.vel.duration pair.2.vel.duration)

/-- The `overlap_start` accumulation of one iteration of the
`rect_rect_time` loop (collide mode updates only when
`overlap < 0 < overlap_vel`). -/
noncomputable def colStep (a b : DurHitbox) (s : ℝ) (c : Card) : ℝ :=
  if oA a b c < 0 ∧ 0 < ovA a b c then max s (-oA a b c / ovA a b c) else s

/-- The `overlap_end` accumulation of one iteration of the
`rect_rect_time` loop (updates only when `overlap ≥ 0` and
`overlap_vel < 0`). -/
noncomputable def sepStep (a b : DurHitbox) (e : EReal) (c : Card) : EReal :=
  if 0 ≤ oA a b c ∧ ovA a b c < 0 then
    min e ((-oA a b c / ovA a b c : ℝ) : EReal)
  else e

/-- The inflation that `separate_time` applies to its first operand:
the dims grow by `2·padding` in each dimension (stated for the
amended C2 theorem). -/
noncomputable def inflateShape (s : PlacedShape) (p : ℝ) : PlacedShape :=
  ⟨s.pos, ⟨s.shape.kind, s.shape.dims + (⟨p, p⟩ : Vec2) * (2 : ℝ)⟩⟩

end SR

/-- The still 2×2 square at the origin of the C1 counterexample. -/
def c1A : SR.DurHitbox :=
  ⟨⟨⟨0, 0⟩, ⟨.rect, ⟨2, 2⟩⟩⟩, ⟨⟨0, 0⟩, ⟨0, 0⟩, 10⟩⟩

/-- The 2×2 square touching `c1A` at `x = 1` and moving away with
velocity `(1, 0)`, of the C1 counterexample. -/
def c1B : SR.DurHitbox :=
  ⟨⟨⟨2, 0⟩, ⟨.rect, ⟨2, 2⟩⟩⟩, ⟨⟨1, 0⟩, ⟨0, 0⟩, 10⟩⟩

/-- The still 2×2 square at the origin of the C2 counterexample. -/
def c2A : SR.DurHitbox :=
  ⟨⟨⟨0, 0⟩, ⟨.rect, ⟨2, 2⟩⟩⟩, ⟨⟨0, 0⟩, ⟨0, 0⟩, 10⟩⟩

/-- The 2×2 square at `(1, 0)` moving away with velocity `(1, 0)`, of
the C2 counterexample. -/
def c2B : SR.DurHitbox :=
  ⟨⟨⟨1, 0⟩, ⟨.rect, ⟨2, 2⟩⟩⟩, ⟨⟨1, 0⟩, ⟨0, 0⟩, 10⟩⟩

/-- `c2A` with its dims inflated by `2 · (1/4)`, exactly as
`separate_time` builds its first argument. -/
noncomputable def c2I : SR.DurHitbox :=
  ⟨⟨c2A.value.pos, ⟨SR.ShapeKind.rect,
    c2A.value.shape.dims + (⟨(1 : ℝ)/4, (1 : ℝ)/4⟩ : SR.Vec2) * (2 : ℝ)⟩⟩,
   c2A.vel⟩

/-! ### Basic facts about the `EventKey` order -/

theorem keyLt_iff (a b : EventKey) :
    EventKey.keyLt a b ↔
      (a.time < b.time ∨ (a.time = b.time ∧ a.index < b.index)) := by
  unfold EventKey.keyLt
  by_cases h : a.time = b.time <;> simp [h]

theorem keyLt_trans {a b c : EventKey} (h1 : a.keyLt b) (h2 : b.keyLt c) :
    a.keyLt c := by
  rw [keyLt_iff] at *
  rcases h1 with h1 | ⟨e1, i1⟩
  · rcases h2 with h2 | ⟨e2, i2⟩
    · exact Or.inl (lt_trans h1 h2)
    · exact Or.inl (e2 ▸ h1)
  · rcases h2 with h2 | ⟨e2, i2⟩
    · exact Or.inl (e1 ▸ h2)
    · exact Or.inr ⟨e1.trans e2, lt_trans i1 i2⟩

theorem keyLt_total (a b : EventKey) : a.keyLt b ∨ a = b ∨ b.keyLt a := by
  rw [keyLt_iff, keyLt_iff]
  rcases lt_trichotomy a.time b.time with h | h | h
  · exact Or.inl (Or.inl h)
  · rcases lt_trichotomy a.index b.index with hi | hi | hi
    · exact Or.inl (Or.inr ⟨h, hi⟩)
    · exact Or.inr (Or.inl (by cases a; cases b; simp_all))
    · exact Or.inr (Or.inr (Or.inr ⟨h.symm, hi⟩))
  · exact Or.inr (Or.inr (Or.inl h))

theorem keyLt_irrefl (a : EventKey) : ¬ a.keyLt a := by
  rw [keyLt_iff]; simp

theorem mem_insertEvent {key : EventKey} {ev : InternalEvent}
    {l : List (EventKey × InternalEvent)} {e : EventKey × InternalEvent}
    (h : e ∈ insertEvent key ev l) : e = (key, ev) ∨ e ∈ l := by
  induction l with
  | nil => simpa [insertEvent] using h
  | cons kv tl ih =>
    unfold insertEvent at h
    by_cases h1 : EventKey.keyLt key kv.1
    · simp only [if_pos h1] at h
      rcases List.mem_cons.mp h with h | h
      · exact Or.inl h
      · exact Or.inr h
    · simp only [if_neg h1] at h
      by_cases h2 : key = kv.1
      · simp only [if_pos h2] at h
        rcases List.mem_cons.mp h with h | h
        · exact Or.inl h
        · exact Or.inr (List.mem_cons_of_mem _ h)
      · simp only [if_neg h2] at h
        rcases List.mem_cons.mp h with h | h
        · exact Or.inr (by simp [h])
        · rcases ih h with h | h
          · exact Or.inl h
          · exact Or.inr (List.mem_cons_of_mem _ h)

theorem insertEvent_sorted {key : EventKey} {ev : InternalEvent}
    {l : List (EventKey × InternalEvent)} (hs : EventsSorted l) :
    EventsSorted (insertEvent key ev l) := by
  induction l with
  | nil => simp [insertEvent, EventsSorted]
  | cons kv tl ih =>
    rcases List.pairwise_cons.mp hs with ⟨hhead, htl⟩
    unfold insertEvent
    by_cases h1 : EventKey.keyLt key kv.1
    · simp only [if_pos h1]
      refine List.pairwise_cons.mpr ⟨?_, hs⟩
      intro y hy
      rcases List.mem_cons.mp hy with rfl | hy
      · exact h1
      · exact keyLt_trans h1 (hhead y hy)
    · by_cases h2 : key = kv.1
      · simp only [if_neg h1, if_pos h2]
        exact List.pairwise_cons.mpr ⟨fun y hy => h2 ▸ hhead y hy, htl⟩
      · simp only [if_neg h1, if_neg h2]
        refine List.pairwise_cons.mpr ⟨?_, ih htl⟩
        intro y hy
        rcases mem_insertEvent hy with rfl | hy
        · rcases keyLt_total key kv.1 with h | h | h
          · exact absurd h h1
          · exact absurd h h2
          · exact h
        · exact hhead y hy

theorem sorted_head_lt {key : EventKey} {ev : InternalEvent}
    {rest : List (EventKey × InternalEvent)}
    (hs : EventsSorted ((key, ev) :: rest)) :
    ∀ e ∈ rest, EventKey.keyLt key e.1 :=
  fun _ he => List.rel_of_pairwise_cons hs he

/-! ### Claim C10: `TightSet::remove` -/

/-- C10: the claim states that every call to `TightSet::remove`
terminates, returning true iff the value was present and leaving the set
with the value removed.  The code instead re-enters `TightSet::remove`
itself (`let success = self.remove(value);` in `src/util.rs` line 90,
rather than `self.set.remove(value)`), so the call never produces a
result at any recursion depth: the fuel-indexed model returns `none` for
every fuel bound, every set and every value. -/
theorem tightSet_remove_never_returns :
    ∀ (fuel : ℕ) (s : Finset ℕ) (v : ℕ),
      TightSet.removeFuel fuel s v = none := by
  intro fuel
  induction fuel with
  | zero => intro s v; rfl
  | succ n ih => intro s v; simp [TightSet.removeFuel, ih s v]

theorem findEvent_eq_none {key : EventKey}
    {l : List (EventKey × InternalEvent)}
    (h : ∀ e ∈ l, e.1.index ≠ key.index) : findEvent key l = none := by
  induction l with
  | nil => rfl
  | cons kv tl ih =>
    unfold findEvent
    have hne : kv.1 ≠ key := fun he => h kv (by simp) (by rw [he])
    rw [if_neg hne]
    exact ih fun e he => h e (List.mem_cons_of_mem _ he)

theorem rawIndex_lt_index_ne {e : EventKey} {c : ℕ}
    (hraw : EventKey.rawIndex e < c) (hc : c < PAIR_BASE) :
    e.index ≠ c ∧ e.index ≠ c + PAIR_BASE := by
  unfold EventKey.rawIndex at hraw
  by_cases hb : e.index < PAIR_BASE
  · rw [if_pos hb] at hraw
    exact ⟨Nat.ne_of_lt hraw, fun h => absurd (h ▸ hb) (by omega)⟩
  · rw [if_neg hb] at hraw
    constructor
    · intro h; exact hb (h ▸ hc)
    · intro h; omega

theorem addSolitaire_low {m : EventManager} {t : Time} {ev : InternalEvent}
    {ks : Finset EventKey} (ht : t < HIGH_TIME)
    (hc : m.next_event_index < PAIR_BASE) (hf : FreshFor m ks) :
    m.addSolitaireEvent t ev ks =
      some ({ events := insertEvent ⟨t, m.next_event_index⟩ ev m.events,
              next_event_index := m.next_event_index + 1 },
            insert ⟨t, m.next_event_index⟩ ks) := by
  unfold EventManager.addSolitaireEvent EventManager.newEventKey
  rw [if_neg (not_le.mpr ht), if_pos hc]
  have hfind : findEvent ⟨t, m.next_event_index⟩ m.events = none :=
    findEvent_eq_none fun e he =>
      (rawIndex_lt_index_ne (hf.1 e he) hc).1
  have hmem : (⟨t, m.next_event_index⟩ : EventKey) ∉ ks := fun hm => by
    have := (rawIndex_lt_index_ne (hf.2 _ hm) hc).1
    exact this rfl
  simp [hfind, hmem]

theorem addPair_low {m : EventManager} {t : Time} {ev : InternalEvent}
    {ks1 ks2 : Finset EventKey} (ht : t < HIGH_TIME)
    (hc : m.next_event_index < PAIR_BASE)
    (hf1 : FreshFor m ks1) (hf2 : FreshFor m ks2) :
    m.addPairEvent t ev ks1 ks2 =
      some ({ events := insertEvent ⟨t, m.next_event_index + PAIR_BASE⟩ ev m.events,
              next_event_index := m.next_event_index + 1 },
            insert ⟨t, m.next_event_index + PAIR_BASE⟩ ks1,
            insert ⟨t, m.next_event_index + PAIR_BASE⟩ ks2) := by
  unfold EventManager.addPairEvent EventManager.newEventKey
  rw [if_neg (not_le.mpr ht), if_pos hc]
  have hfind : findEvent ⟨t, m.next_event_index + PAIR_BASE⟩ m.events = none :=
    findEvent_eq_none fun e he =>
      (rawIndex_lt_index_ne (hf1.1 e he) hc).2
  have hmem1 : (⟨t, m.next_event_index + PAIR_BASE⟩ : EventKey) ∉ ks1 := fun hm => by
    have := (rawIndex_lt_index_ne (hf1.2 _ hm) hc).2
    exact this rfl
  have hmem2 : (⟨t, m.next_event_index + PAIR_BASE⟩ : EventKey) ∉ ks2 := fun hm => by
    have := (rawIndex_lt_index_ne (hf2.2 _ hm) hc).2
    exact this rfl
  simp [hfind, hmem1, hmem2]

theorem addSolitaire_high {m : EventManager} {t : Time} {ev : InternalEvent}
    {ks : Finset EventKey} (ht : HIGH_TIME ≤ t) :
    m.addSolitaireEvent t ev ks = some (m, ks) := by
  unfold EventManager.addSolitaireEvent EventManager.newEventKey
  rw [if_pos ht]
  rfl

theorem addPair_high {m : EventManager} {t : Time} {ev : InternalEvent}
    {ks1 ks2 : Finset EventKey} (ht : HIGH_TIME ≤ t) :
    m.addPairEvent t ev ks1 ks2 = some (m, ks1, ks2) := by
  unfold EventManager.addPairEvent EventManager.newEventKey
  rw [if_pos ht]
  rfl

theorem timesBounded_addSolitaire {m : EventManager} {t : Time}
    {ev : InternalEvent} {ks : Finset EventKey} {m' : EventManager}
    {ks' : Finset EventKey} (hb : TimesBounded m)
    (h : m.addSolitaireEvent t ev ks = some (m', ks')) : TimesBounded m' := by
  unfold EventManager.addSolitaireEvent EventManager.newEventKey at h
  by_cases ht : HIGH_TIME ≤ t
  · rw [if_pos ht] at h
    simp only [Option.pure_def, Option.bind_eq_bind, Option.some_bind] at h
    · cases h; exact hb
  · rw [if_neg ht] at h
    by_cases hc : m.next_event_index < PAIR_BASE
    · rw [if_pos hc] at h
      simp only [Option.pure_def, Option.bind_eq_bind, Option.some_bind] at h
      split_ifs at h <;>
        first
        | exact Option.noConfusion h
        | (cases h
           intro e he
           rcases mem_insertEvent he with rfl | he
           · exact not_le.mp ht
           · exact hb e he)
    · rw [if_neg hc] at h
      simp at h
  done

theorem timesBounded_addPair {m : EventManager} {t : Time}
    {ev : InternalEvent} {ks1 ks2 : Finset EventKey} {m' : EventManager}
    {ks1' ks2' : Finset EventKey} (hb : TimesBounded m)
    (h : m.addPairEvent t ev ks1 ks2 = some (m', ks1', ks2')) :
    TimesBounded m' := by
  unfold EventManager.addPairEvent EventManager.newEventKey at h
  by_cases ht : HIGH_TIME ≤ t
  · rw [if_pos ht] at h
    simp only [Option.pure_def, Option.bind_eq_bind, Option.some_bind] at h
    · cases h; exact hb
  · rw [if_neg ht] at h
    by_cases hc : m.next_event_index < PAIR_BASE
    · rw [if_pos hc] at h
      simp only [Option.pure_def, Option.bind_eq_bind, Option.some_bind] at h
      split_ifs at h <;>
        first
        | exact Option.noConfusion h
        | (cases h
           intro e he
           rcases mem_insertEvent he with rfl | he
           · exact not_le.mp ht
           · exact hb e he)
    · rw [if_neg hc] at h
      simp at h
  done

theorem timesBounded_next {m : EventManager} {t : Time}
    {ks : HbId → Finset EventKey} {r : Option InternalEvent}
    {m' : EventManager} {ks' : HbId → Finset EventKey} (hb : TimesBounded m)
    (h : m.next t ks = some (r, m', ks')) : TimesBounded m' := by
  unfold EventManager.next at h
  rcases hm : m.events with _ | ⟨⟨key, event⟩, rest⟩
  · rw [hm] at h; cases h
    intro e he; exact hb e he
  · rw [hm] at h
    dsimp only [] at h
    by_cases ht : key.time = t
    · rw [if_pos ht] at h
      rcases hrm : removeKeyFromSets key event.involvedHitboxIds ks with _ | ks''
      · rw [hrm] at h; simp at h
      · rw [hrm] at h
        simp only [Option.pure_def, Option.bind_eq_bind, Option.some_bind] at h
        cases h
        intro e he
        exact hb e (hm ▸ List.mem_cons_of_mem _ he)
    · rw [if_neg ht] at h; cases h
      intro e he; exact hb e he

/-- C7: for every call to `add_solitaire_event` or `add_pair_event` with
scheduled time `t`: if `t < HIGH_TIME` (1e50) a fresh key (carrying the
next counter value, with the pair bit for pair events) is allocated, the
event is inserted into the queue and the key into the involved hitboxes'
key sets; if `t ≥ HIGH_TIME` (including `+∞ = ⊤`) nothing is inserted
and the queue, counter and key sets are left unchanged; consequently —
starting from the empty manager — the event queue never contains an
event whose time is at or above 1e50, a property preserved by both add
operations and by `next`. -/
theorem eventManager_high_time_filter :
    (∀ (m : EventManager) (t : Time) (ev : InternalEvent)
        (ks : Finset EventKey), t < HIGH_TIME →
        m.next_event_index < PAIR_BASE → FreshFor m ks →
        m.addSolitaireEvent t ev ks =
          some ({ events := insertEvent ⟨t, m.next_event_index⟩ ev m.events,
                  next_event_index := m.next_event_index + 1 },
                insert ⟨t, m.next_event_index⟩ ks)) ∧
    (∀ (m : EventManager) (t : Time) (ev : InternalEvent)
        (ks1 ks2 : Finset EventKey), t < HIGH_TIME →
        m.next_event_index < PAIR_BASE → FreshFor m ks1 → FreshFor m ks2 →
        m.addPairEvent t ev ks1 ks2 =
          some ({ events :=
                    insertEvent ⟨t, m.next_event_index + PAIR_BASE⟩ ev m.events,
                  next_event_index := m.next_event_index + 1 },
                insert ⟨t, m.next_event_index + PAIR_BASE⟩ ks1,
                insert ⟨t, m.next_event_index + PAIR_BASE⟩ ks2)) ∧
    (∀ (m : EventManager) (t : Time) (ev : InternalEvent)
        (ks : Finset EventKey), HIGH_TIME ≤ t →
        m.addSolitaireEvent t ev ks = some (m, ks)) ∧
    (∀ (m : EventManager) (t : Time) (ev : InternalEvent)
        (ks1 ks2 : Finset EventKey), HIGH_TIME ≤ t →
        m.addPairEvent t ev ks1 ks2 = some (m, ks1, ks2)) ∧
    TimesBounded EventManager.new ∧
    (∀ (m : EventManager) (t : Time) (ev : InternalEvent)
        (ks : Finset EventKey) (m' : EventManager) (ks' : Finset EventKey),
        TimesBounded m → m.addSolitaireEvent t ev ks = some (m', ks') →
        TimesBounded m') ∧
    (∀ (m : EventManager) (t : Time) (ev : InternalEvent)
        (ks1 ks2 : Finset EventKey) (m' : EventManager)
        (ks1' ks2' : Finset EventKey),
        TimesBounded m → m.addPairEvent t ev ks1 ks2 = some (m', ks1', ks2') →
        TimesBounded m') ∧
    (∀ (m : EventManager) (t : Time) (ks : HbId → Finset EventKey)
        (r : Option InternalEvent) (m' : EventManager)
        (ks' : HbId → Finset EventKey),
        TimesBounded m → m.next t ks = some (r, m', ks') → TimesBounded m') :=
  ⟨fun _ _ _ _ ht hc hf => addSolitaire_low ht hc hf,
   fun _ _ _ _ _ ht hc hf1 hf2 => addPair_low ht hc hf1 hf2,
   fun _ _ _ _ ht => addSolitaire_high ht,
   fun _ _ _ _ _ ht => addPair_high ht,
   fun e he => absurd he (List.not_mem_nil e),
   fun _ _ _ _ _ _ hb h => timesBounded_addSolitaire hb h,
   fun _ _ _ _ _ _ _ _ hb h => timesBounded_addPair hb h,
   fun _ _ _ _ _ _ hb h => timesBounded_next hb h⟩

/-- Witness for C7: on the empty manager, adding a solitaire event at
time 5 inserts the key with index 0, and adding one at `+∞` leaves the
manager untouched. -/
theorem eventManager_high_time_filter_witness :
    EventManager.new.addSolitaireEvent (5 : ℚ) (.reiterate 0) ∅ =
      some ({ events := insertEvent ⟨(5 : ℚ), 0⟩ (.reiterate 0) [],
              next_event_index := 1 },
            insert ⟨(5 : ℚ), 0⟩ ∅) ∧
    EventManager.new.addSolitaireEvent ⊤ (.reiterate 0) ∅ =
      some (EventManager.new, ∅) :=
  ⟨eventManager_high_time_filter.1 EventManager.new (5 : ℚ) (.reiterate 0) ∅
      (by rw [HIGH_TIME]; exact_mod_cast (by norm_num : (5 : ℚ) < 10 ^ 50))
      (by rw [PAIR_BASE, EventManager.new]; norm_num)
      ⟨fun e he => absurd he (List.not_mem_nil e),
       fun k hk => absurd hk (Finset.not_mem_empty k)⟩,
   eventManager_high_time_filter.2.2.1 EventManager.new ⊤ (.reiterate 0) ∅
      le_top⟩

/-! ### Claim C4: delivery order of queued events -/

theorem sorted_addSolitaire {m : EventManager} {t : Time}
    {ev : InternalEvent} {ks : Finset EventKey} {m' : EventManager}
    {ks' : Finset EventKey} (hs : EventsSorted m.events)
    (h : m.addSolitaireEvent t ev ks = some (m', ks')) :
    EventsSorted m'.events := by
  unfold EventManager.addSolitaireEvent EventManager.newEventKey at h
  by_cases ht : HIGH_TIME ≤ t
  · rw [if_pos ht] at h
    simp only [Option.pure_def, Option.bind_eq_bind, Option.some_bind] at h
    · cases h; exact hs
  · rw [if_neg ht] at h
    by_cases hc : m.next_event_index < PAIR_BASE
    · rw [if_pos hc] at h
      simp only [Option.pure_def, Option.bind_eq_bind, Option.some_bind] at h
      split_ifs at h <;>
        first
        | exact Option.noConfusion h
        | (cases h; exact insertEvent_sorted hs)
    · rw [if_neg hc] at h
      simp at h

theorem sorted_addPair {m : EventManager} {t : Time}
    {ev : InternalEvent} {ks1 ks2 : Finset EventKey} {m' : EventManager}
    {ks1' ks2' : Finset EventKey} (hs : EventsSorted m.events)
    (h : m.addPairEvent t ev ks1 ks2 = some (m', ks1', ks2')) :
    EventsSorted m'.events := by
  unfold EventManager.addPairEvent EventManager.newEventKey at h
  by_cases ht : HIGH_TIME ≤ t
  · rw [if_pos ht] at h
    simp only [Option.pure_def, Option.bind_eq_bind, Option.some_bind] at h
    · cases h; exact hs
  · rw [if_neg ht] at h
    by_cases hc : m.next_event_index < PAIR_BASE
    · rw [if_pos hc] at h
      simp only [Option.pure_def, Option.bind_eq_bind, Option.some_bind] at h
      split_ifs at h <;>
        first
        | exact Option.noConfusion h
        | (cases h; exact insertEvent_sorted hs)
    · rw [if_neg hc] at h
      simp at h

theorem sorted_next {m : EventManager} {t : Time}
    {ks : HbId → Finset EventKey} {r : Option InternalEvent}
    {m' : EventManager} {ks' : HbId → Finset EventKey}
    (hs : EventsSorted m.events) (h : m.next t ks = some (r, m', ks')) :
    EventsSorted m'.events := by
  unfold EventManager.next at h
  rcases hm : m.events with _ | ⟨⟨key, event⟩, rest⟩
  · rw [hm] at h; cases h; exact hs
  · rw [hm] at h
    dsimp only [] at h
    by_cases ht : key.time = t
    · rw [if_pos ht] at h
      rcases hrm : removeKeyFromSets key event.involvedHitboxIds ks with _ | ks''
      · rw [hrm] at h; simp at h
      · rw [hrm] at h
        simp only [Option.pure_def, Option.bind_eq_bind, Option.some_bind] at h
        cases h
        exact (List.pairwise_cons.mp (hm ▸ hs)).2
    · rw [if_neg ht] at h; cases h; exact hs

/-- Amended C4: `next` always delivers the queue minimum: events are
delivered in nondecreasing `EventKey` order, where `keyLt` compares
`(time, stored index)` lexicographically.  Keys are allocated with index
equal to the monotone counter for solitaire events and counter +
`PAIR_BASE` for pair events, so at equal times delivery is FIFO among
events of the same kind, while every solitaire event precedes every pair
event queued at the same time regardless of allocation order. -/
theorem event_delivery_order_amended :
    (∀ (m : EventManager) (t : Time) (ks : HbId → Finset EventKey)
        (ev : InternalEvent) (rest : List (EventKey × InternalEvent))
        (key : EventKey), EventsSorted m.events →
        m.events = (key, ev) :: rest →
        (∀ e ∈ rest, EventKey.keyLt key e.1) ∧
          (m.next t ks ≠ none →
            ∀ r m' ks', m.next t ks = some (r, m', ks') →
              (key.time = t → r = some ev ∧ m'.events = rest) ∧
              (key.time ≠ t → r = none ∧ m' = m))) ∧
    (∀ a b : EventKey, EventKey.keyLt a b ↔
        (a.time < b.time ∨ (a.time = b.time ∧ a.index < b.index))) ∧
    (∀ a b : EventKey, a.time = b.time → a.index < PAIR_BASE →
        PAIR_BASE ≤ b.index → EventKey.keyLt a b) ∧
    (∀ (m1 m2 : EventManager) (t1 t2 : Time) (fp : Bool)
        (k1 k2 : EventKey) (r1 r2 : EventManager),
        m1.newEventKey t1 fp = some (some k1, r1) →
        m2.newEventKey t2 fp = some (some k2, r2) →
        m1.next_event_index < m2.next_event_index →
        k1.time = k2.time → EventKey.keyLt k1 k2) ∧
    (∀ (m : EventManager) (t : Time) (ev : InternalEvent)
        (ks : Finset EventKey) (m' : EventManager) (ks' : Finset EventKey),
        EventsSorted m.events → m.addSolitaireEvent t ev ks = some (m', ks') →
        EventsSorted m'.events) ∧
    (∀ (m : EventManager) (t : Time) (ev : InternalEvent)
        (ks1 ks2 : Finset EventKey) (m' : EventManager)
        (ks1' ks2' : Finset EventKey),
        EventsSorted m.events →
        m.addPairEvent t ev ks1 ks2 = some (m', ks1', ks2') →
        EventsSorted m'.events) ∧
    (∀ (m : EventManager) (t : Time) (ks : HbId → Finset EventKey)
        (r : Option InternalEvent) (m' : EventManager)
        (ks' : HbId → Finset EventKey),
        EventsSorted m.events → m.next t ks = some (r, m', ks') →
        EventsSorted m'.events) := by
  refine ⟨?_, keyLt_iff, ?_, ?_,
    fun _ _ _ _ _ _ hs h => sorted_addSolitaire hs h,
    fun _ _ _ _ _ _ _ _ hs h => sorted_addPair hs h,
    fun _ _ _ _ _ _ hs h => sorted_next hs h⟩
  · intro m t ks ev rest key hs hm
    refine ⟨sorted_head_lt (hm ▸ hs), ?_⟩
    intro _ r m' ks' h
    unfold EventManager.next at h
    rw [hm] at h
    dsimp only [] at h
    constructor
    · intro htime
      rw [if_pos htime] at h
      rcases hrm : removeKeyFromSets key ev.involvedHitboxIds ks with _ | ks''
      · rw [hrm] at h; simp at h
      · rw [hrm] at h
        simp only [Option.pure_def, Option.bind_eq_bind, Option.some_bind] at h
        cases h
        exact ⟨rfl, rfl⟩
    · intro htime
      rw [if_neg htime] at h
      cases h
      exact ⟨rfl, rfl⟩
  · intro a b htime ha hb
    rw [keyLt_iff]
    exact Or.inr ⟨htime, lt_of_lt_of_le ha hb⟩
  · intro m1 m2 t1 t2 fp k1 k2 r1 r2 h1 h2 hlt htime
    unfold EventManager.newEventKey at h1 h2
    by_cases ha1 : HIGH_TIME ≤ t1
    · rw [if_pos ha1] at h1; exact absurd h1 (by simp)
    · rw [if_neg ha1] at h1
      by_cases hb1 : m1.next_event_index < PAIR_BASE
      · rw [if_pos hb1] at h1
        by_cases ha2 : HIGH_TIME ≤ t2
        · rw [if_pos ha2] at h2; exact absurd h2 (by simp)
        · rw [if_neg ha2] at h2
          by_cases hb2 : m2.next_event_index < PAIR_BASE
          · rw [if_pos hb2] at h2
            cases h1; cases h2
            rw [keyLt_iff]
            refine Or.inr ⟨htime, ?_⟩
            cases fp <;> simpa using hlt
          · rw [if_neg hb2] at h2; exact Option.noConfusion h2
      · rw [if_neg hb1] at h1; exact Option.noConfusion h1

/-- C4 counterexample: a pair event and a solitaire event are queued at
the same time 5, the pair event first (counter 0, stored index
`PAIR_BASE`), the solitaire event second (counter 1, stored index 1);
successive calls to `next` deliver the solitaire event *before* the pair
event, so equal-time events are not delivered in the order their keys
were allocated from the monotone counter. -/
theorem event_delivery_order_counterexample :
    EventManager.new.addPairEvent (5 : ℚ) (.collide 1 2) ∅ ∅ =
      some (⟨[(⟨(5 : ℚ), PAIR_BASE⟩, .collide 1 2)], 1⟩,
            {⟨(5 : ℚ), PAIR_BASE⟩}, {⟨(5 : ℚ), PAIR_BASE⟩}) ∧
    (EventManager.mk [(⟨(5 : ℚ), PAIR_BASE⟩, .collide 1 2)] 1).addSolitaireEvent
        (5 : ℚ) (.reiterate 3) ∅ =
      some (⟨[(⟨(5 : ℚ), 1⟩, .reiterate 3),
              (⟨(5 : ℚ), PAIR_BASE⟩, .collide 1 2)], 2⟩, {⟨(5 : ℚ), 1⟩}) ∧
    ((EventManager.mk [(⟨(5 : ℚ), 1⟩, .reiterate 3),
        (⟨(5 : ℚ), PAIR_BASE⟩, .collide 1 2)] 2).next (5 : ℚ) c4KeySets).map
        (fun x => (x.1, x.2.1.events)) =
      some (some (.reiterate 3), [(⟨(5 : ℚ), PAIR_BASE⟩, .collide 1 2)]) ∧
    ((EventManager.mk [(⟨(5 : ℚ), PAIR_BASE⟩, .collide 1 2)] 2).next (5 : ℚ)
        c4KeySets2).map (fun x => (x.1, x.2.1.events)) =
      some (some (.collide 1 2), []) := by
  refine ⟨?_, ?_, ?_, ?_⟩ <;> decide

/-- Witness for the amended C4 theorem: at equal times a solitaire key
precedes a pair key, and two same-kind keys allocated in counter order
compare in allocation order. -/
theorem event_delivery_order_amended_witness :
    EventKey.keyLt ⟨(5 : ℚ), 1⟩ ⟨(5 : ℚ), PAIR_BASE⟩ ∧
    EventKey.keyLt ⟨(5 : ℚ), 0⟩ ⟨(5 : ℚ), 1⟩ :=
  ⟨event_delivery_order_amended.2.2.1 _ _ rfl (by decide) (by decide),
   event_delivery_order_amended.2.2.2.1 ⟨[], 0⟩ ⟨[], 1⟩ (5 : ℚ) (5 : ℚ) false
     ⟨(5 : ℚ), 0⟩ ⟨(5 : ℚ), 1⟩ ⟨[], 1⟩ ⟨[], 2⟩ (by decide) (by decide)
     (by decide) rfl⟩

/-- C9 counterexample: the claim says every public operation given an
untracked id panics, `is_overlapping` included; but
`Collider::is_overlapping` converts the missing-id lookup into the
non-error return value `false` (`unwrap_or(false)`): on the freshly
constructed collider, in which id 1 is not tracked, it completes and
returns `false`. -/
theorem missing_id_counterexample :
    CQ.Collider.new ℕ 2 1 = some c9empty ∧
    c9empty.hitboxes 1 = none ∧
    CQ.isOverlapping c9empty 1 2 = false := by
  refine ⟨?_, rfl, rfl⟩
  rw [CQ.Collider.new, if_pos (by norm_num)]
  rfl

/-- Amended C9: `set_hitbox_vel`, `remove_hitbox`, `get_hitbox` and
`get_overlaps` all fail fatally (panic) when given an id that is not
currently tracked; `is_overlapping`, however, silently converts the
missing-id lookup into the return value `false` (it never panics). -/
theorem missing_id_amended :
    (∀ (P : Type) (ops : CQ.ProfileOps P) (g : CQ.Oracle)
        (c : CQ.Collider P) (id : HbId) (vel : CQ.HbVel),
        c.hitboxes id = none →
        CQ.getHitbox c id = none ∧
        CQ.getOverlaps c id = none ∧
        CQ.setHitboxVel ops g c id vel = none ∧
        CQ.removeHitbox ops c id = none) ∧
    (∀ (P : Type) (c : CQ.Collider P) (id1 id2 : HbId),
        c.hitboxes id1 = none → CQ.isOverlapping c id1 id2 = false) := by
  constructor
  · intro P ops g c id vel h
    refine ⟨?_, ?_, ?_, ?_⟩
    · rw [CQ.getHitbox, h]; rfl
    · rw [CQ.getOverlaps, h]; rfl
    · rw [CQ.setHitboxVel, h]; rfl
    · rw [CQ.removeHitbox, h]; rfl
  · intro P c id1 id2 h
    rw [CQ.isOverlapping, h]

/-- Witness for the amended C9 theorem at the empty collider and id 7. -/
theorem missing_id_amended_witness :
    (CQ.getHitbox c9empty 7 = none ∧
     CQ.getOverlaps c9empty 7 = none ∧
     CQ.setHitboxVel natProfileOps trivialOracle c9empty 7
       { value := CQ.Vec2.zero, resize := CQ.Vec2.zero, end_time := ⊤ } = none ∧
     CQ.removeHitbox natProfileOps c9empty 7 = none) ∧
    CQ.isOverlapping c9empty 7 8 = false :=
  ⟨missing_id_amended.1 ℕ natProfileOps trivialOracle c9empty 7
      { value := CQ.Vec2.zero, resize := CQ.Vec2.zero, end_time := ⊤ } rfl,
   missing_id_amended.2 ℕ c9empty 7 8 rfl⟩

/-! ### Claim C8: `pub_end_time` preservation -/

theorem pubHitboxAtTime_inv {P : Type} {info : CQ.HitboxInfo P} {t : ℚ}
    {h : CQ.Hitbox} (hp : info.pubHitboxAtTime t = some h) :
    h.vel.end_time = info.pub_end_time ∧
    h.vel.value = info.hitbox.vel.value ∧
    h.vel.resize = info.hitbox.vel.resize ∧
    h.value = info.hitbox.value.advance info.hitbox.vel.value
      info.hitbox.vel.resize (t - info.start_time) := by
  unfold CQ.HitboxInfo.pubHitboxAtTime at hp
  split_ifs at hp
  unfold CQ.Hitbox.advancedShape at hp
  split_ifs at hp
  · simp only [Option.pure_def, Option.bind_eq_bind, Option.some_bind,
      Option.some.injEq] at hp
    cases hp
    exact ⟨rfl, rfl, rfl, rfl⟩
  · exact Option.noConfusion hp

theorem solitaireCheck_inv {P : Type} {c : CQ.Collider P} {id : HbId}
    {info : CQ.HitboxInfo P} {hasGroup : Bool} {c' : CQ.Collider P}
    {info' : CQ.HitboxInfo P}
    (h : CQ.solitaireEventCheck c id info hasGroup = some (c', info')) :
    info'.pub_end_time = info.hitbox.vel.end_time ∧
    info'.hitbox.vel.end_time ≤ info.hitbox.vel.end_time ∧
    info'.hitbox.value = info.hitbox.value ∧
    info'.hitbox.vel.value = info.hitbox.vel.value ∧
    info'.hitbox.vel.resize = info.hitbox.vel.resize ∧
    info'.start_time = info.start_time ∧
    info'.overlaps = info.overlaps ∧
    info'.profile = info.profile ∧
    c'.hitboxes = c.hitboxes ∧
    c'.time = c.time ∧ c'.padding = c.padding := by
  simp only [CQ.solitaireEventCheck] at h
  rcases hts : info.hitbox.timeUntilTooSmall c.padding with _ | tts <;>
    rw [hts] at h
  · simp at h
  · simp only [Option.pure_def, Option.bind_eq_bind, Option.some_bind] at h
    have hle1 :
        (if info.hitbox.vel.end_time <
            (c.time : Time) + c.grid.cellPeriod info.hitbox hasGroup
          then (info.hitbox.vel.end_time, false)
          else ((c.time : Time) + c.grid.cellPeriod info.hitbox hasGroup, true)).1
          ≤ info.hitbox.vel.end_time := by
      split_ifs with h1
      · exact le_refl _
      · exact not_lt.mp h1
    generalize hr1 :
      (if info.hitbox.vel.end_time <
          (c.time : Time) + c.grid.cellPeriod info.hitbox hasGroup
        then (info.hitbox.vel.end_time, false)
        else ((c.time : Time) + c.grid.cellPeriod info.hitbox hasGroup, true)) = r1 at h hle1
    have hle2 :
        (if (c.time : Time) + tts < r1.1 then ((c.time : Time) + tts, false)
          else r1).1 ≤ r1.1 := by
      split_ifs with h2
      · exact le_of_lt h2
      · exact le_refl _
    generalize hr2 :
      (if (c.time : Time) + tts < r1.1 then ((c.time : Time) + tts, false)
        else r1) = r2 at h hle2
    have hle : r2.1 ≤ info.hitbox.vel.end_time := le_trans hle2 hle1
    split_ifs at h
    · rcases hadd : (c.events.addSolitaireEvent r2.1 (.reiterate id)
          info.event_keys) with _ | pair <;> rw [hadd] at h
      · simp at h
      · simp only [Option.pure_def, Option.bind_eq_bind, Option.some_bind,
          Option.some.injEq, Prod.mk.injEq] at h
        obtain ⟨hc, hinfo⟩ := h
        rw [← hc, ← hinfo]
        exact ⟨rfl, hle, rfl, rfl, rfl, rfl, rfl, rfl, rfl, rfl, rfl⟩
    · simp only [Option.some.injEq, Prod.mk.injEq] at h
      obtain ⟨hc, hinfo⟩ := h
      rw [← hc, ← hinfo]
      exact ⟨rfl, hle, rfl, rfl, rfl, rfl, rfl, rfl, rfl, rfl, rfl⟩

/-- C8: the user-visible `end_time` is never changed by internal
shortening: after `solitaire_event_check` has recorded `pub_end_time`
(the user's `end_time`) and clamped the stored record's internal
`vel.end_time` to the earliest of cell period, `end_time` and too-small
time, `pub_hitbox_at_time` (the body of `get_hitbox`) still returns a
hitbox whose `vel.end_time` equals the preserved user `end_time`; all
other fields are the base snapshot advanced linearly to the query time. -/
theorem pub_end_time_preserved :
    ∀ (P : Type) (c : CQ.Collider P) (id : HbId) (info : CQ.HitboxInfo P)
      (hasGroup : Bool) (c' : CQ.Collider P) (info' : CQ.HitboxInfo P),
      CQ.solitaireEventCheck c id info hasGroup = some (c', info') →
      info'.pub_end_time = info.hitbox.vel.end_time ∧
      info'.hitbox.vel.end_time ≤ info.hitbox.vel.end_time ∧
      ∀ (t : ℚ) (h : CQ.Hitbox), info'.pubHitboxAtTime t = some h →
        h.vel.end_time = info.hitbox.vel.end_time ∧
        h.vel.value = info.hitbox.vel.value ∧
        h.vel.resize = info.hitbox.vel.resize ∧
        h.value = info.hitbox.value.advance info.hitbox.vel.value
          info.hitbox.vel.resize (t - info.start_time) := by
  intro P c id info hasGroup c' info' hrun
  obtain ⟨hpub, hclamp, hval, hvv, hvr, hst, -⟩ := solitaireCheck_inv hrun
  refine ⟨hpub, hclamp, ?_⟩
  intro t h hp
  obtain ⟨he, hv, hr, hadv⟩ := pubHitboxAtTime_inv hp
  refine ⟨he.trans hpub, hv.trans hvv, hr.trans hvr, ?_⟩
  rw [hadv, hval, hvv, hvr, hst]

/-- Witness for C8: on the concrete record the check preserves the
public `end_time` 10 while clamping the stored one to 2, and the public
hitbox read back at time 1 still carries `end_time = 10`. -/
theorem pub_end_time_preserved_witness :
    c8infoAfter.pub_end_time = ((10 : ℚ) : Time) ∧
    c8infoAfter.hitbox.vel.end_time ≤ ((10 : ℚ) : Time) ∧
    (c8infoAfter.pubHitboxAtTime 1).map (fun h => h.vel.end_time) =
      some ((10 : ℚ) : Time) := by
  have hrun : CQ.solitaireEventCheck c9empty 7 c8info true =
      some (c8colliderAfter, c8infoAfter) := by
    simp only [CQ.solitaireEventCheck, c9empty, c8info, c8hitbox, CQ.HitboxInfo.new,
      CQ.Hitbox.timeUntilTooSmall, CQ.Grid.cellPeriod, CQ.Grid.new, CQ.maxEdgeOf,
      EventManager.addSolitaireEvent, EventManager.newEventKey, EventManager.new,
      HIGH_TIME, PAIR_BASE, findEvent, insertEvent, c8colliderAfter, c8infoAfter]
    norm_num
    rfl
  obtain ⟨hpub, hclamp, hq⟩ :=
    pub_end_time_preserved ℕ c9empty 7 c8info true c8colliderAfter c8infoAfter hrun
  refine ⟨hpub, hclamp, ?_⟩
  have hp : c8infoAfter.pubHitboxAtTime 1 =
      some { value := { pos := ⟨1, 0⟩, shape := { kind := .rect, dims := ⟨2, 2⟩ } },
             vel := { value := ⟨1, 0⟩, resize := ⟨0, 0⟩,
                      end_time := ((10 : ℚ) : Time) } } := by
    simp only [CQ.HitboxInfo.pubHitboxAtTime, CQ.Hitbox.advancedShape,
      CQ.PlacedShape.advance, CQ.Vec2.add, CQ.Vec2.smul, c8infoAfter, HIGH_TIME]
    norm_num
  obtain ⟨he, -, -, -⟩ := hq 1 _ hp
  rw [hp]
  simp [he]

theorem symF_congr {v w : HbId → Finset HbId} (h : ∀ a, v a = w a)
    (hs : CQ.SymF v) : CQ.SymF w := by
  intro a b
  rw [← h a, ← h b]
  exact hs a b

theorem overlapsOf_updateMap {P : Type} (hbs : HbId → Option (CQ.HitboxInfo P))
    (i : HbId) (v : Option (CQ.HitboxInfo P)) (a : HbId) :
    CQ.overlapsOf (CQ.updateMap hbs i v) a =
      if a = i then (match v with | some info => info.overlaps | none => ∅)
      else CQ.overlapsOf hbs a := by
  unfold CQ.overlapsOf CQ.updateMap
  by_cases h : a = i <;> simp [h]

theorem symF_insertPair {v : HbId → Finset HbId} (hs : CQ.SymF v)
    {i j : HbId} (hne : i ≠ j) :
    CQ.SymF (fun a => if a = i then insert j (v i)
      else if a = j then insert i (v j) else v a) := by
  have hmem : ∀ a b : HbId,
      (a ∈ (if b = i then insert j (v i)
        else if b = j then insert i (v j) else v b)) ↔
        (a ∈ v b ∨ (b = i ∧ a = j) ∨ (b = j ∧ a = i)) := by
    intro a b
    by_cases hbi : b = i
    · subst hbi
      rw [if_pos rfl, Finset.mem_insert]
      constructor
      · rintro (rfl | h)
        · exact Or.inr (Or.inl ⟨rfl, rfl⟩)
        · exact Or.inl h
      · rintro (h | ⟨-, rfl⟩ | ⟨hbj, -⟩)
        · exact Or.inr h
        · exact Or.inl rfl
        · exact absurd hbj hne
    · rw [if_neg hbi]
      by_cases hbj : b = j
      · subst hbj
        rw [if_pos rfl, Finset.mem_insert]
        constructor
        · rintro (rfl | h)
          · exact Or.inr (Or.inr ⟨rfl, rfl⟩)
          · exact Or.inl h
        · rintro (h | ⟨hbji, -⟩ | ⟨-, rfl⟩)
          · exact Or.inr h
          · exact absurd hbji hbi
          · exact Or.inl rfl
      · rw [if_neg hbj]
        constructor
        · exact Or.inl
        · rintro (h | ⟨hb, -⟩ | ⟨hb, -⟩)
          · exact h
          · exact absurd hb hbi
          · exact absurd hb hbj
  intro a b
  rw [hmem a b, hmem b a]
  constructor
  · rintro (h | ⟨rfl, rfl⟩ | ⟨rfl, rfl⟩)
    · exact Or.inl ((hs a b).mp h)
    · exact Or.inr (Or.inr ⟨rfl, rfl⟩)
    · exact Or.inr (Or.inl ⟨rfl, rfl⟩)
  · rintro (h | ⟨rfl, rfl⟩ | ⟨rfl, rfl⟩)
    · exact Or.inl ((hs b a).mp h)
    · exact Or.inr (Or.inr ⟨rfl, rfl⟩)
    · exact Or.inr (Or.inl ⟨rfl, rfl⟩)

theorem symF_erasePair {v : HbId → Finset HbId} (hs : CQ.SymF v)
    {i j : HbId} (hne : i ≠ j) :
    CQ.SymF (fun a => if a = i then (v i).erase j
      else if a = j then (v j).erase i else v a) := by
  have hmem : ∀ a b : HbId,
      (a ∈ (if b = i then (v i).erase j
        else if b = j then (v j).erase i else v b)) ↔
        (a ∈ v b ∧ ¬(b = i ∧ a = j) ∧ ¬(b = j ∧ a = i)) := by
    intro a b
    by_cases hbi : b = i
    · subst hbi
      rw [if_pos rfl, Finset.mem_erase]
      constructor
      · rintro ⟨hja, h⟩
        exact ⟨h, fun hc => hja hc.2, fun hc => hne hc.1⟩
      · rintro ⟨h, h1, -⟩
        exact ⟨fun hc => h1 ⟨rfl, hc⟩, h⟩
    · rw [if_neg hbi]
      by_cases hbj : b = j
      · subst hbj
        rw [if_pos rfl, Finset.mem_erase]
        constructor
        · rintro ⟨hia, h⟩
          exact ⟨h, fun hc => hbi hc.1, fun hc => hia hc.2⟩
        · rintro ⟨h, -, h2⟩
          exact ⟨fun hc => h2 ⟨rfl, hc⟩, h⟩
      · rw [if_neg hbj]
        constructor
        · intro h
          exact ⟨h, fun hc => hbi hc.1, fun hc => hbj hc.1⟩
        · exact fun h => h.1
  intro a b
  rw [hmem a b, hmem b a]
  constructor
  · rintro ⟨h, h1, h2⟩
    exact ⟨(hs a b).mp h, fun hc => h2 ⟨hc.2, hc.1⟩, fun hc => h1 ⟨hc.2, hc.1⟩⟩
  · rintro ⟨h, h1, h2⟩
    exact ⟨(hs b a).mp h, fun hc => h2 ⟨hc.2, hc.1⟩, fun hc => h1 ⟨hc.2, hc.1⟩⟩

theorem sameOv_refl {P : Type} (hbs : HbId → Option (CQ.HitboxInfo P)) :
    CQ.SameOv hbs hbs :=
  fun _ => ⟨rfl, Iff.rfl⟩

theorem sameOv_trans {P : Type} {h1 h2 h3 : HbId → Option (CQ.HitboxInfo P)}
    (a : CQ.SameOv h1 h2) (b : CQ.SameOv h2 h3) : CQ.SameOv h1 h3 :=
  fun i => ⟨(b i).1.trans (a i).1, (b i).2.trans (a i).2⟩

theorem sameOv_update_keys {P : Type} {hbs : HbId → Option (CQ.HitboxInfo P)}
    {i : HbId} {info info' : CQ.HitboxInfo P} (hi : hbs i = some info)
    (hov : info'.overlaps = info.overlaps) :
    CQ.SameOv hbs (CQ.updateMap hbs i (some info')) := by
  intro a
  constructor
  · simp only [overlapsOf_updateMap]
    by_cases h : a = i
    · rw [if_pos h, hov, h]
      unfold CQ.overlapsOf
      rw [hi]
    · rw [if_neg h]
  · unfold CQ.updateMap
    by_cases h : a = i
    · rw [if_pos h, h, hi]
      simp
    · rw [if_neg h]

theorem sepLoop_sameOv {P : Type} {g : CQ.Oracle} {id : HbId}
    {nh : CQ.DurHitbox} :
    ∀ (l : List HbId) (c : CQ.Collider P) (info : CQ.HitboxInfo P)
      (c' : CQ.Collider P) (info' : CQ.HitboxInfo P),
      CQ.sepLoop g id nh l c info = some (c', info') →
      CQ.SameOv c.hitboxes c'.hitboxes ∧ info'.overlaps = info.overlaps := by
  intro l
  induction l with
  | nil =>
    intro c info c' info' h
    simp only [CQ.sepLoop, Option.some.injEq, Prod.mk.injEq] at h
    rw [← h.1, ← h.2]
    exact ⟨sameOv_refl _, rfl⟩
  | cons otherId rest ih =>
    intro c info c' info' h
    simp only [CQ.sepLoop] at h
    rcases h1 : c.hitboxes otherId with _ | oi <;> rw [h1] at h
    · simp at h
    · simp only [Option.pure_def, Option.bind_eq_bind, Option.some_bind] at h
      rcases h2 : oi.hitboxAtTime c.time with _ | od <;> rw [h2] at h
      · simp at h
      · simp only [Option.some_bind] at h
        rcases h3 : c.events.addPairEvent ((c.time : Time) +
            g.separateTime nh od c.padding) (.separate id otherId)
            info.event_keys oi.event_keys with _ | trip <;> rw [h3] at h
        · simp at h
        · simp only [Option.some_bind] at h
          obtain ⟨hsame, hov⟩ := ih _ _ _ _ h
          refine ⟨sameOv_trans (sameOv_update_keys h1
            (show ({ oi with event_keys := trip.2.2 } :
              CQ.HitboxInfo P).overlaps = oi.overlaps from rfl)) hsame, hov⟩

theorem clearRelatedLoop_sameOv {P : Type} {id : HbId} :
    ∀ (l : List EventKey) (m : EventManager)
      (hbs : HbId → Option (CQ.HitboxInfo P)) (m' : EventManager)
      (hbs' : HbId → Option (CQ.HitboxInfo P)),
      CQ.clearRelatedLoop id l m hbs = some (m', hbs') →
      CQ.SameOv hbs hbs' := by
  intro l
  induction l with
  | nil =>
    intro m hbs m' hbs' h
    simp only [CQ.clearRelatedLoop, Option.some.injEq, Prod.mk.injEq] at h
    rw [← h.2]
    exact sameOv_refl _
  | cons key rest ih =>
    intro m hbs m' hbs' h
    simp only [CQ.clearRelatedLoop] at h
    rcases h1 : CQ.removeEvent key m.events with _ | pair <;> rw [h1] at h
    · simp at h
    · simp only [Option.pure_def, Option.bind_eq_bind, Option.some_bind] at h
      rcases h2 : CQ.otherIdChecked pair.1 id with _ | other? <;> rw [h2] at h
      · simp at h
      · simp only [Option.some_bind] at h
        rcases other? with _ | other
        · exact ih _ _ _ _ h
        · simp only [] at h
          rcases h3 : hbs other with _ | oi <;> rw [h3] at h
          · simp at h
          · simp only [Option.some_bind] at h
            split_ifs at h
            exact sameOv_trans (sameOv_update_keys h3
              (show ({ oi with event_keys := oi.event_keys.erase key } :
                CQ.HitboxInfo P).overlaps = oi.overlaps from rfl)) (ih _ _ _ _ h)

theorem removeKeyFromInfos_sameOv {P : Type} {key : EventKey} :
    ∀ (l : List HbId) (hbs : HbId → Option (CQ.HitboxInfo P))
      (hbs' : HbId → Option (CQ.HitboxInfo P)),
      CQ.removeKeyFromInfos key l hbs = some hbs' →
      CQ.SameOv hbs hbs' := by
  intro l
  induction l with
  | nil =>
    intro hbs hbs' h
    simp only [CQ.removeKeyFromInfos, Option.some.injEq] at h
    rw [← h]
    exact sameOv_refl _
  | cons id rest ih =>
    intro hbs hbs' h
    simp only [CQ.removeKeyFromInfos] at h
    rcases h1 : hbs id with _ | info <;> rw [h1] at h
    · simp at h
    · simp only [Option.pure_def, Option.bind_eq_bind, Option.some_bind] at h
      split_ifs at h
      exact sameOv_trans (sameOv_update_keys h1
        (show ({ info with event_keys := info.event_keys.erase key } :
          CQ.HitboxInfo P).overlaps = info.overlaps from rfl)) (ih _ _ h)

theorem nextEventPop_sameOv {P : Type} {m : EventManager} {time : ℚ}
    {hbs : HbId → Option (CQ.HitboxInfo P)} {ev? : Option InternalEvent}
    {m' : EventManager} {hbs' : HbId → Option (CQ.HitboxInfo P)}
    (h : CQ.nextEventPop m time hbs = some (ev?, m', hbs')) :
    CQ.SameOv hbs hbs' := by
  unfold CQ.nextEventPop at h
  rcases hm : m.events with _ | ⟨⟨key, event⟩, rest⟩ <;> rw [hm] at h
  · simp only [Option.some.injEq, Prod.mk.injEq] at h
    rw [← h.2.2]
    exact sameOv_refl _
  · dsimp only [] at h
    split_ifs at h
    · rcases h1 : CQ.removeKeyFromInfos key event.involvedHitboxIds hbs
          with _ | hbs'' <;> rw [h1] at h
      · simp at h
      · simp only [Option.pure_def, Option.bind_eq_bind, Option.some_bind,
          Option.some.injEq, Prod.mk.injEq] at h
        rw [← h.2.2]
        exact removeKeyFromInfos_sameOv _ _ _ h1
    · simp only [Option.some.injEq, Prod.mk.injEq] at h
      rw [← h.2.2]
      exact sameOv_refl _

theorem viewO_congr {P : Type} {hbs hbs' : HbId → Option (CQ.HitboxInfo P)}
    {id : HbId} {info info' : CQ.HitboxInfo P} (hsame : CQ.SameOv hbs hbs')
    (hov : info'.overlaps = info.overlaps) (a : HbId) :
    CQ.viewO hbs id info a = CQ.viewO hbs' id info' a := by
  unfold CQ.viewO
  by_cases h : a = id
  · rw [if_pos h, if_pos h, hov]
  · rw [if_neg h, if_neg h, (hsame a).1]

theorem processCollision_inv {P : Type} {g : CQ.Oracle} {pad time : ℚ}
    {events : EventManager} {id1 : HbId} {hb1 : CQ.HitboxInfo P} {id2 : HbId}
    {hb2 : CQ.HitboxInfo P} {ev' : EventManager} {hb1' hb2' : CQ.HitboxInfo P}
    (h : CQ.processCollision g pad time events id1 hb1 id2 hb2 =
      some (ev', hb1', hb2')) :
    hb1'.overlaps = insert id2 hb1.overlaps ∧
    hb2'.overlaps = insert id1 hb2.overlaps := by
  unfold CQ.processCollision at h
  split_ifs at h
  simp only [Option.pure_def, Option.bind_eq_bind] at h
  rcases h1 : CQ.HitboxInfo.hitboxAtTime
      { hb1 with overlaps := insert id2 hb1.overlaps } time with _ | d1 <;>
    rw [h1] at h
  · simp at h
  · rw [Option.some_bind] at h
    rcases h2 : CQ.HitboxInfo.hitboxAtTime
        { hb2 with overlaps := insert id1 hb2.overlaps } time with _ | d2 <;>
      rw [h2] at h
    · simp at h
    · rw [Option.some_bind] at h
      rcases h3 : events.addPairEvent ((time : Time) + g.separateTime d1 d2 pad)
          (.separate id1 id2) hb1.event_keys hb2.event_keys with _ | trip <;>
        rw [h3] at h
      · simp at h
      · rw [Option.some_bind] at h
        simp only [Option.some.injEq, Prod.mk.injEq] at h
        rw [← h.2.1, ← h.2.2]
        exact ⟨rfl, rfl⟩

theorem viewO_self {P : Type} {hbs : HbId → Option (CQ.HitboxInfo P)}
    {id : HbId} {info : CQ.HitboxInfo P} :
    CQ.viewO hbs id info id = info.overlaps :=
  if_pos rfl

theorem viewO_ne {P : Type} {hbs : HbId → Option (CQ.HitboxInfo P)}
    {id : HbId} {info : CQ.HitboxInfo P} {a : HbId} (h : ¬ a = id) :
    CQ.viewO hbs id info a = CQ.overlapsOf hbs a :=
  if_neg h

theorem overlapsOf_some {P : Type} {hbs : HbId → Option (CQ.HitboxInfo P)}
    {a : HbId} {info : CQ.HitboxInfo P} (h : hbs a = some info) :
    CQ.overlapsOf hbs a = info.overlaps := by
  unfold CQ.overlapsOf
  rw [h]

theorem candLoop_symView {P : Type} {ops : CQ.ProfileOps P} {g : CQ.Oracle}
    {id : HbId} {nh : CQ.DurHitbox} {oldNone : Bool} :
    ∀ (l : List HbId) (c : CQ.Collider P) (info : CQ.HitboxInfo P)
      (res : List P) (c' : CQ.Collider P) (info' : CQ.HitboxInfo P)
      (res' : List P),
      CQ.candLoop ops g id nh oldNone l c info res = some (c', info', res') →
      c.hitboxes id = none →
      CQ.SymF (CQ.viewO c.hitboxes id info) →
      c'.hitboxes id = none ∧ CQ.SymF (CQ.viewO c'.hitboxes id info') := by
  intro l
  induction l with
  | nil =>
    intro c info res c' info' res' h hid hsym
    simp only [CQ.candLoop, Option.some.injEq, Prod.mk.injEq] at h
    rw [← h.1, ← h.2.1]
    exact ⟨hid, hsym⟩
  | cons otherId rest ih =>
    intro c info res c' info' res' h hid hsym
    rw [CQ.candLoop] at h
    split_ifs at h with hcond
    · simp only [Option.pure_def, Option.bind_eq_bind] at h
      rcases h1 : c.hitboxes otherId with _ | oi <;> rw [h1] at h
      · simp at h
      · rw [Option.some_bind] at h
        have hne : id ≠ otherId := by
          intro hEq
          rw [hEq, h1] at hid
          exact Option.noConfusion hid
        split_ifs at h with hci
        · rcases h2 : oi.hitboxAtTime c.time with _ | od <;> rw [h2] at h
          · simp at h
          · rw [Option.some_bind] at h
            split_ifs at h with hzero
            · rcases h3 : CQ.processCollision g c.padding c.time c.events id
                  info otherId oi with _ | ⟨ev2, info1, oi'⟩ <;> rw [h3] at h
              · simp at h
              · rw [Option.some_bind] at h
                obtain ⟨hov1, hov2⟩ := processCollision_inv h3
                refine ih _ _ _ _ _ _ h ?_ ?_
                · show CQ.updateMap c.hitboxes otherId (some oi') id = none
                  unfold CQ.updateMap
                  rw [if_neg hne, hid]
                · refine symF_congr ?_ (symF_insertPair hsym hne)
                  intro a
                  by_cases ha : a = id
                  · subst ha
                    rw [if_pos rfl, viewO_self, viewO_self, hov1]
                  · by_cases hao : a = otherId
                    · subst hao
                      rw [if_neg ha, if_pos rfl, viewO_ne ha, viewO_ne ha,
                        overlapsOf_some h1, overlapsOf_updateMap, if_pos rfl]
                      show insert id oi.overlaps = oi'.overlaps
                      rw [hov2]
                    · rw [if_neg ha, if_neg hao, viewO_ne ha, viewO_ne ha,
                        overlapsOf_updateMap, if_neg hao]
            · rcases h4 : c.events.addPairEvent ((c.time : Time) +
                  g.collideTime nh od) (.collide id otherId) info.event_keys
                  oi.event_keys with _ | trip <;> rw [h4] at h
              · simp at h
              · rw [Option.some_bind] at h
                have hsame : CQ.SameOv c.hitboxes
                    (CQ.updateMap c.hitboxes otherId
                      (some { oi with event_keys := trip.2.2 })) :=
                  sameOv_update_keys h1 rfl
                refine ih _ _ _ _ _ _ h ?_ ?_
                · show CQ.updateMap c.hitboxes otherId
                    (some { oi with event_keys := trip.2.2 }) id = none
                  unfold CQ.updateMap
                  rw [if_neg hne, hid]
                · exact symF_congr (viewO_congr hsame rfl) hsym
        · exact ih _ _ _ _ _ _ h hid hsym
    · exact ih _ _ _ _ _ _ h hid hsym

theorem overlapsOf_insert_self {P : Type} {hbs : HbId → Option (CQ.HitboxInfo P)}
    {id : HbId} {info : CQ.HitboxInfo P} (a : HbId) :
    CQ.overlapsOf (CQ.updateMap hbs id (some info)) a =
      CQ.viewO hbs id info a := by
  rw [overlapsOf_updateMap]
  by_cases h : a = id
  · subst h
    rw [if_pos rfl]
    exact viewO_self.symm
  · rw [if_neg h, viewO_ne h]

theorem updateHitboxTracking_sym {P : Type} {ops : CQ.ProfileOps P}
    {g : CQ.Oracle} {c : CQ.Collider P} {id : HbId} {info : CQ.HitboxInfo P}
    {oldHb : Option CQ.DurHitbox} {nh : CQ.DurHitbox} {c' : CQ.Collider P}
    {res : List P}
    (h : CQ.updateHitboxTracking ops g c id info oldHb nh = some (c', res))
    (hid : c.hitboxes id = none)
    (hsym : CQ.SymF (CQ.viewO c.hitboxes id info)) :
    CQ.SymmetricO c'.hitboxes := by
  simp only [CQ.updateHitboxTracking] at h
  rcases hg : ops.group info.profile with _ | group <;> rw [hg] at h
  · dsimp only [] at h
    split_ifs at h with hs
    simp only [Option.some.injEq, Prod.mk.injEq] at h
    rw [← h.1]
    exact symF_congr (fun a => (overlapsOf_insert_self a).symm) hsym
  · dsimp only [] at h
    simp only [Option.pure_def, Option.bind_eq_bind] at h
    rcases h1 : CQ.sepLoop g id nh (info.overlaps.sort (· ≤ ·)) c info
        with _ | ⟨c1, info1⟩ <;> rw [h1] at h
    · simp at h
    · rw [Option.some_bind] at h
      obtain ⟨hsame1, hov1⟩ := sepLoop_sameOv _ _ _ _ _ h1
      rcases h2 : c1.grid.updateHitbox id group oldHb (some nh)
          (ops.interactGroups info1.profile) with _ | ⟨grid2, testIds?⟩ <;>
        rw [h2] at h
      · simp at h
      · rw [Option.some_bind] at h
        rcases testIds? with _ | testIds
        · simp at h
        · rw [Option.some_bind] at h
          rcases h3 : CQ.candLoop ops g id nh oldHb.isNone
              (testIds.sort (· ≤ ·)) { c1 with grid := grid2 } info1 []
              with _ | ⟨c3, info3, res3⟩ <;> rw [h3] at h
          · simp at h
          · rw [Option.some_bind] at h
            have hid1 : c1.hitboxes id = none :=
              Option.isNone_iff_eq_none.mp ((hsame1 id).2.mpr (by rw [hid]; rfl))
            have hview1 : CQ.SymF (CQ.viewO c1.hitboxes id info1) :=
              symF_congr (viewO_congr hsame1 hov1) hsym
            obtain ⟨hid3, hview3⟩ := candLoop_symView _ _ _ _ _ _ _ h3 hid1 hview1
            dsimp only [] at h
            split_ifs at h with hs
            simp only [Option.some.injEq, Prod.mk.injEq] at h
            rw [← h.1]
            exact symF_congr (fun a => (overlapsOf_insert_self a).symm) hview3

theorem symmetricO_of_sameOv {P : Type}
    {hbs hbs' : HbId → Option (CQ.HitboxInfo P)} (hsame : CQ.SameOv hbs hbs')
    (hsym : CQ.SymmetricO hbs) : CQ.SymmetricO hbs' := by
  intro a b
  rw [(hsame a).1, (hsame b).1]
  exact hsym a b

theorem symF_view_empty {P : Type} {hbs : HbId → Option (CQ.HitboxInfo P)}
    {id : HbId} {info : CQ.HitboxInfo P} (hsym : CQ.SymmetricO hbs)
    (hid : hbs id = none) (hov : info.overlaps = ∅) :
    CQ.SymF (CQ.viewO hbs id info) := by
  have hidov : CQ.overlapsOf hbs id = ∅ := by
    unfold CQ.overlapsOf
    rw [hid]
  intro a b
  by_cases ha : a = id <;> by_cases hb : b = id
  · rw [ha, hb]
  · rw [ha, viewO_self, viewO_ne hb, hov]
    constructor
    · intro h
      have h2 := (hsym id b).mp h
      rw [hidov] at h2
      exact absurd h2 (Finset.not_mem_empty b)
    · intro h
      exact absurd h (Finset.not_mem_empty b)
  · rw [hb, viewO_self, viewO_ne ha, hov]
    constructor
    · intro h
      exact absurd h (Finset.not_mem_empty a)
    · intro h
      have h2 := (hsym id a).mp h
      rw [hidov] at h2
      exact absurd h2 (Finset.not_mem_empty a)
  · rw [viewO_ne ha, viewO_ne hb]
    exact hsym a b

theorem symF_view_detach {P : Type} {hbs : HbId → Option (CQ.HitboxInfo P)}
    {id : HbId} {info : CQ.HitboxInfo P} (hsym : CQ.SymmetricO hbs)
    (hid : hbs id = some info) :
    CQ.SymF (CQ.viewO (CQ.updateMap hbs id none) id info) := by
  have hpt : ∀ a, CQ.viewO (CQ.updateMap hbs id none) id info a =
      CQ.overlapsOf hbs a := by
    intro a
    by_cases ha : a = id
    · subst ha
      rw [viewO_self, overlapsOf_some hid]
    · rw [viewO_ne ha, overlapsOf_updateMap, if_neg ha]
  intro a b
  rw [hpt a, hpt b]
  exact hsym a b

theorem candLoop_isNone {P : Type} {ops : CQ.ProfileOps P} {g : CQ.Oracle}
    {id : HbId} {nh : CQ.DurHitbox} {oldNone : Bool} :
    ∀ (l : List HbId) (c : CQ.Collider P) (info : CQ.HitboxInfo P)
      (res : List P) (c' : CQ.Collider P) (info' : CQ.HitboxInfo P)
      (res' : List P),
      CQ.candLoop ops g id nh oldNone l c info res = some (c', info', res') →
      ∀ a, ((c'.hitboxes a).isNone ↔ (c.hitboxes a).isNone) := by
  intro l
  induction l with
  | nil =>
    intro c info res c' info' res' h a
    simp only [CQ.candLoop, Option.some.injEq, Prod.mk.injEq] at h
    rw [← h.1]
  | cons otherId rest ih =>
    intro c info res c' info' res' h a
    rw [CQ.candLoop] at h
    split_ifs at h with hcond
    · simp only [Option.pure_def, Option.bind_eq_bind] at h
      rcases h1 : c.hitboxes otherId with _ | oi <;> rw [h1] at h
      · simp at h
      · rw [Option.some_bind] at h
        split_ifs at h with hci
        · rcases h2 : oi.hitboxAtTime c.time with _ | od <;> rw [h2] at h
          · simp at h
          · rw [Option.some_bind] at h
            split_ifs at h with hzero
            · rcases h3 : CQ.processCollision g c.padding c.time c.events id
                  info otherId oi with _ | ⟨ev2, info1, oi'⟩ <;> rw [h3] at h
              · simp at h
              · rw [Option.some_bind] at h
                rw [ih _ _ _ _ _ _ h a]
                show (CQ.updateMap c.hitboxes otherId (some oi') a).isNone ↔ _
                unfold CQ.updateMap
                by_cases ha : a = otherId
                · rw [if_pos ha, ha, h1]
                  exact Iff.rfl
                · rw [if_neg ha]
            · rcases h4 : c.events.addPairEvent ((c.time : Time) +
                  g.collideTime nh od) (.collide id otherId) info.event_keys
                  oi.event_keys with _ | trip <;> rw [h4] at h
              · simp at h
              · rw [Option.some_bind] at h
                rw [ih _ _ _ _ _ _ h a]
                show (CQ.updateMap c.hitboxes otherId
                  (some { oi with event_keys := trip.2.2 }) a).isNone ↔ _
                unfold CQ.updateMap
                by_cases ha : a = otherId
                · rw [if_pos ha, ha, h1]
                  exact Iff.rfl
                · rw [if_neg ha]
        · exact ih _ _ _ _ _ _ h a
    · exact ih _ _ _ _ _ _ h a

theorem updateHitboxTracking_none {P : Type} {ops : CQ.ProfileOps P}
    {g : CQ.Oracle} {c : CQ.Collider P} {id : HbId} {info : CQ.HitboxInfo P}
    {oldHb : Option CQ.DurHitbox} {nh : CQ.DurHitbox} {c' : CQ.Collider P}
    {res : List P}
    (h : CQ.updateHitboxTracking ops g c id info oldHb nh = some (c', res)) :
    c.hitboxes id = none := by
  simp only [CQ.updateHitboxTracking] at h
  rcases hg : ops.group info.profile with _ | group <;> rw [hg] at h
  · dsimp only [] at h
    split_ifs at h with hs
    rcases hmem : c.hitboxes id with _ | v
    · rfl
    · exact absurd (by rw [hmem]; rfl) hs
  · dsimp only [] at h
    simp only [Option.pure_def, Option.bind_eq_bind] at h
    rcases h1 : CQ.sepLoop g id nh (info.overlaps.sort (· ≤ ·)) c info
        with _ | ⟨c1, info1⟩ <;> rw [h1] at h
    · simp at h
    · rw [Option.some_bind] at h
      obtain ⟨hsame1, hov1⟩ := sepLoop_sameOv _ _ _ _ _ h1
      rcases h2 : c1.grid.updateHitbox id group oldHb (some nh)
          (ops.interactGroups info1.profile) with _ | ⟨grid2, testIds?⟩ <;>
        rw [h2] at h
      · simp at h
      · rw [Option.some_bind] at h
        rcases testIds? with _ | testIds
        · simp at h
        · rw [Option.some_bind] at h
          rcases h3 : CQ.candLoop ops g id nh oldHb.isNone
              (testIds.sort (· ≤ ·)) { c1 with grid := grid2 } info1 []
              with _ | ⟨c3, info3, res3⟩ <;> rw [h3] at h
          · simp at h
          · rw [Option.some_bind] at h
            dsimp only [] at h
            split_ifs at h with hs
            have hn3 : (c3.hitboxes id).isNone = true := by
              rcases hmem : c3.hitboxes id with _ | v
              · rfl
              · exact absurd (by rw [hmem]; rfl) hs
            have hn1 : (c1.hitboxes id).isNone = true :=
              (candLoop_isNone _ _ _ _ _ _ _ h3 id).mp hn3
            exact Option.isNone_iff_eq_none.mp ((hsame1 id).2.mp hn1)

theorem addHitbox_sym {P : Type} {ops : CQ.ProfileOps P} {g : CQ.Oracle}
    {c : CQ.Collider P} {profile : P} {hitbox : CQ.Hitbox}
    {c' : CQ.Collider P} {res : List P}
    (h : CQ.addHitbox ops g c profile hitbox = some (c', res))
    (hsym : CQ.SymmetricO c.hitboxes) :
    CQ.SymmetricO c'.hitboxes := by
  simp only [CQ.addHitbox, Option.pure_def, Option.bind_eq_bind,
    Option.bind_eq_some] at h
  obtain ⟨u, hval, h⟩ := h
  obtain ⟨⟨c1, info1⟩, h1, h⟩ := h
  dsimp only [] at h
  have inv := solitaireCheck_inv h1
  have hhbs : c1.hitboxes = c.hitboxes := inv.2.2.2.2.2.2.2.2.1
  have hov : info1.overlaps = ∅ := inv.2.2.2.2.2.2.1
  have hid : c1.hitboxes (ops.id profile) = none := updateHitboxTracking_none h
  have hsym1 : CQ.SymmetricO c1.hitboxes := by
    rw [hhbs]
    exact hsym
  exact updateHitboxTracking_sym h hid (symF_view_empty hsym1 hid hov)

theorem internalUpdateHitbox_sym {P : Type} {ops : CQ.ProfileOps P}
    {g : CQ.Oracle} {c : CQ.Collider P} {id : HbId} {vel : Option CQ.HbVel}
    {c' : CQ.Collider P}
    (h : CQ.internalUpdateHitbox ops g c id vel = some c')
    (hsym : CQ.SymmetricO c.hitboxes) :
    CQ.SymmetricO c'.hitboxes := by
  simp only [CQ.internalUpdateHitbox, Option.pure_def, Option.bind_eq_bind,
    Option.bind_eq_some] at h
  obtain ⟨info, h0, h⟩ := h
  obtain ⟨pubHb, hpub, h⟩ := h
  rcases vel with _ | v
  · simp only [Option.pure_def, Option.bind_eq_bind, Option.some_bind,
      Option.bind_eq_some] at h
    obtain ⟨⟨events2, hbs2⟩, h2, h⟩ := h
    obtain ⟨⟨c3, info5⟩, h3, h⟩ := h
    obtain ⟨⟨c4, result⟩, h4, h⟩ := h
    split_ifs at h with hres
    cases h
    have inv3 := solitaireCheck_inv h3
    have hc3 : c3.hitboxes = hbs2 := inv3.2.2.2.2.2.2.2.2.1
    have hov5 : info5.overlaps = info.overlaps := inv3.2.2.2.2.2.2.1
    have hsame2 : CQ.SameOv (CQ.updateMap c.hitboxes id none) hbs2 :=
      clearRelatedLoop_sameOv _ _ _ _ _ h2
    have hview5 : CQ.SymF (CQ.viewO c3.hitboxes id info5) := by
      rw [hc3]
      exact symF_congr (viewO_congr hsame2 hov5) (symF_view_detach hsym h0)
    exact updateHitboxTracking_sym h4 (updateHitboxTracking_none h4) hview5
  · simp only [Option.pure_def, Option.bind_eq_bind, Option.some_bind,
      Option.bind_eq_some] at h
    obtain ⟨u, hval, h⟩ := h
    obtain ⟨⟨events2, hbs2⟩, h2, h⟩ := h
    obtain ⟨⟨c3, info5⟩, h3, h⟩ := h
    obtain ⟨⟨c4, result⟩, h4, h⟩ := h
    split_ifs at h with hres
    cases h
    have inv3 := solitaireCheck_inv h3
    have hc3 : c3.hitboxes = hbs2 := inv3.2.2.2.2.2.2.2.2.1
    have hov5 : info5.overlaps = info.overlaps := inv3.2.2.2.2.2.2.1
    have hsame2 : CQ.SameOv (CQ.updateMap c.hitboxes id none) hbs2 :=
      clearRelatedLoop_sameOv _ _ _ _ _ h2
    have hview5 : CQ.SymF (CQ.viewO c3.hitboxes id info5) := by
      rw [hc3]
      exact symF_congr (viewO_congr hsame2 hov5) (symF_view_detach hsym h0)
    exact updateHitboxTracking_sym h4 (updateHitboxTracking_none h4) hview5

theorem overlapsOf_none {P : Type} {hbs : HbId → Option (CQ.HitboxInfo P)}
    {a : HbId} (h : hbs a = none) : CQ.overlapsOf hbs a = ∅ := by
  unfold CQ.overlapsOf
  rw [h]

theorem setHitboxVel_sym {P : Type} {ops : CQ.ProfileOps P} {g : CQ.Oracle}
    {c : CQ.Collider P} {id : HbId} {vel : CQ.HbVel} {c' : CQ.Collider P}
    (h : CQ.setHitboxVel ops g c id vel = some c')
    (hsym : CQ.SymmetricO c.hitboxes) :
    CQ.SymmetricO c'.hitboxes := by
  simp only [CQ.setHitboxVel, Option.pure_def, Option.bind_eq_bind,
    Option.bind_eq_some] at h
  obtain ⟨info, h0, h⟩ := h
  split_ifs at h with hne
  · exact internalUpdateHitbox_sym h hsym
  · cases h
    exact hsym

theorem clearOverlapsLoop_sym {P : Type} {id : HbId} :
    ∀ (l : List HbId) (c : CQ.Collider P) (acc : List P)
      (c' : CQ.Collider P) (acc' : List P),
      CQ.clearOverlapsLoop id l c acc = some (c', acc') →
      l.Nodup →
      c.hitboxes id = none →
      (∀ a b, a ≠ id → b ≠ id →
        (a ∈ CQ.overlapsOf c.hitboxes b ↔ b ∈ CQ.overlapsOf c.hitboxes a)) →
      (∀ b, b ≠ id → (id ∈ CQ.overlapsOf c.hitboxes b ↔ b ∈ l)) →
      CQ.SymmetricO c'.hitboxes := by
  intro l
  induction l with
  | nil =>
    intro c acc c' acc' h hnd hid hpair hmem
    simp only [CQ.clearOverlapsLoop, Option.some.injEq, Prod.mk.injEq] at h
    rw [← h.1]
    intro a b
    by_cases ha : a = id <;> by_cases hb : b = id
    · rw [ha, hb]
    · rw [ha, hmem b hb, overlapsOf_none hid]
      simp
    · rw [hb, hmem a ha, overlapsOf_none hid]
      simp
    · exact hpair a b ha hb
  | cons otherId rest ih =>
    intro c acc c' acc' h hnd hid hpair hmem
    simp only [CQ.clearOverlapsLoop, Option.pure_def, Option.bind_eq_bind,
      Option.bind_eq_some] at h
    obtain ⟨otherInfo, h1, h⟩ := h
    split_ifs at h with hin
    have hne : otherId ≠ id := by
      intro he
      rw [he, hid] at h1
      exact Option.noConfusion h1
    have hnot : otherId ∉ rest := (List.nodup_cons.mp hnd).1
    have hov2 : ∀ x, CQ.overlapsOf (CQ.updateMap c.hitboxes otherId
        (some { otherInfo with overlaps := otherInfo.overlaps.erase id })) x =
        if x = otherId then otherInfo.overlaps.erase id
        else CQ.overlapsOf c.hitboxes x := by
      intro x
      rw [overlapsOf_updateMap]
    have hmem2 : ∀ x y, y ≠ id →
        (y ∈ CQ.overlapsOf (CQ.updateMap c.hitboxes otherId
          (some { otherInfo with overlaps := otherInfo.overlaps.erase id })) x ↔
         y ∈ CQ.overlapsOf c.hitboxes x) := by
      intro x y hy
      rw [hov2 x]
      by_cases hx : x = otherId
      · rw [if_pos hx, hx, overlapsOf_some h1, Finset.mem_erase]
        exact and_iff_right hy
      · rw [if_neg hx]
    refine ih _ _ _ _ h (List.nodup_cons.mp hnd).2 ?_ ?_ ?_
    · show CQ.updateMap c.hitboxes otherId
        (some { otherInfo with overlaps := otherInfo.overlaps.erase id }) id = none
      unfold CQ.updateMap
      rw [if_neg (Ne.symm hne), hid]
    · intro a b ha hb
      rw [hmem2 b a ha, hmem2 a b hb]
      exact hpair a b ha hb
    · intro b hb
      rw [hov2 b]
      by_cases hb2 : b = otherId
      · rw [if_pos hb2]
        constructor
        · intro hx
          exact absurd rfl (Finset.mem_erase.mp hx).1
        · intro hx
          rw [hb2] at hx
          exact absurd hx hnot
      · rw [if_neg hb2, hmem b hb, List.mem_cons]
        constructor
        · rintro (he | hr)
          · exact absurd he hb2
          · exact hr
        · exact Or.inr

theorem removeHitbox_sym {P : Type} {ops : CQ.ProfileOps P}
    {c : CQ.Collider P} {id : HbId} {c' : CQ.Collider P} {res : List P}
    (h : CQ.removeHitbox ops c id = some (c', res))
    (hsym : CQ.SymmetricO c.hitboxes) :
    CQ.SymmetricO c'.hitboxes := by
  simp only [CQ.removeHitbox, Option.pure_def, Option.bind_eq_bind,
    Option.bind_eq_some] at h
  obtain ⟨info, h0, h⟩ := h
  obtain ⟨⟨events2, hbs2⟩, h2, h⟩ := h
  dsimp only [] at h
  have hsame2 : CQ.SameOv (CQ.updateMap c.hitboxes id none) hbs2 :=
    clearRelatedLoop_sameOv _ _ _ _ _ h2
  have hid2 : hbs2 id = none := by
    refine Option.isNone_iff_eq_none.mp ((hsame2 id).2.mpr ?_)
    show (CQ.updateMap c.hitboxes id none id).isNone = true
    unfold CQ.updateMap
    rw [if_pos rfl]
    rfl
  have hovX : ∀ x, x ≠ id →
      CQ.overlapsOf hbs2 x = CQ.overlapsOf c.hitboxes x := by
    intro x hx
    rw [(hsame2 x).1, overlapsOf_updateMap, if_neg hx]
  have hmain : ∀ (cX : CQ.Collider P) (accX : List P),
      cX.hitboxes = hbs2 →
      CQ.clearOverlapsLoop id
        ((Finset.sort (· ≤ ·) info.overlaps) : List HbId) cX accX =
        some (c', res) →
      CQ.SymmetricO c'.hitboxes := by
    intro cX accX hX hloop
    refine clearOverlapsLoop_sym _ _ _ _ _ hloop (Finset.sort_nodup _ _) ?_ ?_ ?_
    · rw [hX]
      exact hid2
    · intro a b ha hb
      rw [hX, hovX a ha, hovX b hb]
      exact hsym a b
    · intro b hb
      rw [hX, hovX b hb, hsym id b, overlapsOf_some h0]
      exact (Finset.mem_sort _).symm
  rcases hg : ops.group info.profile with _ | group <;> rw [hg] at h
  · dsimp only [] at h
    simp only [Option.pure_def, Option.bind_eq_bind, Option.some_bind,
      CQ.clearOverlaps] at h
    exact hmain _ _ rfl h
  · dsimp only [] at h
    simp only [Option.pure_def, Option.bind_eq_bind, Option.bind_eq_some] at h
    obtain ⟨⟨grid2, u⟩, h3, h⟩ := h
    obtain ⟨cX, hcX, h⟩ := h
    injection hcX with hcX2
    subst hcX2
    simp only [CQ.clearOverlaps] at h
    exact hmain _ _ rfl h

theorem overlapsOf_update3 {P : Type} {hbs : HbId → Option (CQ.HitboxInfo P)}
    {id1 id2 : HbId} {i1 i2 : CQ.HitboxInfo P} (hne : id1 ≠ id2) (a : HbId) :
    CQ.overlapsOf (CQ.updateMap (CQ.updateMap (CQ.updateMap hbs id1 none) id2
      (some i2)) id1 (some i1)) a =
      if a = id1 then i1.overlaps
      else if a = id2 then i2.overlaps
      else CQ.overlapsOf hbs a := by
  rw [overlapsOf_updateMap]
  by_cases h1 : a = id1
  · rw [if_pos h1, if_pos h1]
  · rw [if_neg h1, if_neg h1, overlapsOf_updateMap]
    by_cases h2 : a = id2
    · rw [if_pos h2, if_pos h2]
    · rw [if_neg h2, if_neg h2, overlapsOf_updateMap, if_neg h1]

theorem processEvent_sym {P : Type} {ops : CQ.ProfileOps P} {g : CQ.Oracle}
    {c : CQ.Collider P} {event : InternalEvent} {c' : CQ.Collider P}
    {pub? : Option (CQ.HbEvent × HbId × HbId)}
    (h : CQ.processEvent ops g c event = some (c', pub?))
    (hsym : CQ.SymmetricO c.hitboxes) :
    CQ.SymmetricO c'.hitboxes := by
  cases event with
  | collide id1 id2 =>
    simp only [CQ.processEvent, Option.pure_def, Option.bind_eq_bind,
      Option.bind_eq_some] at h
    obtain ⟨info1, hA, h⟩ := h
    obtain ⟨info2, hB, h⟩ := h
    obtain ⟨⟨events2, info1', info2'⟩, hC, h⟩ := h
    dsimp only [] at h
    split_ifs at h with hs
    simp only [Option.pure_def, Option.bind_eq_bind, Option.bind_eq_some] at h
    obtain ⟨pub, hD, h⟩ := h
    cases h
    have hne : id1 ≠ id2 := by
      intro he
      have hB2 : (if id2 = id1 then (none : Option (CQ.HitboxInfo P))
          else c.hitboxes id2) = some info2 := hB
      rw [if_pos he.symm] at hB2
      exact Option.noConfusion hB2
    have hB3 : c.hitboxes id2 = some info2 := by
      have hB2 : (if id2 = id1 then (none : Option (CQ.HitboxInfo P))
          else c.hitboxes id2) = some info2 := hB
      rw [if_neg (fun he2 => hne he2.symm)] at hB2
      exact hB2
    refine symF_congr ?_ (symF_insertPair hsym hne)
    intro a
    dsimp only []
    rw [overlapsOf_update3 hne a]
    by_cases ha1 : a = id1
    · rw [if_pos ha1, if_pos ha1, (processCollision_inv hC).1,
        overlapsOf_some hA]
    · rw [if_neg ha1, if_neg ha1]
      by_cases ha2 : a = id2
      · rw [if_pos ha2, if_pos ha2, (processCollision_inv hC).2,
          overlapsOf_some hB3]
      · rw [if_neg ha2, if_neg ha2]
  | separate id1 id2 =>
    simp only [CQ.processEvent, Option.pure_def, Option.bind_eq_bind,
      Option.bind_eq_some] at h
    obtain ⟨info1, hA, h⟩ := h
    obtain ⟨info2, hB, h⟩ := h
    split_ifs at h with hin1 hin2
    simp only [Option.pure_def, Option.bind_eq_bind, Option.bind_eq_some] at h
    obtain ⟨d1, hD1, h⟩ := h
    obtain ⟨d2, hD2, h⟩ := h
    obtain ⟨⟨events2, k1, k2⟩, hE, h⟩ := h
    dsimp only [] at h
    split_ifs at h with hs
    simp only [Option.pure_def, Option.bind_eq_bind, Option.bind_eq_some] at h
    obtain ⟨pub, hF, h⟩ := h
    cases h
    have hne : id1 ≠ id2 := by
      intro he
      have hB2 : (if id2 = id1 then (none : Option (CQ.HitboxInfo P))
          else c.hitboxes id2) = some info2 := hB
      rw [if_pos he.symm] at hB2
      exact Option.noConfusion hB2
    have hB3 : c.hitboxes id2 = some info2 := by
      have hB2 : (if id2 = id1 then (none : Option (CQ.HitboxInfo P))
          else c.hitboxes id2) = some info2 := hB
      rw [if_neg (fun he2 => hne he2.symm)] at hB2
      exact hB2
    refine symF_congr ?_ (symF_erasePair hsym hne)
    intro a
    dsimp only []
    rw [overlapsOf_update3 hne a]
    by_cases ha1 : a = id1
    · rw [if_pos ha1, if_pos ha1, overlapsOf_some hA]
    · rw [if_neg ha1, if_neg ha1]
      by_cases ha2 : a = id2
      · rw [if_pos ha2, if_pos ha2, overlapsOf_some hB3]
      · rw [if_neg ha2, if_neg ha2]
  | reiterate id =>
    simp only [CQ.processEvent, Option.pure_def, Option.bind_eq_bind,
      Option.bind_eq_some] at h
    obtain ⟨c3, h3, h⟩ := h
    cases h
    exact internalUpdateHitbox_sym h3 hsym
  | panicSmallHitbox id =>
    exact Option.noConfusion h
  | panicDurationPassed id =>
    exact Option.noConfusion h

theorem colliderNext_sym {P : Type} {ops : CQ.ProfileOps P} {g : CQ.Oracle} :
    ∀ (fuel : ℕ) (c c' : CQ.Collider P) (out : Option (CQ.HbEvent × P × P)),
      CQ.colliderNext ops g fuel c = some (c', out) →
      CQ.SymmetricO c.hitboxes → CQ.SymmetricO c'.hitboxes := by
  intro fuel
  induction fuel with
  | zero =>
    intro c c' out h hsym
    exact Option.noConfusion h
  | succ n ih =>
    intro c c' out h hsym
    simp only [CQ.colliderNext, Option.pure_def, Option.bind_eq_bind,
      Option.bind_eq_some] at h
    obtain ⟨⟨ev?, events2, hbs2⟩, h1, h⟩ := h
    have hsym2 : CQ.SymmetricO hbs2 :=
      symmetricO_of_sameOv (nextEventPop_sameOv h1) hsym
    rcases ev? with _ | ev
    · cases h
      exact hsym2
    · dsimp only [] at h
      simp only [Option.pure_def, Option.bind_eq_bind, Option.bind_eq_some] at h
      obtain ⟨⟨c2, pub?⟩, h2, h⟩ := h
      have hsym3 : CQ.SymmetricO c2.hitboxes := processEvent_sym h2 hsym2
      rcases pub? with _ | ⟨ev2, id1, id2⟩
      · exact ih _ _ _ h hsym3
      · dsimp only [] at h
        simp only [Option.pure_def, Option.bind_eq_bind, Option.bind_eq_some] at h
        obtain ⟨i1, hI1, h⟩ := h
        obtain ⟨i2, hI2, h⟩ := h
        cases h
        exact hsym3

/-- C6: Invariant I4 (symmetric overlaps) holds after every public
`Collider` operation: the freshly constructed collider has symmetric
overlap sets, and every public operation — `add_hitbox`,
`set_hitbox_vel`, `remove_hitbox`, `set_time`, `next` and the read-only
queries — preserves the symmetry `b ∈ overlaps(a) ↔ a ∈ overlaps(b)` of
the tracked overlap sets, for every profile type, id assignment and
solver oracle. -/
theorem overlap_symmetry_invariant :
    (∀ (P : Type) (cw pad : ℚ) (c : CQ.Collider P),
        CQ.Collider.new P cw pad = some c → CQ.SymmetricO c.hitboxes) ∧
    (∀ (P : Type) (ops : CQ.ProfileOps P) (g : CQ.Oracle)
        (c c' : CQ.Collider P) (op : CQ.PublicOp P),
        CQ.SymmetricO c.hitboxes →
        CQ.applyOp ops g c op = some c' →
        CQ.SymmetricO c'.hitboxes) := by
  constructor
  · intro P cw pad c h
    rw [CQ.Collider.new] at h
    split_ifs at h with hc
    cases h
    intro a b
    simp [CQ.overlapsOf]
  · intro P ops g c c' op hsym h
    cases op with
    | addHitbox profile hitbox =>
      simp only [CQ.applyOp, Option.map_eq_some'] at h
      obtain ⟨⟨c2, res⟩, h1, h2⟩ := h
      cases h2
      exact addHitbox_sym h1 hsym
    | setHitboxVel id vel =>
      exact setHitboxVel_sym h hsym
    | removeHitbox id =>
      simp only [CQ.applyOp, Option.map_eq_some'] at h
      obtain ⟨⟨c2, res⟩, h1, h2⟩ := h
      cases h2
      exact removeHitbox_sym h1 hsym
    | setTime time =>
      simp only [CQ.applyOp, CQ.setTime] at h
      split_ifs at h with hc
      cases h
      exact hsym
    | next fuel =>
      simp only [CQ.applyOp, Option.map_eq_some'] at h
      obtain ⟨⟨c2, out⟩, h1, h2⟩ := h
      cases h2
      exact colliderNext_sym fuel _ _ _ h1 hsym
    | getHitbox id =>
      simp only [CQ.applyOp, Option.map_eq_some'] at h
      obtain ⟨x, h1, h2⟩ := h
      cases h2
      exact hsym
    | getOverlaps id =>
      simp only [CQ.applyOp, Option.map_eq_some'] at h
      obtain ⟨x, h1, h2⟩ := h
      cases h2
      exact hsym
    | isOverlapping id1 id2 =>
      simp only [CQ.applyOp, Option.some.injEq] at h
      cases h
      exact hsym
    | queryOverlaps shape profile =>
      simp only [CQ.applyOp, Option.map_eq_some'] at h
      obtain ⟨x, h1, h2⟩ := h
      cases h2
      exact hsym

/-- Witness for C6 at a concrete input: the collider built by
`Collider::new(2.0, 1.0)` has symmetric overlaps, and applying the
public operation `is_overlapping(1, 2)` keeps them symmetric. -/
theorem overlap_symmetry_invariant_witness :
    CQ.applyOp natProfileOps trivialOracle c9empty
      (CQ.PublicOp.isOverlapping 1 2) = some c9empty ∧
    CQ.SymmetricO c9empty.hitboxes := by
  have hnew : CQ.Collider.new ℕ 2 1 = some c9empty := by
    rw [CQ.Collider.new, if_pos (by norm_num)]
    rfl
  have h0 : CQ.SymmetricO c9empty.hitboxes :=
    overlap_symmetry_invariant.1 ℕ 2 1 c9empty hnew
  exact ⟨rfl, overlap_symmetry_invariant.2 ℕ natProfileOps trivialOracle
    c9empty c9empty (CQ.PublicOp.isOverlapping 1 2) h0 rfl⟩

theorem le_foldl_colStep (a b : SR.DurHitbox) :
    ∀ (l : List SR.Card) (s : ℝ), s ≤ List.foldl (SR.colStep a b) s l := by
  intro l
  induction l with
  | nil => intro s; exact le_refl _
  | cons c rest ih =>
    intro s
    rw [List.foldl_cons]
    refine le_trans ?_ (ih _)
    unfold SR.colStep
    split_ifs
    · exact le_max_left _ _
    · exact le_refl _

theorem foldl_sepStep_le (a b : SR.DurHitbox) :
    ∀ (l : List SR.Card) (e : EReal), List.foldl (SR.sepStep a b) e l ≤ e := by
  intro l
  induction l with
  | nil => intro e; exact le_refl _
  | cons c rest ih =>
    intro e
    rw [List.foldl_cons]
    refine le_trans (ih _) ?_
    unfold SR.sepStep
    split_ifs
    · exact min_le_left _ _
    · exact le_refl _

open Classical in
theorem rectRectLoop_collide (a b : SR.DurHitbox) :
    ∀ (l : List SR.Card) (s : ℝ) (e : EReal), (s : EReal) < e →
    SR.rectRectLoop a b true l s e =
      if (∃ c ∈ l, SR.oA a b c < 0 ∧ SR.ovA a b c ≤ 0) ∨
          List.foldl (SR.sepStep a b) e l ≤
            ((List.foldl (SR.colStep a b) s l : ℝ) : EReal)
      then ⊤ else ((List.foldl (SR.colStep a b) s l : ℝ) : EReal) := by
  intro l
  induction l with
  | nil =>
    intro s e hse
    rw [SR.rectRectLoop]
    simp only [List.not_mem_nil, false_and, exists_false, List.foldl_nil,
      false_or, eq_self_iff_true, if_true]
    rw [if_neg (not_le.mpr hse)]
  | cons c rest ih =>
    intro s e hse
    rw [SR.rectRectLoop]
    simp only [eq_self_iff_true, not_true, if_true, if_false]
    by_cases ho : SR.oA a b c < 0
    · rw [if_pos ho]
      by_cases hov : SR.ovA a b c ≤ 0
      · rw [if_pos hov]
        rw [if_pos (Or.inl ⟨c, List.mem_cons_self c rest, ho, hov⟩)]
      · rw [if_neg hov]
        have hstep : SR.colStep a b s c = max s (-SR.oA a b c / SR.ovA a b c) := by
          rw [SR.colStep, if_pos ⟨ho, not_le.mp hov⟩]
        have hestep : SR.sepStep a b e c = e := by
          rw [SR.sepStep, if_neg (by
            rintro ⟨h1, -⟩
            exact absurd ho (not_lt.mpr h1))]
        by_cases hchk : e ≤ ((max s (-SR.oA a b c / SR.ovA a b c) : ℝ) : EReal)
        · rw [if_pos hchk, if_pos (by
            refine Or.inr ?_
            rw [List.foldl_cons, List.foldl_cons, hstep, hestep]
            refine le_trans (foldl_sepStep_le a b rest e) (le_trans hchk ?_)
            exact_mod_cast le_foldl_colStep a b rest _)]
        · rw [if_neg hchk]
          rw [ih _ _ (not_le.mp hchk)]
          rw [List.foldl_cons, List.foldl_cons, hstep, hestep]
          refine if_congr ?_ rfl rfl
          constructor
          · rintro (⟨x, hx, hx2⟩ | h2)
            · exact Or.inl ⟨x, List.mem_cons_of_mem c hx, hx2⟩
            · exact Or.inr h2
          · rintro (⟨x, hx, hx2⟩ | h2)
            · rcases List.mem_cons.mp hx with rfl | hx3
              · exact absurd hx2.2 hov
              · exact Or.inl ⟨x, hx3, hx2⟩
            · exact Or.inr h2
    · rw [if_neg ho]
      have hstep : SR.colStep a b s c = s := by
        rw [SR.colStep, if_neg (by
          rintro ⟨h1, -⟩
          exact ho h1)]
      by_cases hov : SR.ovA a b c < 0
      · rw [if_pos hov]
        have hestep : SR.sepStep a b e c =
            min e ((-SR.oA a b c / SR.ovA a b c : ℝ) : EReal) := by
          rw [SR.sepStep, if_pos ⟨not_lt.mp ho, hov⟩]
        by_cases hchk : min e ((-SR.oA a b c / SR.ovA a b c : ℝ) : EReal) ≤ (s : EReal)
        · rw [if_pos hchk, if_pos (by
            refine Or.inr ?_
            rw [List.foldl_cons, List.foldl_cons, hstep, hestep]
            refine le_trans (foldl_sepStep_le a b rest _) (le_trans hchk ?_)
            exact_mod_cast le_foldl_colStep a b rest _)]
        · rw [if_neg hchk]
          rw [ih _ _ (not_le.mp hchk)]
          rw [List.foldl_cons, List.foldl_cons, hstep, hestep]
          refine if_congr ?_ rfl rfl
          constructor
          · rintro (⟨x, hx, hx2⟩ | h2)
            · exact Or.inl ⟨x, List.mem_cons_of_mem c hx, hx2⟩
            · exact Or.inr h2
          · rintro (⟨x, hx, hx2⟩ | h2)
            · rcases List.mem_cons.mp hx with rfl | hx3
              · exact absurd hx2.1 ho
              · exact Or.inl ⟨x, hx3, hx2⟩
            · exact Or.inr h2
      · rw [if_neg hov]
        have hestep : SR.sepStep a b e c = e := by
          rw [SR.sepStep, if_neg (by
            rintro ⟨-, h2⟩
            exact hov h2)]
        rw [if_neg (not_le.mpr hse)]
        rw [ih _ _ hse]
        rw [List.foldl_cons, List.foldl_cons, hstep, hestep]
        refine if_congr ?_ rfl rfl
        constructor
        · rintro (⟨x, hx, hx2⟩ | h2)
          · exact Or.inl ⟨x, List.mem_cons_of_mem c hx, hx2⟩
          · exact Or.inr h2
        · rintro (⟨x, hx, hx2⟩ | h2)
          · rcases List.mem_cons.mp hx with rfl | hx3
            · exact absurd hx2.1 ho
            · exact Or.inl ⟨x, hx3, hx2⟩
          · exact Or.inr h2

open Classical in
theorem rectRectLoop_separate (a b : SR.DurHitbox) :
    ∀ (l : List SR.Card) (s : ℝ) (e : EReal), (s : EReal) < e →
    SR.rectRectLoop a b false l s e =
      if (∃ c ∈ l, SR.oA a b c < 0) ∨
          List.foldl (SR.sepStep a b) e l ≤ (s : EReal)
      then 0 else List.foldl (SR.sepStep a b) e l := by
  intro l
  induction l with
  | nil =>
    intro s e hse
    rw [SR.rectRectLoop]
    simp only [List.not_mem_nil, false_and, exists_false, List.foldl_nil,
      false_or, Bool.false_eq_true, if_false]
    rw [if_neg (not_le.mpr hse)]
  | cons c rest ih =>
    intro s e hse
    rw [SR.rectRectLoop]
    simp only [Bool.false_eq_true, not_false_iff, if_true, if_false]
    by_cases ho : SR.oA a b c < 0
    · rw [if_pos ho, if_pos (Or.inl ⟨c, List.mem_cons_self c rest, ho⟩)]
    · rw [if_neg ho]
      have hstep : SR.colStep a b s c = s := by
        rw [SR.colStep, if_neg (by
          rintro ⟨h1, -⟩
          exact ho h1)]
      by_cases hov : SR.ovA a b c < 0
      · rw [if_pos hov]
        have hestep : SR.sepStep a b e c =
            min e ((-SR.oA a b c / SR.ovA a b c : ℝ) : EReal) := by
          rw [SR.sepStep, if_pos ⟨not_lt.mp ho, hov⟩]
        by_cases hchk : min e ((-SR.oA a b c / SR.ovA a b c : ℝ) : EReal) ≤ (s : EReal)
        · rw [if_pos hchk, if_pos (by
            refine Or.inr ?_
            rw [List.foldl_cons, hestep]
            exact le_trans (foldl_sepStep_le a b rest _) hchk)]
        · rw [if_neg hchk]
          rw [ih _ _ (not_le.mp hchk)]
          rw [List.foldl_cons, hestep]
          refine if_congr ?_ rfl rfl
          constructor
          · rintro (⟨x, hx, hx2⟩ | h2)
            · exact Or.inl ⟨x, List.mem_cons_of_mem c hx, hx2⟩
            · exact Or.inr h2
          · rintro (⟨x, hx, hx2⟩ | h2)
            · rcases List.mem_cons.mp hx with rfl | hx3
              · exact absurd hx2 ho
              · exact Or.inl ⟨x, hx3, hx2⟩
            · exact Or.inr h2
      · rw [if_neg hov]
        have hestep : SR.sepStep a b e c = e := by
          rw [SR.sepStep, if_neg (by
            rintro ⟨-, h2⟩
            exact hov h2)]
        rw [if_neg (not_le.mpr hse)]
        rw [ih _ _ hse]
        rw [List.foldl_cons, hestep]
        refine if_congr ?_ rfl rfl
        constructor
        · rintro (⟨x, hx, hx2⟩ | h2)
          · exact Or.inl ⟨x, List.mem_cons_of_mem c hx, hx2⟩
          · exact Or.inr h2
        · rintro (⟨x, hx, hx2⟩ | h2)
          · rcases List.mem_cons.mp hx with rfl | hx3
            · exact absurd hx2 ho
            · exact Or.inl ⟨x, hx3, hx2⟩
          · exact Or.inr h2

theorem card_flip_flip (c : SR.Card) : c.flip.flip = c := by
  cases c <;> rfl

theorem card_values_complete (c : SR.Card) : c ∈ SR.Card.values := by
  cases c <;> simp [SR.Card.values]

theorem oA_flip (a b : SR.DurHitbox) (c : SR.Card) :
    SR.oA a b c = SR.oA b a c.flip := by
  unfold SR.oA SR.cardOverlap
  rw [card_flip_flip]
  exact add_comm _ _

theorem ovA_flip (a b : SR.DurHitbox) (c : SR.Card) :
    SR.ovA a b c = SR.ovA b a c.flip := by
  unfold SR.ovA
  rw [card_flip_flip]
  exact add_comm _ _

theorem colStep_comm (a b : SR.DurHitbox) : ∀ (s : ℝ) (x y : SR.Card),
    SR.colStep a b (SR.colStep a b s x) y =
      SR.colStep a b (SR.colStep a b s y) x := by
  intro s x y
  unfold SR.colStep
  split_ifs <;> first | rfl | exact Max.right_comm s _ _

theorem sepStep_comm (a b : SR.DurHitbox) : ∀ (e : EReal) (x y : SR.Card),
    SR.sepStep a b (SR.sepStep a b e x) y =
      SR.sepStep a b (SR.sepStep a b e y) x := by
  intro e x y
  unfold SR.sepStep
  split_ifs <;> first | rfl | exact min_right_comm e _ _

theorem foldl4_rot {β γ : Type} {f : β → γ → β}
    (hc : ∀ s x y, f (f s x) y = f (f s y) x) (s : β) (c1 c2 c3 c4 : γ) :
    f (f (f (f s c1) c2) c3) c4 = f (f (f (f s c3) c4) c1) c2 := by
  calc f (f (f (f s c1) c2) c3) c4
      = f (f (f (f s c1) c3) c2) c4 := by rw [hc (f s c1) c2 c3]
    _ = f (f (f (f s c3) c1) c2) c4 := by rw [hc s c1 c3]
    _ = f (f (f (f s c3) c1) c4) c2 := hc _ c2 c4
    _ = f (f (f (f s c3) c4) c1) c2 := by rw [hc (f s c3) c1 c4]

theorem foldS_congr_flip {a b a2 b2 : SR.DurHitbox}
    (ho : ∀ c, SR.oA a b c = SR.oA a2 b2 c.flip)
    (hov : ∀ c, SR.ovA a b c = SR.ovA a2 b2 c.flip) (s : ℝ) :
    List.foldl (SR.colStep a b) s SR.Card.values =
      List.foldl (SR.colStep a2 b2) s SR.Card.values := by
  have hstep : ∀ (t : ℝ) (c : SR.Card),
      SR.colStep a b t c = SR.colStep a2 b2 t c.flip := by
    intro t c
    unfold SR.colStep
    rw [ho c, hov c]
  simp only [SR.Card.values, List.foldl_cons, List.foldl_nil, hstep,
    SR.Card.flip]
  exact foldl4_rot (fun t x y => colStep_comm a2 b2 t x y) s _ _ _ _

theorem foldE_congr_flip {a b a2 b2 : SR.DurHitbox}
    (ho : ∀ c, SR.oA a b c = SR.oA a2 b2 c.flip)
    (hov : ∀ c, SR.ovA a b c = SR.ovA a2 b2 c.flip) (e : EReal) :
    List.foldl (SR.sepStep a b) e SR.Card.values =
      List.foldl (SR.sepStep a2 b2) e SR.Card.values := by
  have hstep : ∀ (t : EReal) (c : SR.Card),
      SR.sepStep a b t c = SR.sepStep a2 b2 t c.flip := by
    intro t c
    unfold SR.sepStep
    rw [ho c, hov c]
  simp only [SR.Card.values, List.foldl_cons, List.foldl_nil, hstep,
    SR.Card.flip]
  exact foldl4_rot (fun t x y => sepStep_comm a2 b2 t x y) e _ _ _ _

theorem rect_rect_time_congr (a b a2 b2 : SR.DurHitbox) (f : Bool)
    (ho : ∀ c, SR.oA a b c = SR.oA a2 b2 c.flip)
    (hov : ∀ c, SR.ovA a b c = SR.ovA a2 b2 c.flip) :
    SR.rect_rect_time a b f = SR.rect_rect_time a2 b2 f := by
  have hzt : ((0 : ℝ) : EReal) < ⊤ := EReal.coe_lt_top 0
  cases f with
  | true =>
    unfold SR.rect_rect_time
    rw [rectRectLoop_collide a b _ _ _ hzt,
      rectRectLoop_collide a2 b2 _ _ _ hzt]
    rw [foldS_congr_flip ho hov, foldE_congr_flip ho hov]
    refine if_congr (or_congr ?_ Iff.rfl) rfl rfl
    constructor
    · rintro ⟨c, -, h1, h2⟩
      rw [ho c] at h1
      rw [hov c] at h2
      exact ⟨c.flip, card_values_complete _, h1, h2⟩
    · rintro ⟨c, -, h1, h2⟩
      refine ⟨c.flip, card_values_complete _, ?_, ?_⟩
      · rw [ho c.flip, card_flip_flip]
        exact h1
      · rw [hov c.flip, card_flip_flip]
        exact h2
  | false =>
    unfold SR.rect_rect_time
    rw [rectRectLoop_separate a b _ _ _ hzt,
      rectRectLoop_separate a2 b2 _ _ _ hzt]
    rw [foldE_congr_flip ho hov]
    refine if_congr (or_congr ?_ Iff.rfl) rfl rfl
    constructor
    · rintro ⟨c, -, h1⟩
      rw [ho c] at h1
      exact ⟨c.flip, card_values_complete _, h1⟩
    · rintro ⟨c, -, h1⟩
      refine ⟨c.flip, card_values_complete _, ?_⟩
      rw [ho c.flip, card_flip_flip]
      exact h1

theorem rect_rect_time_symm (a b : SR.DurHitbox) (f : Bool) :
    SR.rect_rect_time a b f = SR.rect_rect_time b a f :=
  rect_rect_time_congr a b b a f (oA_flip a b) (ovA_flip a b)

theorem vec2_sub_lenSq_comm (u v : SR.Vec2) :
    (u - v).lenSq = (v - u).lenSq := by
  show SR.Vec2.lenSq ⟨u.x - v.x, u.y - v.y⟩ =
    SR.Vec2.lenSq ⟨v.x - u.x, v.y - u.y⟩
  unfold SR.Vec2.lenSq
  ring

theorem vec2_sub_dot_comm (u v w z : SR.Vec2) :
    (u - v) * (w - z) = (v - u) * (z - w) := by
  show (u.x - v.x) * (w.x - z.x) + (u.y - v.y) * (w.y - z.y) =
    (v.x - u.x) * (z.x - w.x) + (v.y - u.y) * (z.y - w.y)
  ring

theorem circle_circle_time_eq (a b a2 b2 : SR.DurHitbox) (f : Bool)
    (h1 : a.value.shape.dims.x + b.value.shape.dims.x =
      a2.value.shape.dims.x + b2.value.shape.dims.x)
    (h2 : (a.value.pos - b.value.pos).lenSq =
      (a2.value.pos - b2.value.pos).lenSq)
    (h3 : a.vel.resize.x + b.vel.resize.x =
      a2.vel.resize.x + b2.vel.resize.x)
    (h4 : (a.vel.value - b.vel.value).lenSq =
      (a2.vel.value - b2.vel.value).lenSq)
    (h5 : (a.value.pos - b.value.pos) * (a.vel.value - b.vel.value) =
      (a2.value.pos - b2.value.pos) * (a2.vel.value - b2.vel.value)) :
    SR.circle_circle_time a b f = SR.circle_circle_time a2 b2 f := by
  simp only [SR.circle_circle_time]
  rw [h1, h2, h3, h4, h5]

theorem circle_circle_time_symm (a b : SR.DurHitbox) (f : Bool) :
    SR.circle_circle_time a b f = SR.circle_circle_time b a f :=
  circle_circle_time_eq a b b a f (by ring) (vec2_sub_lenSq_comm _ _)
    (by ring) (vec2_sub_lenSq_comm _ _) (vec2_sub_dot_comm _ _ _ _)

theorem time_unpadded_symm (a b : SR.DurHitbox) (f : Bool) (d : ℝ) :
    SR.time_unpadded a b f d = SR.time_unpadded b a f d := by
  unfold SR.time_unpadded
  rcases ka : a.value.shape.kind with _ | _ <;>
    rcases kb : b.value.shape.kind with _ | _ <;> dsimp only []
  · rw [circle_circle_time_symm]
  · rw [rect_rect_time_symm]

theorem cardOverlap_flip (dst src : SR.PlacedShape) (c : SR.Card) :
    SR.cardOverlap dst src c = SR.cardOverlap src dst c.flip := by
  unfold SR.cardOverlap
  rw [card_flip_flip]
  exact add_comm _ _

theorem rectRectNormalLen_comm (p q : SR.PlacedShape) :
    SR.rectRectNormalLen p q = SR.rectRectNormalLen q p := by
  unfold SR.rectRectNormalLen
  rw [cardOverlap_flip p q .minusX, cardOverlap_flip p q .minusY,
    cardOverlap_flip p q .plusX, cardOverlap_flip p q .plusY]
  show min (min (SR.cardOverlap q p .plusX) (SR.cardOverlap q p .plusY))
      (min (SR.cardOverlap q p .minusX) (SR.cardOverlap q p .minusY)) = _
  rw [min_comm]

theorem overlaps_rect_comm {p q : SR.PlacedShape}
    (hp : p.shape.kind = .rect) (hq : q.shape.kind = .rect) :
    SR.overlaps p q ↔ SR.overlaps q p := by
  unfold SR.overlaps SR.normalLen
  rw [hp, hq]
  dsimp only []
  rw [rectRectNormalLen_comm]

theorem boundingBoxFor_kind {h : SR.DurHitbox} {d : ℝ} {s : SR.PlacedShape}
    (hs : h.boundingBoxFor d = some s) : s.shape.kind = .rect := by
  unfold SR.DurHitbox.boundingBoxFor at hs
  split_ifs at hs
  · cases hs
    rfl
  · rcases ha : h.advancedShape d with _ | e <;> rw [ha] at hs
    · exact Option.noConfusion hs
    · simp only [Option.map_some'] at hs
      cases hs
      rfl

open Classical in
theorem collide_time_symm (a b : SR.DurHitbox) :
    SR.collide_time a b = SR.collide_time b a := by
  simp only [SR.collide_time]
  rw [show min b.vel.duration a.vel.duration =
    min a.vel.duration b.vel.duration from min_comm _ _]
  rcases hA : a.boundingBoxFor (min a.vel.duration b.vel.duration)
      with _ | ba <;>
    rcases hB : b.boundingBoxFor (min a.vel.duration b.vel.duration)
      with _ | bb <;>
    simp only [Option.pure_def, Option.bind_eq_bind, Option.none_bind,
      Option.some_bind]
  exact if_congr (overlaps_rect_comm (boundingBoxFor_kind hA)
    (boundingBoxFor_kind hB)) (time_unpadded_symm a b true _) rfl

theorem vec2_add_x (u v : SR.Vec2) : (u + v).x = u.x + v.x := rfl

theorem vec2_add_y (u v : SR.Vec2) : (u + v).y = u.y + v.y := rfl

theorem vec2_mul_x (u : SR.Vec2) (r : ℝ) : (u * r).x = u.x * r := rfl

theorem vec2_mul_y (u : SR.Vec2) (r : ℝ) : (u * r).y = u.y * r := rfl

theorem separate_time_symm (a b : SR.DurHitbox) (p : ℝ) :
    SR.separate_time a b p = SR.separate_time b a p := by
  simp only [SR.separate_time]
  rcases ka : a.value.shape.kind with _ | _ <;>
    rcases kb : b.value.shape.kind with _ | _ <;> dsimp only []
  · -- circle / circle
    rw [ka, kb]
    rw [show min b.vel.duration a.vel.duration =
      min a.vel.duration b.vel.duration from min_comm _ _]
    unfold SR.time_unpadded
    dsimp only []
    rw [ka, kb]
    dsimp only []
    simp only [Option.pure_def, Option.bind_eq_bind, Option.some_bind]
    refine congrArg (fun t : EReal =>
      (if ((min a.vel.duration b.vel.duration : ℝ) : EReal) ≤ t then
        (some ⊤ : Option EReal) else some t)) ?_
    refine circle_circle_time_eq _ _ _ _ false ?_ ?_ ?_ ?_ ?_
    · dsimp only []
      simp only [vec2_add_x, vec2_mul_x]
      ring
    · exact vec2_sub_lenSq_comm _ _
    · exact add_comm _ _
    · exact vec2_sub_lenSq_comm _ _
    · exact vec2_sub_dot_comm _ _ _ _
  · -- rect / rect
    rw [ka, kb]
    rw [show min b.vel.duration a.vel.duration =
      min a.vel.duration b.vel.duration from min_comm _ _]
    unfold SR.time_unpadded
    dsimp only []
    rw [ka, kb]
    dsimp only []
    simp only [Option.pure_def, Option.bind_eq_bind, Option.some_bind]
    refine congrArg (fun t : EReal =>
      (if ((min a.vel.duration b.vel.duration : ℝ) : EReal) ≤ t then
        (some ⊤ : Option EReal) else some t)) ?_
    refine rect_rect_time_congr _ _ _ _ false ?_ ?_
    · intro c
      unfold SR.oA SR.cardOverlap
      cases c <;>
        simp only [SR.Card.flip, SR.edgeOf, vec2_add_x, vec2_add_y,
          vec2_mul_x, vec2_mul_y] <;> ring
    · intro c
      unfold SR.ovA
      cases c <;>
        simp only [SR.Card.flip, SR.edgeOf] <;> ring

/-- C3: the solvers are symmetric in their two hitbox arguments, across
all shape-kind combinations (rect/rect, circle/circle, rect/circle and
circle/rect): `collide_time(a,b) = collide_time(b,a)` and
`separate_time(a,b,p) = separate_time(b,a,p)` — including the panic
cases, which agree on both sides. -/
theorem solver_symmetry :
    (∀ a b : SR.DurHitbox, SR.collide_time a b = SR.collide_time b a) ∧
    (∀ (a b : SR.DurHitbox) (p : ℝ),
      SR.separate_time a b p = SR.separate_time b a p) :=
  ⟨collide_time_symm, separate_time_symm⟩

/-- C5 counterexample: `quad_root_ascending(1, -3, 2)` returns `2`,
although `1` is also a non-negative root of `t² - 3t + 2 = 0` and
`1 < 2` — the routine does not return the smaller non-negative root (it
returns the root at which the quadratic is ascending). -/
theorem quad_root_smaller_counterexample :
    SR.quad_root_ascending 1 (-3) 2 = some ((2 : ℝ) : EReal) ∧
    (1 : ℝ) * 1 * 1 + (-3) * 1 + 2 = 0 ∧
    (0 : ℝ) ≤ 1 ∧ (1 : ℝ) < 2 := by
  refine ⟨?_, by norm_num, by norm_num, by norm_num⟩
  rw [SR.quad_root_ascending]
  rw [show (-3 : ℝ) * -3 - 4 * 1 * 2 = 1 by norm_num]
  rw [if_neg (by norm_num), if_neg (by norm_num), SR.ieeeDiv,
    if_neg (by norm_num), Real.sqrt_one]
  norm_num

/-- C5 amended: `quad_root_ascending(a,b,c)` returns `None` whenever the
discriminant is `≤ 0`; for positive discriminant and `a ≠ 0` it returns
the ascending root `(-b + √disc)/(2a)` — the root at which the
derivative `2a·t + b` is strictly positive — which need not be the
smaller non-negative root; and for `a = 0`, `b < 0` the IEEE division
`(-b + √disc)/0` yields `+∞`.  The two computation forms
(`2c/(-b - √disc)` when `b ≥ 0`, `(-b + √disc)/(2a)` otherwise) agree
when `a ≠ 0`. -/
theorem quad_root_ascending_amended :
    (∀ a b c : ℝ, b * b - 4 * a * c ≤ 0 →
      SR.quad_root_ascending a b c = none) ∧
    (∀ a b c : ℝ, 0 < b * b - 4 * a * c → a ≠ 0 →
      SR.quad_root_ascending a b c =
        some (((-b + Real.sqrt (b * b - 4 * a * c)) / (2 * a) : ℝ) : EReal) ∧
      a * ((-b + Real.sqrt (b * b - 4 * a * c)) / (2 * a)) ^ 2 +
        b * ((-b + Real.sqrt (b * b - 4 * a * c)) / (2 * a)) + c = 0 ∧
      0 < 2 * a * ((-b + Real.sqrt (b * b - 4 * a * c)) / (2 * a)) + b) ∧
    (∀ b c : ℝ, 0 < b * b - 4 * 0 * c → b < 0 →
      SR.quad_root_ascending 0 b c = some ⊤) := by
  refine ⟨?_, ?_, ?_⟩
  · intro a b c hd
    rw [SR.quad_root_ascending, if_pos hd]
  · intro a b c hd ha
    have hs2 : Real.sqrt (b * b - 4 * a * c) ^ 2 = b * b - 4 * a * c :=
      Real.sq_sqrt hd.le
    have hspos : 0 < Real.sqrt (b * b - 4 * a * c) := Real.sqrt_pos.mpr hd
    have h2a : (2 : ℝ) * a ≠ 0 := mul_ne_zero (by norm_num) ha
    have hderiv : 2 * a * ((-b + Real.sqrt (b * b - 4 * a * c)) / (2 * a)) + b =
        Real.sqrt (b * b - 4 * a * c) := by
      field_simp
    have hsq : (2 * a * ((-b + Real.sqrt (b * b - 4 * a * c)) / (2 * a)) + b) ^ 2 =
        b * b - 4 * a * c := by
      rw [hderiv]
      exact hs2
    have hkey : 4 * a * (a * ((-b + Real.sqrt (b * b - 4 * a * c)) / (2 * a)) ^ 2 +
        b * ((-b + Real.sqrt (b * b - 4 * a * c)) / (2 * a)) + c) = 0 := by
      linear_combination hsq
    have hroot : a * ((-b + Real.sqrt (b * b - 4 * a * c)) / (2 * a)) ^ 2 +
        b * ((-b + Real.sqrt (b * b - 4 * a * c)) / (2 * a)) + c = 0 :=
      (mul_eq_zero.mp hkey).resolve_left (mul_ne_zero (by norm_num) ha)
    refine ⟨?_, hroot, ?_⟩
    · rw [SR.quad_root_ascending, if_neg (not_le.mpr hd)]
      by_cases hb : 0 ≤ b
      · rw [if_pos hb]
        have hden : -b - Real.sqrt (b * b - 4 * a * c) ≠ 0 := by
          intro h0
          nlinarith
        rw [SR.ieeeDiv, if_neg hden]
        refine congrArg some (congrArg _ ?_)
        rw [div_eq_div_iff hden h2a]
        linear_combination hs2
      · rw [if_neg hb]
        rw [SR.ieeeDiv, if_neg h2a]
    · rw [hderiv]
      exact hspos
  · intro b c hd hb
    rw [SR.quad_root_ascending, if_neg (not_le.mpr hd),
      if_neg (not_le.mpr hb)]
    rw [SR.ieeeDiv, if_pos (by norm_num), if_pos (by
      have hnn := Real.sqrt_nonneg (b * b - 4 * 0 * c)
      linarith)]

/-- Witness for C5 amended at concrete inputs: discriminant `0` gives
`None`; `t² - 1` has ascending root `1`; `a = 0, b = -1` gives `+∞`. -/
theorem quad_root_ascending_amended_witness :
    SR.quad_root_ascending 1 2 1 = none ∧
    SR.quad_root_ascending 1 0 (-1) = some ((1 : ℝ) : EReal) ∧
    SR.quad_root_ascending 0 (-1) 0 = some ⊤ := by
  have h1 := quad_root_ascending_amended.1 1 2 1 (by norm_num)
  have h2 := (quad_root_ascending_amended.2.1 1 0 (-1) (by norm_num)
    (by norm_num)).1
  have h3 := quad_root_ascending_amended.2.2 (-1) 0 (by norm_num) (by norm_num)
  refine ⟨h1, ?_, h3⟩
  rw [h2]
  have hs : Real.sqrt ((0 : ℝ) * 0 - 4 * 1 * (-1)) = 2 := by
    rw [show ((0 : ℝ) * 0 - 4 * 1 * (-1)) = 2 ^ 2 by norm_num]
    exact Real.sqrt_sq (by norm_num)
  rw [hs]
  norm_num

theorem ereal_finite_of_nonneg_lt {x : EReal} {d : ℝ} (h0 : 0 ≤ x)
    (hlt : x < (d : EReal)) : ∃ r : ℝ, x = (r : EReal) ∧ 0 ≤ r ∧ r < d := by
  induction x using EReal.rec with
  | h_bot => exact absurd h0 (by simp)
  | h_real r => exact ⟨r, rfl, by exact_mod_cast h0, by exact_mod_cast hlt⟩
  | h_top => exact absurd hlt (by simp)

theorem foldl_sepStep_nonneg (a b : SR.DurHitbox) :
    ∀ (l : List SR.Card) (e : EReal), 0 ≤ e →
      0 ≤ List.foldl (SR.sepStep a b) e l := by
  intro l
  induction l with
  | nil => intro e h0; exact h0
  | cons c rest ih =>
    intro e h0
    rw [List.foldl_cons]
    refine ih _ ?_
    unfold SR.sepStep
    split_ifs with hc
    · refine le_min h0 (EReal.coe_nonneg.2 ?_)
      exact div_nonneg_of_nonpos (neg_nonpos.mpr hc.1) hc.2.le
    · exact h0

theorem rect_rect_time_nonneg (a b : SR.DurHitbox) (f : Bool) :
    0 ≤ SR.rect_rect_time a b f := by
  have hzt : ((0 : ℝ) : EReal) < ⊤ := EReal.coe_lt_top 0
  cases f with
  | false =>
    rw [SR.rect_rect_time, rectRectLoop_separate a b _ _ _ hzt]
    split_ifs
    · exact le_refl 0
    · exact foldl_sepStep_nonneg a b _ ⊤ le_top
  | true =>
    rw [SR.rect_rect_time, rectRectLoop_collide a b _ _ _ hzt]
    split_ifs
    · exact le_top
    · exact EReal.coe_nonneg.2 (le_foldl_colStep a b _ 0)

theorem circle_circle_time_nonneg (a b : SR.DurHitbox) (f : Bool) :
    0 ≤ SR.circle_circle_time a b f := by
  simp only [SR.circle_circle_time]
  split <;> split
  · exact le_refl (0 : EReal)
  · split
    · split_ifs with hr
      · exact hr
      · exact le_top
    · exact le_top
  · exact le_refl (0 : EReal)
  · split
    · split_ifs with hr
      · exact hr
      · exact le_top
    · exact le_top

theorem cornerOf_isSome {pos dims : SR.Vec2} {sec : SR.Sector}
    (h : SR.isCorner sec) : ∃ v, SR.cornerOf pos dims sec = some v := by
  obtain ⟨hx, hy⟩ := h
  rcases sec with ⟨sx, sy⟩
  cases sx <;> cases sy <;>
    first
      | exact absurd rfl hx
      | exact absurd rfl hy
      | exact ⟨_, rfl⟩

theorem rebased_total (rect circle : SR.DurHitbox) :
    ∃ r, SR.rebased_rect_circle_collide_time rect circle = some r ∧
      0 ≤ r := by
  simp only [SR.rebased_rect_circle_collide_time]
  by_cases hc : SR.isCorner (SR.sectorAt rect.value circle.value.pos)
  · rw [if_pos hc]
    obtain ⟨pt, hpt⟩ :=
      @cornerOf_isSome rect.value.pos rect.value.shape.dims _ hc
    obtain ⟨cv, hcv⟩ :=
      @cornerOf_isSome rect.vel.value rect.vel.resize _ hc
    rw [hpt, hcv]
    simp only [Option.pure_def, Option.bind_eq_bind, Option.some_bind]
    exact ⟨_, rfl, circle_circle_time_nonneg _ _ _⟩
  · rw [if_neg hc]
    exact ⟨0, rfl, le_refl 0⟩

theorem clamp_spec {X : EReal} {d : ℝ} (h0 : 0 ≤ X) :
    ∃ r, (if (d : EReal) ≤ X then (some ⊤ : Option EReal) else some X) =
      some r ∧ 0 ≤ r ∧ (r = ⊤ ∨ r < (d : EReal)) := by
  by_cases hle : (d : EReal) ≤ X
  · exact ⟨⊤, if_pos hle, le_top, Or.inl rfl⟩
  · exact ⟨X, if_neg hle, h0, Or.inr (not_le.mp hle)⟩

theorem advancedShape_eq {h : SR.DurHitbox} {t : ℝ} (ht : t < SR.HIGH_TIME_R) :
    h.advancedShape t = some (h.value.advance h.vel.value h.vel.resize t) := by
  rw [SR.DurHitbox.advancedShape, if_pos ht]

theorem rect_circle_collide_spec (rect circle : SR.DurHitbox) (d : ℝ)
    (hd : d < SR.HIGH_TIME_R) :
    ∃ r, SR.rect_circle_collide_time rect circle d = some r ∧ 0 ≤ r := by
  simp only [SR.rect_circle_collide_time]
  by_cases hcl : (d : EReal) ≤ SR.rect_rect_time rect circle true
  · rw [if_pos hcl]
    exact ⟨⊤, rfl, le_top⟩
  · rw [if_neg hcl]
    obtain ⟨btr, hbt, h0, hlt⟩ := ereal_finite_of_nonneg_lt
      (rect_rect_time_nonneg rect circle true) (not_le.mp hcl)
    rw [hbt, EReal.toReal_coe]
    have hbth : btr < SR.HIGH_TIME_R := lt_trans hlt hd
    rw [advancedShape_eq hbth, advancedShape_eq hbth]
    simp only [Option.pure_def, Option.bind_eq_bind, Option.some_bind]
    obtain ⟨r2, hr2, hr20⟩ := rebased_total
      { rect with value := rect.value.advance rect.vel.value rect.vel.resize btr }
      { circle with value := circle.value.advance circle.vel.value circle.vel.resize btr }
    rw [hr2]
    simp only [Option.some_bind]
    exact ⟨_, rfl, add_nonneg (EReal.coe_nonneg.2 h0) hr20⟩

theorem rect_circle_separate_spec (rect circle : SR.DurHitbox) :
    ∃ r, SR.rect_circle_separate_time rect circle = some r ∧ 0 ≤ r := by
  simp only [SR.rect_circle_separate_time]
  by_cases h0eq : SR.rect_rect_time rect circle false = 0
  · rw [if_pos h0eq]
    exact ⟨0, rfl, le_refl 0⟩
  · rw [if_neg h0eq]
    by_cases hh : (SR.HIGH_TIME_R : EReal) ≤ SR.rect_rect_time rect circle false
    · rw [if_pos hh]
      exact ⟨⊤, rfl, le_top⟩
    · rw [if_neg hh]
      obtain ⟨btr, hbt, h0, hlt⟩ := ereal_finite_of_nonneg_lt
        (rect_rect_time_nonneg rect circle false) (not_le.mp hh)
      rw [hbt, EReal.toReal_coe]
      rw [advancedShape_eq hlt, advancedShape_eq hlt]
      simp only [Option.pure_def, Option.bind_eq_bind, Option.some_bind]
      obtain ⟨r2, hr2, hr20⟩ := rebased_total
        ⟨rect.value.advance rect.vel.value rect.vel.resize btr, rect.vel.negate⟩
        ⟨circle.value.advance circle.vel.value circle.vel.resize btr, circle.vel.negate⟩
      rw [hr2]
      simp only [Option.some_bind]
      exact ⟨_, rfl, le_max_right _ _⟩

theorem time_unpadded_spec (a b : SR.DurHitbox) (f : Bool) (d : ℝ)
    (hd : f = true → d < SR.HIGH_TIME_R) :
    ∃ r, SR.time_unpadded a b f d = some r ∧ 0 ≤ r ∧
      (r = ⊤ ∨ r < (d : EReal)) := by
  unfold SR.time_unpadded
  rcases ka : a.value.shape.kind with _ | _ <;>
    rcases kb : b.value.shape.kind with _ | _ <;> dsimp only []
  · simp only [Option.pure_def, Option.bind_eq_bind, Option.some_bind]
    exact clamp_spec (circle_circle_time_nonneg a b f)
  · unfold SR.rect_circle_time
    cases f with
    | false =>
      simp only [Bool.false_eq_true, if_false]
      obtain ⟨r0, hr0, h00⟩ := rect_circle_separate_spec b a
      rw [hr0]
      simp only [Option.pure_def, Option.bind_eq_bind, Option.some_bind]
      exact clamp_spec h00
    | true =>
      simp only [eq_self_iff_true, if_true]
      obtain ⟨r0, hr0, h00⟩ := rect_circle_collide_spec b a d (hd rfl)
      rw [hr0]
      simp only [Option.pure_def, Option.bind_eq_bind, Option.some_bind]
      exact clamp_spec h00
  · unfold SR.rect_circle_time
    cases f with
    | false =>
      simp only [Bool.false_eq_true, if_false]
      obtain ⟨r0, hr0, h00⟩ := rect_circle_separate_spec a b
      rw [hr0]
      simp only [Option.pure_def, Option.bind_eq_bind, Option.some_bind]
      exact clamp_spec h00
    | true =>
      simp only [eq_self_iff_true, if_true]
      obtain ⟨r0, hr0, h00⟩ := rect_circle_collide_spec a b d (hd rfl)
      rw [hr0]
      simp only [Option.pure_def, Option.bind_eq_bind, Option.some_bind]
      exact clamp_spec h00
  · simp only [Option.pure_def, Option.bind_eq_bind, Option.some_bind]
    exact clamp_spec (rect_rect_time_nonneg a b f)

theorem boundingBoxFor_total (h : SR.DurHitbox) (d : ℝ)
    (hd : d < SR.HIGH_TIME_R) : ∃ s, h.boundingBoxFor d = some s := by
  unfold SR.DurHitbox.boundingBoxFor
  split_ifs
  · exact ⟨_, rfl⟩
  · rw [advancedShape_eq hd]
    exact ⟨_, rfl⟩

theorem collide_time_range (a b : SR.DurHitbox)
    (hd : min a.vel.duration b.vel.duration < SR.HIGH_TIME_R) :
    ∃ r : EReal, SR.collide_time a b = some r ∧ 0 ≤ r ∧
      (r = ⊤ ∨ r < ((min a.vel.duration b.vel.duration : ℝ) : EReal)) := by
  obtain ⟨ba, hba⟩ := boundingBoxFor_total a _ hd
  obtain ⟨bb, hbb⟩ := boundingBoxFor_total b _ hd
  simp only [SR.collide_time]
  rw [hba, hbb]
  simp only [Option.pure_def, Option.bind_eq_bind, Option.some_bind]
  split_ifs
  · exact time_unpadded_spec a b true _ (fun _ => hd)
  · exact ⟨⊤, rfl, le_top, Or.inl rfl⟩

theorem separate_time_range (a b : SR.DurHitbox) (p : ℝ) :
    ∃ r : EReal, SR.separate_time a b p = some r ∧ 0 ≤ r ∧
      (r = ⊤ ∨ r < ((min a.vel.duration b.vel.duration : ℝ) : EReal)) := by
  simp only [SR.separate_time]
  rcases ka : a.value.shape.kind with _ | _ <;>
    rcases kb : b.value.shape.kind with _ | _ <;> dsimp only []
  · exact time_unpadded_spec _ b false _ (fun hf => Bool.noConfusion hf)
  · exact time_unpadded_spec _ b false _ (fun hf => Bool.noConfusion hf)
  · rw [show min b.vel.duration a.vel.duration =
      min a.vel.duration b.vel.duration from min_comm _ _]
    exact time_unpadded_spec _ a false _ (fun hf => Bool.noConfusion hf)
  · exact time_unpadded_spec _ b false _ (fun hf => Bool.noConfusion hf)

theorem cardOverlap_pos_of_normal {p q : SR.PlacedShape}
    (h : 0 < SR.rectRectNormalLen p q) : ∀ c, 0 < SR.cardOverlap p q c := by
  unfold SR.rectRectNormalLen at h
  obtain ⟨h1, h2⟩ := lt_min_iff.mp h
  obtain ⟨h11, h12⟩ := lt_min_iff.mp h1
  obtain ⟨h21, h22⟩ := lt_min_iff.mp h2
  intro c
  cases c
  · exact h11
  · exact h12
  · exact h21
  · exact h22

theorem cardOverlap_neg_of_normal {p q : SR.PlacedShape}
    (h : SR.rectRectNormalLen p q < 0) : ∃ c, SR.cardOverlap p q c < 0 := by
  unfold SR.rectRectNormalLen at h
  rcases min_lt_iff.mp h with h1 | h2
  · rcases min_lt_iff.mp h1 with h11 | h12
    · exact ⟨.minusX, h11⟩
    · exact ⟨.minusY, h12⟩
  · rcases min_lt_iff.mp h2 with h21 | h22
    · exact ⟨.plusX, h21⟩
    · exact ⟨.plusY, h22⟩

theorem boundingBoxFor_edge {h : SR.DurHitbox} {d : ℝ} {s : SR.PlacedShape}
    (hs : h.boundingBoxFor d = some s) :
    ∀ c, SR.edgeOf h.value.pos h.value.shape.dims c ≤
      SR.edgeOf s.pos s.shape.dims c := by
  unfold SR.DurHitbox.boundingBoxFor at hs
  split_ifs at hs
  · cases hs
    intro c
    exact le_refl _
  · rcases ha : h.advancedShape d with _ | e <;> rw [ha] at hs
    · exact Option.noConfusion hs
    · simp only [Option.map_some'] at hs
      cases hs
      intro c
      cases c <;>
        simp only [SR.edgeOf, SR.PlacedShape.boundingBox,
          SR.PlacedShape.right, SR.PlacedShape.left, SR.PlacedShape.top,
          SR.PlacedShape.bottom]
      · have hm := min_le_left (h.value.pos.x - h.value.shape.dims.x * 0.5)
          (e.pos.x - e.shape.dims.x * 0.5)
        linarith
      · have hm := min_le_left (h.value.pos.y - h.value.shape.dims.y * 0.5)
          (e.pos.y - e.shape.dims.y * 0.5)
        linarith
      · have hm := le_max_left (h.value.pos.x + h.value.shape.dims.x * 0.5)
          (e.pos.x + e.shape.dims.x * 0.5)
        linarith
      · have hm := le_max_left (h.value.pos.y + h.value.shape.dims.y * 0.5)
          (e.pos.y + e.shape.dims.y * 0.5)
        linarith

theorem bb_normal_nonneg {a b : SR.DurHitbox} {d : ℝ}
    {ba bb : SR.PlacedShape} (hba : a.boundingBoxFor d = some ba)
    (hbb : b.boundingBoxFor d = some bb)
    (h : 0 < SR.rectRectNormalLen a.value b.value) :
    0 ≤ SR.rectRectNormalLen ba bb := by
  have hcard : ∀ c, SR.cardOverlap a.value b.value c ≤
      SR.cardOverlap ba bb c := by
    intro c
    exact add_le_add (boundingBoxFor_edge hbb c) (boundingBoxFor_edge hba c.flip)
  have hpos := cardOverlap_pos_of_normal h
  unfold SR.rectRectNormalLen
  refine le_min (le_min ?_ ?_) (le_min ?_ ?_) <;>
    exact le_trans (le_of_lt (hpos _)) (hcard _)

theorem foldS_id {a b : SR.DurHitbox} (h : ∀ c, ¬ SR.oA a b c < 0) :
    ∀ (l : List SR.Card) (s : ℝ), List.foldl (SR.colStep a b) s l = s := by
  intro l
  induction l with
  | nil => intro s; rfl
  | cons c rest ih =>
    intro s
    rw [List.foldl_cons, show SR.colStep a b s c = s from by
      rw [SR.colStep, if_neg (by
        rintro ⟨h1, -⟩
        exact h c h1)]]
    exact ih s

theorem foldE_pos {a b : SR.DurHitbox} (h : ∀ c, 0 < SR.oA a b c) :
    ∀ (l : List SR.Card) (e : EReal), 0 < e →
      0 < List.foldl (SR.sepStep a b) e l := by
  intro l
  induction l with
  | nil => intro e h0; exact h0
  | cons c rest ih =>
    intro e h0
    rw [List.foldl_cons]
    refine ih _ ?_
    unfold SR.sepStep
    split_ifs with hc
    · refine lt_min h0 ?_
      have : (0 : ℝ) < -SR.oA a b c / SR.ovA a b c :=
        div_pos_of_neg_of_neg (neg_lt_zero.mpr (h c)) hc.2
      exact_mod_cast this
    · exact h0

theorem rect_rect_collide_zero {a b : SR.DurHitbox}
    (h : ∀ c, 0 < SR.oA a b c) :
    SR.rect_rect_time a b true = ((0 : ℝ) : EReal) := by
  rw [SR.rect_rect_time, rectRectLoop_collide a b _ _ _ (EReal.coe_lt_top 0)]
  rw [foldS_id (fun c => not_lt.mpr (le_of_lt (h c))) SR.Card.values 0]
  rw [if_neg (by
    rintro (⟨c, -, h1, -⟩ | h2)
    · exact absurd h1 (not_lt.mpr (le_of_lt (h c)))
    · exact absurd h2 (not_le.mpr (foldE_pos h SR.Card.values ⊤ (by simp))))]

theorem rect_rect_separate_zero {a b : SR.DurHitbox}
    (h : ∃ c, SR.oA a b c < 0) :
    SR.rect_rect_time a b false = 0 := by
  obtain ⟨c, hc⟩ := h
  rw [SR.rect_rect_time, rectRectLoop_separate a b _ _ _ (EReal.coe_lt_top 0)]
  rw [if_pos (Or.inl ⟨c, card_values_complete c, hc⟩)]

theorem collide_time_strict_overlap (a b : SR.DurHitbox)
    (ka : a.value.shape.kind = .rect) (kb : b.value.shape.kind = .rect)
    (hno : 0 < SR.normalLen a.value b.value)
    (hdp : 0 < min a.vel.duration b.vel.duration)
    (hdh : min a.vel.duration b.vel.duration < SR.HIGH_TIME_R) :
    SR.collide_time a b = some ((0 : ℝ) : EReal) := by
  have hno2 : 0 < SR.rectRectNormalLen a.value b.value := by
    unfold SR.normalLen at hno
    rw [ka, kb] at hno
    exact hno
  obtain ⟨ba, hba⟩ := boundingBoxFor_total a _ hdh
  obtain ⟨bb, hbb⟩ := boundingBoxFor_total b _ hdh
  have hov : SR.overlaps ba bb := by
    unfold SR.overlaps SR.normalLen
    rw [boundingBoxFor_kind hba, boundingBoxFor_kind hbb]
    exact bb_normal_nonneg hba hbb hno2
  simp only [SR.collide_time]
  rw [hba, hbb]
  simp only [Option.pure_def, Option.bind_eq_bind, Option.some_bind]
  rw [if_pos hov]
  unfold SR.time_unpadded
  rw [ka, kb]
  dsimp only []
  simp only [Option.pure_def, Option.bind_eq_bind, Option.some_bind]
  rw [rect_rect_collide_zero (cardOverlap_pos_of_normal hno2)]
  rw [if_neg (fun hle => absurd (EReal.coe_le_coe_iff.mp hle)
    (not_le.mpr hdp))]

theorem separate_time_already_separated (a b : SR.DurHitbox) (p : ℝ)
    (ka : a.value.shape.kind = .rect) (kb : b.value.shape.kind = .rect)
    (hsep : SR.normalLen (SR.inflateShape a.value p) b.value < 0)
    (hdp : 0 < min a.vel.duration b.vel.duration) :
    SR.separate_time a b p = some 0 := by
  have hk : (SR.inflateShape a.value p).shape.kind = SR.ShapeKind.rect := ka
  have hsep2 : SR.rectRectNormalLen (SR.inflateShape a.value p) b.value < 0 := by
    unfold SR.normalLen at hsep
    rw [hk, kb] at hsep
    exact hsep
  have hex := cardOverlap_neg_of_normal hsep2
  unfold SR.inflateShape at hex
  rw [ka] at hex
  have hz : SR.rect_rect_time
      ⟨⟨a.value.pos, ⟨SR.ShapeKind.rect,
        a.value.shape.dims + (⟨p, p⟩ : SR.Vec2) * (2 : ℝ)⟩⟩, a.vel⟩ b false =
      0 := rect_rect_separate_zero hex
  simp only [SR.separate_time]
  rw [ka, kb]
  dsimp only []
  rw [ka]
  unfold SR.time_unpadded
  dsimp only []
  rw [kb]
  dsimp only []
  simp only [Option.pure_def, Option.bind_eq_bind, Option.some_bind]
  rw [hz]
  rw [if_neg (not_le.mpr (by exact_mod_cast hdp))]

theorem c1_oA_mX : SR.oA c1A c1B .minusX = 0 := by
  norm_num [SR.oA, SR.cardOverlap, SR.edgeOf, SR.Card.flip, c1A, c1B]

theorem c1_ovA_mX : SR.ovA c1A c1B .minusX = -1 := by
  norm_num [SR.ovA, SR.edgeOf, SR.Card.flip, c1A, c1B]

theorem c1_sepStep_mX : SR.sepStep c1A c1B ⊤ .minusX = ((0 : ℝ) : EReal) := by
  rw [SR.sepStep, if_pos ⟨le_of_eq c1_oA_mX.symm, by rw [c1_ovA_mX]; norm_num⟩]
  rw [c1_oA_mX, c1_ovA_mX]
  rw [show (-(0 : ℝ) / (-1) : ℝ) = 0 by norm_num]
  exact min_eq_right le_top

theorem c1_loop_top : SR.rect_rect_time c1A c1B true = ⊤ := by
  rw [SR.rect_rect_time,
    rectRectLoop_collide c1A c1B _ _ _ (EReal.coe_lt_top 0)]
  have h1 : List.foldl (SR.sepStep c1A c1B) ⊤ SR.Card.values ≤
      ((0 : ℝ) : EReal) := by
    rw [show SR.Card.values =
      .minusX :: [SR.Card.minusY, SR.Card.plusX, SR.Card.plusY] from rfl,
      List.foldl_cons, c1_sepStep_mX]
    exact foldl_sepStep_le _ _ _ _
  have hcond : List.foldl (SR.sepStep c1A c1B) ⊤ SR.Card.values ≤
      ((List.foldl (SR.colStep c1A c1B) 0 SR.Card.values : ℝ) : EReal) := by
    refine le_trans h1 ?_
    exact_mod_cast le_foldl_colStep c1A c1B SR.Card.values 0
  rw [if_pos (Or.inr hcond)]

/-- C1 counterexample: the two squares `c1A` and `c1B` touch at `t = 0`
— the library's own `overlaps` test reports them as overlapping (normal
length `0`) — and the window `[0, 10)` is nonempty, yet
`collide_time` returns `+∞`, not `0`. -/
theorem collide_time_grazing_counterexample :
    SR.overlaps c1A.value c1B.value ∧
    min c1A.vel.duration c1B.vel.duration = 10 ∧
    SR.collide_time c1A c1B = some ⊤ := by
  have hmin : min c1A.vel.duration c1B.vel.duration = 10 := by
    norm_num [c1A, c1B]
  refine ⟨?_, hmin, ?_⟩
  · show (0 : ℝ) ≤ SR.normalLen c1A.value c1B.value
    norm_num [SR.normalLen, SR.rectRectNormalLen, SR.cardOverlap, SR.edgeOf,
      SR.Card.flip, c1A, c1B, min_def]
  · have h10 : (10 : ℝ) < SR.HIGH_TIME_R := by
      norm_num [SR.HIGH_TIME_R]
    have hbbA : c1A.boundingBoxFor 10 = some c1A.value.asRect := by
      rw [SR.DurHitbox.boundingBoxFor, if_pos ⟨rfl, rfl⟩]
    have hbbB : c1B.boundingBoxFor 10 = some (c1B.value.boundingBox
        (c1B.value.advance c1B.vel.value c1B.vel.resize 10)) := by
      rw [SR.DurHitbox.boundingBoxFor, if_neg (by
        rintro ⟨hv, -⟩
        exact absurd (congrArg SR.Vec2.x hv) (by norm_num [c1B])),
        advancedShape_eq h10, Option.map_some']
    have hov : SR.overlaps c1A.value.asRect (c1B.value.boundingBox
        (c1B.value.advance c1B.vel.value c1B.vel.resize 10)) := by
      show (0 : ℝ) ≤ _
      norm_num [SR.normalLen, SR.PlacedShape.asRect, SR.PlacedShape.boundingBox,
        SR.rectRectNormalLen, SR.cardOverlap, SR.edgeOf, SR.Card.flip,
        SR.PlacedShape.advance, SR.PlacedShape.right, SR.PlacedShape.left,
        SR.PlacedShape.top, SR.PlacedShape.bottom, c1A, c1B, vec2_add_x,
        vec2_add_y, vec2_mul_x, vec2_mul_y, min_def, max_def]
    simp only [SR.collide_time]
    rw [hmin, hbbA, hbbB]
    simp only [Option.pure_def, Option.bind_eq_bind, Option.some_bind]
    rw [if_pos hov]
    unfold SR.time_unpadded
    rw [show c1A.value.shape.kind = SR.ShapeKind.rect from rfl,
      show c1B.value.shape.kind = SR.ShapeKind.rect from rfl]
    dsimp only []
    simp only [Option.pure_def, Option.bind_eq_bind, Option.some_bind]
    rw [c1_loop_top, if_pos le_top]

theorem c2_oA_nonneg : ∀ c, ¬ SR.oA c2I c2B c < 0 := by
  intro c
  cases c <;>
    norm_num [SR.oA, SR.cardOverlap, SR.edgeOf, SR.Card.flip, c2I, c2A, c2B,
      vec2_add_x, vec2_add_y, vec2_mul_x, vec2_mul_y]

theorem c2_oA_mX : SR.oA c2I c2B .minusX = 5/4 := by
  norm_num [SR.oA, SR.cardOverlap, SR.edgeOf, SR.Card.flip, c2I, c2A, c2B,
    vec2_add_x, vec2_add_y, vec2_mul_x, vec2_mul_y]

theorem c2_ovA_mX : SR.ovA c2I c2B .minusX = -1 := by
  norm_num [SR.ovA, SR.edgeOf, SR.Card.flip, c2I, c2A, c2B]

theorem c2_ovA_mY : SR.ovA c2I c2B .minusY = 0 := by
  norm_num [SR.ovA, SR.edgeOf, SR.Card.flip, c2I, c2A, c2B]

theorem c2_ovA_pX : SR.ovA c2I c2B .plusX = 1 := by
  norm_num [SR.ovA, SR.edgeOf, SR.Card.flip, c2I, c2A, c2B]

theorem c2_ovA_pY : SR.ovA c2I c2B .plusY = 0 := by
  norm_num [SR.ovA, SR.edgeOf, SR.Card.flip, c2I, c2A, c2B]

theorem c2_step_mX : SR.sepStep c2I c2B ⊤ .minusX = ((5/4 : ℝ) : EReal) := by
  rw [SR.sepStep, if_pos ⟨le_of_lt (lt_of_lt_of_eq (by norm_num) c2_oA_mX.symm),
    by rw [c2_ovA_mX]; norm_num⟩]
  rw [c2_oA_mX, c2_ovA_mX]
  rw [show (-(5/4 : ℝ) / (-1) : ℝ) = 5/4 by norm_num]
  exact min_eq_right le_top

theorem c2_step_mY (e : EReal) : SR.sepStep c2I c2B e .minusY = e := by
  rw [SR.sepStep, if_neg (by rw [c2_ovA_mY]; norm_num)]

theorem c2_step_pX (e : EReal) : SR.sepStep c2I c2B e .plusX = e := by
  rw [SR.sepStep, if_neg (by rw [c2_ovA_pX]; norm_num)]

theorem c2_step_pY (e : EReal) : SR.sepStep c2I c2B e .plusY = e := by
  rw [SR.sepStep, if_neg (by rw [c2_ovA_pY]; norm_num)]

theorem c2_foldE : List.foldl (SR.sepStep c2I c2B) ⊤ SR.Card.values =
    ((5/4 : ℝ) : EReal) := by
  rw [show SR.Card.values =
    [SR.Card.minusX, SR.Card.minusY, SR.Card.plusX, SR.Card.plusY] from rfl]
  simp only [List.foldl_cons, List.foldl_nil]
  rw [c2_step_mX, c2_step_mY, c2_step_pX, c2_step_pY]

theorem c2_loop_val : SR.rect_rect_time c2I c2B false = ((5/4 : ℝ) : EReal) := by
  rw [SR.rect_rect_time,
    rectRectLoop_separate c2I c2B SR.Card.values 0 ⊤ (EReal.coe_lt_top 0)]
  rw [if_neg ?hcond, c2_foldE]
  case hcond =>
    rintro (⟨c, -, hc⟩ | hle)
    · exact c2_oA_nonneg c hc
    · rw [c2_foldE] at hle
      exact absurd (EReal.coe_le_coe_iff.mp hle) (by norm_num)

/-- C2 counterexample: for the squares `c2A` (still, at the origin) and
`c2B` (touching-adjacent, drifting away) with padding `1/4`,
`separate_time` returns `5/4`, a time strictly inside the window
`[0, 10)` — yet at `t = 5/4` the padded `a` and `b`, advanced to that
time, still overlap by the library's own `overlaps` test (they touch,
normal length `0`), so the returned time is not a time at which the
padded shapes no longer overlap. -/
theorem separate_time_touching_counterexample :
    SR.separate_time c2A c2B (1/4) = some ((5/4 : ℝ) : EReal) ∧
    (5/4 : ℝ) < min c2A.vel.duration c2B.vel.duration ∧
    SR.overlaps
      (SR.inflateShape
        (c2A.value.advance c2A.vel.value c2A.vel.resize (5/4)) (1/4))
      (c2B.value.advance c2B.vel.value c2B.vel.resize (5/4)) := by
  refine ⟨?_, by norm_num [c2A, c2B], ?_⟩
  · simp only [SR.separate_time]
    rw [show c2A.value.shape.kind = SR.ShapeKind.rect from rfl,
      show c2B.value.shape.kind = SR.ShapeKind.rect from rfl]
    dsimp only []
    rw [show c2A.value.shape.kind = SR.ShapeKind.rect from rfl]
    unfold SR.time_unpadded
    dsimp only []
    rw [show c2B.value.shape.kind = SR.ShapeKind.rect from rfl]
    dsimp only []
    simp only [Option.pure_def, Option.bind_eq_bind, Option.some_bind]
    have hI : (⟨⟨c2A.value.pos, ⟨SR.ShapeKind.rect,
        c2A.value.shape.dims + (⟨(1 : ℝ)/4, (1 : ℝ)/4⟩ : SR.Vec2) * (2 : ℝ)⟩⟩,
        c2A.vel⟩ : SR.DurHitbox) = c2I := rfl
    rw [hI, c2_loop_val]
    rw [if_neg (fun hle => absurd (EReal.coe_le_coe_iff.mp hle)
      (by norm_num [c2I, c2A, c2B]))]
  · show (0 : ℝ) ≤ _
    norm_num [SR.normalLen, SR.inflateShape, SR.PlacedShape.advance,
      SR.rectRectNormalLen, SR.cardOverlap, SR.edgeOf, SR.Card.flip,
      c2A, c2B, vec2_add_x, vec2_add_y, vec2_mul_x, vec2_mul_y, min_def]

/-- C1 (amended): whenever the common window
`min(a.duration, b.duration)` is below `HIGH_TIME`, `collide_time`
returns a value `r` with `0 ≤ r` and either `r = +∞` or `r` strictly
inside the window — in particular any kind-specific solver result at or
beyond the window length is clamped to `+∞` — and for rect/rect pairs
that strictly overlap at `t = 0` (positive overlap normal length) with
a nonempty window it returns `0`.  (At grazing contact, where the
normal length is exactly `0` and the library's `overlaps` test still
reports an overlap, `collide_time` may return `+∞` instead of `0`: see
the counterexample.) -/
theorem collide_time_amended (a b : SR.DurHitbox)
    (hdh : min a.vel.duration b.vel.duration < SR.HIGH_TIME_R) :
    (∃ r : EReal, SR.collide_time a b = some r ∧ 0 ≤ r ∧
      (r = ⊤ ∨ r < ((min a.vel.duration b.vel.duration : ℝ) : EReal))) ∧
    (a.value.shape.kind = .rect → b.value.shape.kind = .rect →
      0 < SR.normalLen a.value b.value →
      0 < min a.vel.duration b.vel.duration →
      SR.collide_time a b = some ((0 : ℝ) : EReal)) :=
  ⟨collide_time_range a b hdh,
   fun ka kb hno hdp => collide_time_strict_overlap a b ka kb hno hdp hdh⟩

theorem collide_time_amended_witness :
    min c1A.vel.duration c1A.vel.duration < SR.HIGH_TIME_R ∧
    ((∃ r : EReal, SR.collide_time c1A c1A = some r ∧ 0 ≤ r ∧
      (r = ⊤ ∨ r < ((min c1A.vel.duration c1A.vel.duration : ℝ) : EReal))) ∧
    (c1A.value.shape.kind = .rect → c1A.value.shape.kind = .rect →
      0 < SR.normalLen c1A.value c1A.value →
      0 < min c1A.vel.duration c1A.vel.duration →
      SR.collide_time c1A c1A = some ((0 : ℝ) : EReal))) :=
  ⟨by norm_num [c1A, SR.HIGH_TIME_R],
   collide_time_amended c1A c1A (by norm_num [c1A, SR.HIGH_TIME_R])⟩

/-- C2 (amended): `separate_time` always returns a value `r` with
`0 ≤ r` and either `r = +∞` or `r` strictly inside the window
`min(a.duration, b.duration)` (it normalizes the pair so the circle
comes first in rect/circle pairs and inflates the rect side's
dimensions by `2·padding`), and for rect/rect pairs that are already
strictly padding-separated at `t = 0` (negative inflated normal
length) with a nonempty window it returns `0`.  (The returned time
need not be one at which the padded shapes no longer overlap by the
library's own `overlaps` test: at the returned time they can still be
in grazing contact, which `overlaps` reports as overlapping — see the
counterexample.) -/
theorem separate_time_amended (a b : SR.DurHitbox) (p : ℝ) :
    (∃ r : EReal, SR.separate_time a b p = some r ∧ 0 ≤ r ∧
      (r = ⊤ ∨ r < ((min a.vel.duration b.vel.duration : ℝ) : EReal))) ∧
    (a.value.shape.kind = .rect → b.value.shape.kind = .rect →
      SR.normalLen (SR.inflateShape a.value p) b.value < 0 →
      0 < min a.vel.duration b.vel.duration →
      SR.separate_time a b p = some 0) :=
  ⟨separate_time_range a b p,
   fun ka kb hsep hdp => separate_time_already_separated a b p ka kb hsep hdp⟩

theorem separate_time_amended_witness :
    (∃ r : EReal, SR.separate_time c2A c2B (1/4) = some r ∧ 0 ≤ r ∧
      (r = ⊤ ∨ r < ((min c2A.vel.duration c2B.vel.duration : ℝ) : EReal))) ∧
    (c2A.value.shape.kind = .rect → c2B.value.shape.kind = .rect →
      SR.normalLen (SR.inflateShape c2A.value (1/4)) c2B.value < 0 →
      0 < min c2A.vel.duration c2B.vel.duration →
      SR.separate_time c2A c2B (1/4) = some 0) :=
  separate_time_amended c2A c2B (1/4)
